import Mathlib

set_option maxRecDepth 100000

/-!
# Verification of the planning-graph module (`my_planning_graph.py`)

Shallow embedding of the planning graph data structure, its construction,
the mutex engines and the level-sum heuristic extractor.

Modelling conventions:
* Ground atomic propositions (the `expr` fluents) are abstracted to `Nat`.
* Python objects `PgNode_s` / `PgNode_a` are mutable and aliased; we model an
  explicit heap (`PG.snodes` / `PG.anodes`) addressed by index, so that the
  distinction between a fresh node instance and the instance stored in a level
  set is preserved exactly as in the source.
* Python `set`s of nodes compare members with `__eq__` (literal-nodes: symbol +
  polarity; action-nodes: action name/args + persistence flag).  We model them
  as insertion-ordered lists deduplicated by that value key; the source's set
  iteration order is fixed to insertion order by this determinisation.
* Action identity (`name` plus `args`) is folded into one abstract name.
  Problem actions carry a `Sum.inl` name; the synthesized no-op actions carry
  `Sum.inr (fluent, polarity)`, reflecting the distinct `Noop_pos(f)` /
  `Noop_neg(f)` name format produced by `noop_actions`.
-/

namespace PlanGraph

/-- Value identity of a literal node (`PgNode_s.__eq__`): symbol + polarity. -/
structure SKey where
  symbol : Nat
  is_pos : Bool
deriving DecidableEq, Repr

/-- Action names: problem actions are `Sum.inl id` (name and argument list
abstracted into one identifier), no-op actions are `Sum.inr (fluent, polarity)`
mirroring the `Noop_pos(f)` / `Noop_neg(f)` format. -/
abbrev AName := Sum Nat (Nat × Bool)

/-- A ground STRIPS action (external `Action` collaborator boundary):
positive/negative preconditions and positive/negative effects. -/
structure PAction where
  name : AName
  precond_pos : List Nat
  precond_neg : List Nat
  effect_add : List Nat
  effect_rem : List Nat
deriving DecidableEq, Repr

/-- Value identity of an action node (`PgNode_a.__eq__`): action name (with
args folded in) plus the derived persistence flag. -/
structure AKey where
  name : AName
  is_persistent : Bool
deriving DecidableEq, Repr

/-- One `PgNode_s` instance: symbol, polarity, and the mutable relation sets.
`parents` holds heap ids of `PgNode_a` instances (their per-instance state is
observed); `children` and `mutex` are only ever queried by value membership, so
they store value keys. -/
structure SNode where
  symbol : Nat
  is_pos : Bool
  parents : List Nat
  children : List AKey
  mutex : List SKey
deriving DecidableEq, Repr

/-- One `PgNode_a` instance.  `prenodes` is only used for the persistence-flag
set equality, so it stores value keys; `effnodes` and `parents` store heap ids
of this node's own `PgNode_s` instances (created in the constructor resp. in
`add_action_level`), whose per-instance state matters. -/
structure ANode where
  action : PAction
  is_persistent : Bool
  prenodes : List SKey
  effnodes : List Nat
  parents : List Nat
  children : List SKey
  mutex : List AKey
deriving DecidableEq, Repr

/-- The `PlanningGraph` object: the two node heaps, the level lists (lists of
heap ids), the serial flag, the combined action list, the decoded fluent state
and the goal. -/
structure PG where
  snodes : List SNode
  anodes : List ANode
  s_levels : List (List Nat)
  a_levels : List (List Nat)
  serial : Bool
  all_actions : List PAction
  fs_pos : List Nat
  fs_neg : List Nat
  goal : List Nat
deriving DecidableEq, Repr

def defSNode : SNode := ⟨0, true, [], [], []⟩

def defANode : ANode := ⟨⟨Sum.inl 0, [], [], [], []⟩, false, [], [], [], [], []⟩

def sAt (g : PG) (i : Nat) : SNode := g.snodes.getD i defSNode

def aAt (g : PG) (i : Nat) : ANode := g.anodes.getD i defANode

def skeyOf (g : PG) (i : Nat) : SKey := ⟨(sAt g i).symbol, (sAt g i).is_pos⟩

def akeyOf (g : PG) (i : Nat) : AKey := ⟨(aAt g i).action.name, (aAt g i).is_persistent⟩

/-- Boolean value membership for literal keys (Python `in` on a set of
`PgNode_s`). -/
def memSKey (l : List SKey) (k : SKey) : Bool := l.any (fun x => decide (x = k))

/-- Boolean value membership for action keys (Python `in` on a set of
`PgNode_a`). -/
def memAKey (l : List AKey) (k : AKey) : Bool := l.any (fun x => decide (x = k))

def memNat (l : List Nat) (n : Nat) : Bool := l.any (fun x => decide (x = n))

/-- Python `set.add` on a set of literal keys: keep the first instance. -/
def skeySetAdd (l : List SKey) (k : SKey) : List SKey := if memSKey l k then l else l ++ [k]

/-- Python `set.add` on a set of action keys. -/
def akeySetAdd (l : List AKey) (k : AKey) : List AKey := if memAKey l k then l else l ++ [k]

/-- Iterated `set.add`: insertion-ordered deduplication by value. -/
def dedupSKeys (l : List SKey) : List SKey := l.foldl skeySetAdd []

/-- The literal keys of a level's member instances. -/
def levelKeys (g : PG) (L : List Nat) : List SKey := L.map (skeyOf g)

def aLevelKeys (g : PG) (L : List Nat) : List AKey := L.map (akeyOf g)

/-- `set.add` of a literal-node instance into a level set: membership is by
value, the first instance with a given key is kept. -/
def sSetAdd (g : PG) (L : List Nat) (i : Nat) : List Nat :=
  if memSKey (levelKeys g L) (skeyOf g i) then L else L ++ [i]

/-- `set.add` of an action-node instance into a level set. -/
def aSetAdd (g : PG) (L : List Nat) (i : Nat) : List Nat :=
  if memAKey (aLevelKeys g L) (akeyOf g i) then L else L ++ [i]

/-- In-place update of the `i`-th list entry (mutation of one heap object). -/
def updAt {α : Type} (f : α → α) : List α → Nat → List α
  | [], _ => []
  | x :: xs, 0 => f x :: xs
  | x :: xs, n + 1 => x :: updAt f xs n

def updS (g : PG) (i : Nat) (f : SNode → SNode) : PG :=
  { g with snodes := updAt f g.snodes i }

def updA (g : PG) (i : Nat) (f : ANode → ANode) : PG :=
  { g with anodes := updAt f g.anodes i }

/-- `mutexify` on two literal-node instances: each node's mutex set gains the
other node (by value). -/
def mutexifyS (g : PG) (i j : Nat) : PG :=
  let g1 := updS g i (fun n => { n with mutex := skeySetAdd n.mutex (skeyOf g j) })
  updS g1 j (fun n => { n with mutex := skeySetAdd n.mutex (skeyOf g i) })

/-- `mutexify` on two action-node instances.  (The source's runtime type check
rejecting mixed kinds is enforced statically by the separate heaps.) -/
def mutexifyA (g : PG) (i j : Nat) : PG :=
  let g1 := updA g i (fun n => { n with mutex := akeySetAdd n.mutex (akeyOf g j) })
  updA g1 j (fun n => { n with mutex := akeySetAdd n.mutex (akeyOf g i) })

/-- `PgNode.is_mutex` for literal nodes: value membership of `other` in
`self.mutex`. -/
def sIsMutex (g : PG) (selfId otherId : Nat) : Bool :=
  memSKey (sAt g selfId).mutex (skeyOf g otherId)

/-- `PgNode.is_mutex` for action nodes. -/
def aIsMutex (g : PG) (selfId otherId : Nat) : Bool :=
  memAKey (aAt g selfId).mutex (akeyOf g otherId)

/-- `PgNode_a.precond_s_nodes` as a value set: positive then negative
preconditions, deduplicated. -/
def preKeysOf (a : PAction) : List SKey :=
  dedupSKeys (a.precond_pos.map (fun p => ⟨p, true⟩) ++ a.precond_neg.map (fun p => ⟨p, false⟩))

/-- `PgNode_a.effect_s_nodes` as a value set: add effects then remove effects,
deduplicated. -/
def effKeysOf (a : PAction) : List SKey :=
  dedupSKeys (a.effect_add.map (fun e => ⟨e, true⟩) ++ a.effect_rem.map (fun e => ⟨e, false⟩))

/-- Python set equality (same elements): mutual containment. -/
def keySetEq (l1 l2 : List SKey) : Bool := l1.all (memSKey l2) && l2.all (memSKey l1)

/-- The `is_persistent` flag computed by the `PgNode_a` constructor:
`self.prenodes == self.effnodes`. -/
def isPersistentOf (a : PAction) : Bool := keySetEq (preKeysOf a) (effKeysOf a)

/-- The positive no-op `Noop_pos(f)` synthesized by `noop_actions`. -/
def noopPos (f : Nat) : PAction := ⟨Sum.inr (f, true), [f], [], [f], []⟩

/-- The negative no-op `Noop_neg(f)`. -/
def noopNeg (f : Nat) : PAction := ⟨Sum.inr (f, false), [], [f], [], [f]⟩

/-- `PlanningGraph.noop_actions`: a positive and a negative persistence action
for every fluent of the vocabulary, in vocabulary order. -/
def noop_actions : List Nat → List PAction
  | [] => []
  | f :: rest => noopPos f :: noopNeg f :: noop_actions rest

/-- Allocate fresh `PgNode_s` instances (empty relation sets) for a list of
literal keys, returning the grown heap and the new ids in order. -/
def allocSNodes (g : PG) : List SKey → PG × List Nat
  | [] => (g, [])
  | k :: ks =>
    let g1 : PG := { g with snodes := g.snodes ++ [⟨k.symbol, k.is_pos, [], [], []⟩] }
    let r := allocSNodes g1 ks
    (r.1, g.snodes.length :: r.2)

/-- The enabledness test of `add_action_level`: every positive precondition is
present positively and every negative precondition negatively in literal level
`level`.  (The source checks the positive loop first and short-circuits; the
resulting predicate is this conjunction.) -/
def enabledAt (g : PG) (level : Nat) (a : PAction) : Bool :=
  let prevKeys := levelKeys g (g.s_levels.getD level [])
  a.precond_pos.all (fun p => memSKey prevKeys ⟨p, true⟩) &&
  a.precond_neg.all (fun p => memSKey prevKeys ⟨p, false⟩)

/-- The `PgNode_a` constructor together with the fresh parent instances built
during the precondition scan: allocate the fresh parent literal instances
(note: these are *new* `PgNode_s` objects, not the level's instances), then
the node's own effect instances, then append the action node.  Returns the new
graph and the action node's id. -/
def mkActionNode (g : PG) (a : PAction) : PG × Nat :=
  let p1 := allocSNodes g (preKeysOf a)
  let p2 := allocSNodes p1.1 (effKeysOf a)
  let anode : ANode := ⟨a, isPersistentOf a, preKeysOf a, p2.2, p1.2, [], []⟩
  ({ p2.1 with anodes := p2.1.anodes ++ [anode] }, p2.1.anodes.length)

/-- The loop updating the children of the matching literal instances of level
`level` with the new action node (by value). -/
def linkChildren (g : PG) (level : Nat) (ks : List SKey) (ak : AKey) : PG :=
  (g.s_levels.getD level []).foldl (fun gg sid =>
    if memSKey ks (skeyOf gg sid) then
      updS gg sid (fun n => { n with children := akeySetAdd n.children ak })
    else gg) g

/-- The body of `add_action_level`'s per-action loop.  If the action is
enabled: create the action node with its fresh parent and effect instances,
link it as a child of each matching level literal instance, and set-add it to
action level `level`. -/
def processAction (g : PG) (level : Nat) (a : PAction) : PG :=
  if enabledAt g level a then
    let p := mkActionNode g a
    let g4 := linkChildren p.1 level (preKeysOf a) ⟨a.name, isPersistentOf a⟩
    { g4 with a_levels := updAt (fun L => aSetAdd g4 L p.2) g4.a_levels level }
  else g

/-- `PlanningGraph.add_action_level`: append an empty action level, then
process every candidate action (problem actions followed by no-ops). -/
def add_action_level (g : PG) (level : Nat) : PG :=
  let g0 : PG := { g with a_levels := g.a_levels ++ [[]] }
  g0.all_actions.foldl (fun gg a => processAction gg level a) g0

/-- The inner body of `add_literal_level`'s double loop, for one action node
`aid` and one of its own effect instances `eid`: the effect instance's parents
gain the action node, the action node's children gain the effect literal, and
the effect *instance* is set-added to literal level `level` (if a value-equal
instance is already present, the set keeps the earlier instance). -/
def processEffnode (g : PG) (aid eid : Nat) (level : Nat) : PG :=
  let g1 := updS g eid (fun n =>
    { n with parents := if memAKey (n.parents.map (akeyOf g)) (akeyOf g aid) then n.parents
                        else n.parents ++ [aid] })
  let g2 := updA g1 aid (fun n => { n with children := skeySetAdd n.children (skeyOf g1 eid) })
  { g2 with s_levels := updAt (fun L => sSetAdd g2 L eid) g2.s_levels level }

/-- The inner loop of `add_literal_level` over one action node's own effect
instances. -/
def effFold (g : PG) (aid : Nat) (level : Nat) : PG :=
  ((aAt g aid).effnodes).foldl (fun gg2 eid => processEffnode gg2 aid eid level) g

/-- `PlanningGraph.add_literal_level`: append an empty literal level, then for
every action node of level `level - 1` and each of its effect instances run
`processEffnode`. -/
def add_literal_level (g : PG) (level : Nat) : PG :=
  let g0 : PG := { g with s_levels := g.s_levels ++ [[]] }
  (g0.a_levels.getD (level - 1) []).foldl (fun gg aid => effFold gg aid level) g0

/-- `PlanningGraph.serialize_actions`: false unless the graph is serial and
neither action is persistent. -/
def serialize_actions (g : PG) (i j : Nat) : Bool :=
  if !g.serial then false
  else if (aAt g i).is_persistent || (aAt g j).is_persistent then false
  else true

/-- `PlanningGraph.inconsistent_effects_mutex`: one action's add effects meet
the other's remove effects (checked in both directions via the two loops). -/
def inconsistent_effects_mutex (g : PG) (i j : Nat) : Bool :=
  let a1 := (aAt g i).action
  let a2 := (aAt g j).action
  a1.effect_add.any (fun e => memNat a2.effect_rem e) ||
  a1.effect_rem.any (fun e => memNat a2.effect_add e)

/-- `PlanningGraph.interference_mutex`: the four directional loops. -/
def interference_mutex (g : PG) (i j : Nat) : Bool :=
  let a1 := (aAt g i).action
  let a2 := (aAt g j).action
  a1.effect_add.any (fun e => memNat a2.precond_neg e) ||
  a1.effect_rem.any (fun e => memNat a2.precond_pos e) ||
  a1.precond_pos.any (fun e => memNat a2.effect_rem e) ||
  a1.precond_neg.any (fun e => memNat a2.effect_add e)

/-- `PlanningGraph.competing_needs_mutex`: some parent instance of the first
action node is mutex (per the *parent instances'* own mutex sets) with some
parent instance of the second. -/
def competing_needs_mutex (g : PG) (i j : Nat) : Bool :=
  (aAt g i).parents.any (fun p1 => (aAt g j).parents.any (fun p2 => sIsMutex g p2 p1))

def aMutexCond (g : PG) (i j : Nat) : Bool :=
  serialize_actions g i j || inconsistent_effects_mutex g i j ||
  interference_mutex g i j || competing_needs_mutex g i j

def aPairStep (g : PG) (i j : Nat) : PG := if aMutexCond g i j then mutexifyA g i j else g

/-- The unordered-pair double loop of `update_a_mutex` / `update_s_mutex`:
`for i, n1 in enumerate(nodelist[:-1]): for n2 in nodelist[i+1:]`. -/
def pairUpdate (step : PG → Nat → Nat → PG) : PG → List Nat → PG
  | g, [] => g
  | g, i :: rest => pairUpdate step (rest.foldl (fun gg j => step gg i j) g) rest

/-- `PlanningGraph.update_a_mutex`. -/
def update_a_mutex (g : PG) (lvl : List Nat) : PG := pairUpdate aPairStep g lvl

/-- `PlanningGraph.negation_mutex`: same symbol, different node value. -/
def negation_mutex (g : PG) (i j : Nat) : Bool :=
  decide ((sAt g i).symbol = (sAt g j).symbol) && !(decide (skeyOf g i = skeyOf g j))

/-- `node in parent.children` for the inconsistent-support joint-producer
check: value membership of the literal in the action node's children. -/
def sKeyInChildren (g : PG) (aid sid : Nat) : Bool :=
  memSKey (aAt g aid).children (skeyOf g sid)

/-- Inner loop of `inconsistent_support_mutex` over `node_s2.parents`, carrying
the `result` accumulator.  First component: an early `return False` fired. -/
def isupInner (g : PG) (s1 s2 pa : Nat) : List Nat → Bool → Bool × Bool
  | [], result => (false, result)
  | pb :: rest, result =>
    if aIsMutex g pa pb then
      if (sKeyInChildren g pa s1 && sKeyInChildren g pa s2) ||
         (sKeyInChildren g pb s1 && sKeyInChildren g pb s2) then
        (true, false)
      else isupInner g s1 s2 pa rest true
    else isupInner g s1 s2 pa rest result

/-- Outer loop of `inconsistent_support_mutex` over `node_s1.parents`. -/
def isupOuter (g : PG) (s1 s2 : Nat) : List Nat → Bool → Bool
  | [], result => result
  | pa :: rest, result =>
    match isupInner g s1 s2 pa (sAt g s2).parents result with
    | (true, v) => v
    | (false, r) => isupOuter g s1 s2 rest r

/-- `PlanningGraph.inconsistent_support_mutex`: scan parent pairs, record
whether some pair is mutex; on finding a mutex pair one of whose members has
both literals among its children, return `False` immediately. -/
def inconsistent_support_mutex (g : PG) (s1 s2 : Nat) : Bool :=
  isupOuter g s1 s2 (sAt g s1).parents false

def sMutexCond (g : PG) (i j : Nat) : Bool :=
  negation_mutex g i j || inconsistent_support_mutex g i j

def sPairStep (g : PG) (i j : Nat) : PG := if sMutexCond g i j then mutexifyS g i j else g

/-- `PlanningGraph.update_s_mutex`. -/
def update_s_mutex (g : PG) (lvl : List Nat) : PG := pairUpdate sPairStep g lvl

/-- The level-off test `self.s_levels[level] == self.s_levels[level - 1]`:
Python set equality, i.e. mutual value containment. -/
def sLevelSetEq (g : PG) (l1 l2 : List Nat) : Bool :=
  l1.all (fun i => memSKey (levelKeys g l2) (skeyOf g i)) &&
  l2.all (fun i => memSKey (levelKeys g l1) (skeyOf g i))

/-- One iteration of the level-off loop: add an action level, compute its
mutexes, add the next literal level, compute its mutexes. -/
def graphStep (g : PG) (level : Nat) : PG :=
  let g1 := add_action_level g level
  let g2 := update_a_mutex g1 (g1.a_levels.getD level [])
  let g3 := add_literal_level g2 (level + 1)
  update_s_mutex g3 (g3.s_levels.getD (level + 1) [])

/-- The `while not leveled` loop of `create_graph`, with explicit fuel (a model
artifact; the source loop has no bound).  `none` means the fuel ran out. -/
def createGraphLoop : Nat → Nat → PG → Option PG
  | 0, _, _ => none
  | fuel + 1, level, g =>
    let g' := graphStep g level
    if sLevelSetEq g' (g'.s_levels.getD (level + 1) []) (g'.s_levels.getD level []) then some g'
    else createGraphLoop fuel (level + 1) g'

/-- Seeding of S0: allocate a fresh literal instance for each initial-state
literal and set-add it to level 0. -/
def seedLit (g : PG) (k : SKey) : PG :=
  let L := g.s_levels.getD 0 []
  if memSKey (levelKeys g L) k then g
  else
    let i := g.snodes.length
    let g1 : PG := { g with snodes := g.snodes ++ [⟨k.symbol, k.is_pos, [], [], []⟩] }
    { g1 with s_levels := updAt (fun L0 => L0 ++ [i]) g1.s_levels 0 }

def seedS0 (g : PG) : PG :=
  let g0 : PG := { g with s_levels := g.s_levels ++ [[]] }
  (g0.fs_pos.map (fun p => SKey.mk p true) ++ g0.fs_neg.map (fun p => SKey.mk p false)).foldl
    seedLit g0

def pgAlreadyCreatedMsg : String :=
  "Planning Graph already created; construct a new planning graph for each new state in the planning sequence"

def fuelExhaustedMsg : String := "model artifact: construction fuel exhausted"

/-- `PlanningGraph.create_graph`: fatal error if any level list is already
populated (the instance is returned unchanged together with the error),
otherwise seed S0 and run the level-off loop. -/
def create_graph (fuel : Nat) (g : PG) : PG × Option String :=
  if g.s_levels.length != 0 || g.a_levels.length != 0 then (g, some pgAlreadyCreatedMsg)
  else
    match createGraphLoop fuel 0 (seedS0 g) with
    | some g' => (g', none)
    | none => (g, some fuelExhaustedMsg)

/-- Modelled from the spec: `decode_state` (in `lp_utils.py`, a repository file
not included under `src/`) splits a T/F-encoded state over the vocabulary into
the positive and the negative fluent lists, in vocabulary order. -/
def decode_state (vocab : List Nat) (state : List Bool) : List Nat × List Nat :=
  ((vocab.zip state).filterMap (fun p => if p.2 then some p.1 else none),
   (vocab.zip state).filterMap (fun p => if p.2 then none else some p.1))

/-- The fields set up by `PlanningGraph.__init__` before `create_graph` runs:
decoded fluent state, combined action list (problem actions plus no-ops),
empty level lists. -/
def initPG (acts : List PAction) (vocab : List Nat) (goal : List Nat)
    (state : List Bool) (serial : Bool) : PG :=
  { snodes := [], anodes := [], s_levels := [], a_levels := [], serial := serial,
    all_actions := acts ++ noop_actions vocab,
    fs_pos := (decode_state vocab state).1, fs_neg := (decode_state vocab state).2,
    goal := goal }

/-- `PlanningGraph.__init__`: build the graph (with fuel, a model artifact). -/
def mkPlanningGraph (fuel : Nat) (acts : List PAction) (vocab : List Nat) (goal : List Nat)
    (state : List Bool) (serial : Bool) : PG × Option String :=
  create_graph fuel (initPG acts vocab goal state serial)

/-- `self.goal_states`: the goal literals queried as positive literal nodes,
as a set. -/
def goalStates (g : PG) : List SKey := dedupSKeys (g.goal.map (fun s => ⟨s, true⟩))

def levelHasKey (g : PG) (L : List Nat) (k : SKey) : Bool := memSKey (levelKeys g L) k

/-- The inner loop of `h_levelsum` for one goal literal: scan the literal
levels with their indices, stopping at the first level containing the literal
(`break`); if no level contains it the loop ends without contributing. -/
def levelCostGo (g : PG) (k : SKey) : Nat → List (List Nat) → Nat
  | _, [] => 0
  | i, L :: rest => if levelHasKey g L k then i else levelCostGo g k (i + 1) rest

/-- The contribution of one goal literal to `h_levelsum`: the index of the
first literal level containing it, or 0 if no level does. -/
def levelCost (g : PG) (k : SKey) : Nat := levelCostGo g k 0 g.s_levels

/-- `PlanningGraph.h_levelsum`. -/
def h_levelsum (g : PG) : Nat := (goalStates g).foldl (fun acc k => acc + levelCost g k) 0

end PlanGraph

/-!
## Spec-side comparison definitions and concrete example graphs
-/

namespace PlanGraph

/-- An action node of the previous action level "able to produce" a literal:
the literal occurs (by value) among its effect literals. -/
def producesKey (g : PG) (aid : Nat) (k : SKey) : Bool :=
  (aAt g aid).effnodes.any (fun e => decide (skeyOf g e = k))

/-- Follows the spec's words for inconsistent support (claim C1): the pair is
mutex iff every action-node able to produce the first literal is mutex with
every action-node able to produce the second, unless some single action-node
produces both literals, in which case the pair is not mutex. -/
def specInconsistentSupport (g : PG) (aLevel : Nat) (s1 s2 : Nat) : Bool :=
  let prods := g.a_levels.getD aLevel []
  if prods.any (fun aid => producesKey g aid (skeyOf g s1) && producesKey g aid (skeyOf g s2))
  then false
  else
    (prods.filter (fun aid => producesKey g aid (skeyOf g s1))).all (fun p1 =>
      (prods.filter (fun aid => producesKey g aid (skeyOf g s2))).all (fun p2 =>
        aIsMutex g p1 p2))

/-- A literal-node of a level matching one of an action's precondition
literals (a member of the spec's notion of the action's parent set). -/
def matchesPrecondOf (g : PG) (a : PAction) (sid : Nat) : Bool :=
  memSKey (preKeysOf a) (skeyOf g sid)

/-- Follows the spec's words for competing needs (claim C2): some literal-node
of the previous literal level matching a precondition of the first action is
marked mutex with some literal-node of that level matching a precondition of
the second action. -/
def specCompetingNeeds (g : PG) (sLevel : Nat) (i j : Nat) : Bool :=
  (g.s_levels.getD sLevel []).any (fun s1 =>
    matchesPrecondOf g (aAt g i).action s1 &&
    (g.s_levels.getD sLevel []).any (fun s2 =>
      matchesPrecondOf g (aAt g j).action s2 && sIsMutex g s1 s2))

/-- Example problem A.  Fluents X = 0, Y = 1, Q = 2, all initially false;
actions (all with empty preconditions, hence always enabled):
`a1` adds X and Q, `a2` adds X, `b` adds Y and removes Q, `c` adds both X and
Y; non-serial mode. -/
def exA : PG :=
  (mkPlanningGraph 5
    [⟨Sum.inl 0, [], [], [0, 2], []⟩,
     ⟨Sum.inl 1, [], [], [0], []⟩,
     ⟨Sum.inl 2, [], [], [1], [2]⟩,
     ⟨Sum.inl 3, [], [], [0, 1], []⟩]
    [0, 1, 2] [] [false, false, false] false).1

/-- The fully evaluated value of `exA` (see `exA_eq`), recorded so that facts
about `exA` can be checked against the concrete heap without re-running the
construction inside every proof. -/
def exA_val : PG :=
  { snodes := [{ symbol := 0, is_pos := false, parents := [], children := [{ name := Sum.inr (0, false), is_persistent := true }], mutex := [] }, { symbol := 1, is_pos := false, parents := [], children := [{ name := Sum.inr (1, false), is_persistent := true }], mutex := [] }, { symbol := 2, is_pos := false, parents := [], children := [{ name := Sum.inr (2, false), is_persistent := true }], mutex := [] }, { symbol := 0, is_pos := true, parents := [0], children := [{ name := Sum.inr (0, true), is_persistent := true }], mutex := [{ symbol := 1, is_pos := true }, { symbol := 2, is_pos := false }, { symbol := 0, is_pos := false }] }, { symbol := 2, is_pos := true, parents := [0], children := [{ name := Sum.inr (2, true), is_persistent := true }], mutex := [{ symbol := 1, is_pos := true }, { symbol := 2, is_pos := false }, { symbol := 0, is_pos := false }] }, { symbol := 0, is_pos := true, parents := [1], children := [], mutex := [] }, { symbol := 1, is_pos := true, parents := [2], children := [{ name := Sum.inr (1, true), is_persistent := true }], mutex := [{ symbol := 0, is_pos := true }, { symbol := 2, is_pos := true }, { symbol := 1, is_pos := false }] }, { symbol := 2, is_pos := false, parents := [2], children := [{ name := Sum.inr (2, false), is_persistent := true }], mutex := [{ symbol := 0, is_pos := true }, { symbol := 2, is_pos := true }, { symbol := 1, is_pos := false }] }, { symbol := 0, is_pos := true, parents := [3], children := [], mutex := [] }, { symbol := 1, is_pos := true, parents := [3], children := [], mutex := [] }, { symbol := 0, is_pos := false, parents := [], children := [], mutex := [] }, { symbol := 0, is_pos := false, parents := [4], children := [{ name := Sum.inr (0, false), is_persistent := true }], mutex := [{ symbol := 0, is_pos := true }, { symbol := 2, is_pos := true }] }, { symbol := 1, is_pos := false, parents := [], children := [], mutex := [] }, { symbol := 1, is_pos := false, parents := [5], children := [{ name := Sum.inr (1, false), is_persistent := true }], mutex := [{ symbol := 1, is_pos := true }, { symbol := 2, is_pos := false }] }, { symbol := 2, is_pos := false, parents := [], children := [], mutex := [] }, { symbol := 2, is_pos := false, parents := [6], children := [], mutex := [] }, { symbol := 0, is_pos := true, parents := [7], children := [], mutex := [{ symbol := 1, is_pos := true }, { symbol := 2, is_pos := false }, { symbol := 0, is_pos := false }] }, { symbol := 2, is_pos := true, parents := [7], children := [], mutex := [{ symbol := 1, is_pos := true }, { symbol := 2, is_pos := false }, { symbol := 0, is_pos := false }] }, { symbol := 0, is_pos := true, parents := [8], children := [], mutex := [] }, { symbol := 1, is_pos := true, parents := [9], children := [], mutex := [{ symbol := 0, is_pos := true }, { symbol := 2, is_pos := true }, { symbol := 1, is_pos := false }] }, { symbol := 2, is_pos := false, parents := [9], children := [], mutex := [{ symbol := 0, is_pos := true }, { symbol := 2, is_pos := true }, { symbol := 1, is_pos := false }] }, { symbol := 0, is_pos := true, parents := [10], children := [], mutex := [] }, { symbol := 1, is_pos := true, parents := [10], children := [], mutex := [] }, { symbol := 0, is_pos := true, parents := [], children := [], mutex := [] }, { symbol := 0, is_pos := true, parents := [11], children := [], mutex := [] }, { symbol := 0, is_pos := false, parents := [], children := [], mutex := [] }, { symbol := 0, is_pos := false, parents := [12], children := [], mutex := [{ symbol := 0, is_pos := true }, { symbol := 2, is_pos := true }] }, { symbol := 1, is_pos := true, parents := [], children := [], mutex := [] }, { symbol := 1, is_pos := true, parents := [13], children := [], mutex := [] }, { symbol := 1, is_pos := false, parents := [], children := [], mutex := [] }, { symbol := 1, is_pos := false, parents := [14], children := [], mutex := [{ symbol := 1, is_pos := true }, { symbol := 2, is_pos := false }] }, { symbol := 2, is_pos := true, parents := [], children := [], mutex := [] }, { symbol := 2, is_pos := true, parents := [15], children := [], mutex := [] }, { symbol := 2, is_pos := false, parents := [], children := [], mutex := [] }, { symbol := 2, is_pos := false, parents := [16], children := [], mutex := [] }], anodes := [{ action := { name := Sum.inl 0, precond_pos := [], precond_neg := [], effect_add := [0, 2], effect_rem := [] }, is_persistent := false, prenodes := [], effnodes := [3, 4], parents := [], children := [{ symbol := 0, is_pos := true }, { symbol := 2, is_pos := true }], mutex := [{ name := Sum.inl 2, is_persistent := false }, { name := Sum.inr (0, false), is_persistent := true }, { name := Sum.inr (2, false), is_persistent := true }] }, { action := { name := Sum.inl 1, precond_pos := [], precond_neg := [], effect_add := [0], effect_rem := [] }, is_persistent := false, prenodes := [], effnodes := [5], parents := [], children := [{ symbol := 0, is_pos := true }], mutex := [{ name := Sum.inr (0, false), is_persistent := true }] }, { action := { name := Sum.inl 2, precond_pos := [], precond_neg := [], effect_add := [1], effect_rem := [2] }, is_persistent := false, prenodes := [], effnodes := [6, 7], parents := [], children := [{ symbol := 1, is_pos := true }, { symbol := 2, is_pos := false }], mutex := [{ name := Sum.inl 0, is_persistent := false }, { name := Sum.inr (1, false), is_persistent := true }] }, { action := { name := Sum.inl 3, precond_pos := [], precond_neg := [], effect_add := [0, 1], effect_rem := [] }, is_persistent := false, prenodes := [], effnodes := [8, 9], parents := [], children := [{ symbol := 0, is_pos := true }, { symbol := 1, is_pos := true }], mutex := [{ name := Sum.inr (0, false), is_persistent := true }, { name := Sum.inr (1, false), is_persistent := true }] }, { action := { name := Sum.inr (0, false), precond_pos := [], precond_neg := [0], effect_add := [], effect_rem := [0] }, is_persistent := true, prenodes := [{ symbol := 0, is_pos := false }], effnodes := [11], parents := [10], children := [{ symbol := 0, is_pos := false }], mutex := [{ name := Sum.inl 0, is_persistent := false }, { name := Sum.inl 1, is_persistent := false }, { name := Sum.inl 3, is_persistent := false }] }, { action := { name := Sum.inr (1, false), precond_pos := [], precond_neg := [1], effect_add := [], effect_rem := [1] }, is_persistent := true, prenodes := [{ symbol := 1, is_pos := false }], effnodes := [13], parents := [12], children := [{ symbol := 1, is_pos := false }], mutex := [{ name := Sum.inl 2, is_persistent := false }, { name := Sum.inl 3, is_persistent := false }] }, { action := { name := Sum.inr (2, false), precond_pos := [], precond_neg := [2], effect_add := [], effect_rem := [2] }, is_persistent := true, prenodes := [{ symbol := 2, is_pos := false }], effnodes := [15], parents := [14], children := [{ symbol := 2, is_pos := false }], mutex := [{ name := Sum.inl 0, is_persistent := false }] }, { action := { name := Sum.inl 0, precond_pos := [], precond_neg := [], effect_add := [0, 2], effect_rem := [] }, is_persistent := false, prenodes := [], effnodes := [16, 17], parents := [], children := [{ symbol := 0, is_pos := true }, { symbol := 2, is_pos := true }], mutex := [{ name := Sum.inl 2, is_persistent := false }, { name := Sum.inr (0, false), is_persistent := true }, { name := Sum.inr (2, false), is_persistent := true }] }, { action := { name := Sum.inl 1, precond_pos := [], precond_neg := [], effect_add := [0], effect_rem := [] }, is_persistent := false, prenodes := [], effnodes := [18], parents := [], children := [{ symbol := 0, is_pos := true }], mutex := [{ name := Sum.inr (0, false), is_persistent := true }] }, { action := { name := Sum.inl 2, precond_pos := [], precond_neg := [], effect_add := [1], effect_rem := [2] }, is_persistent := false, prenodes := [], effnodes := [19, 20], parents := [], children := [{ symbol := 1, is_pos := true }, { symbol := 2, is_pos := false }], mutex := [{ name := Sum.inl 0, is_persistent := false }, { name := Sum.inr (1, false), is_persistent := true }, { name := Sum.inr (2, true), is_persistent := true }] }, { action := { name := Sum.inl 3, precond_pos := [], precond_neg := [], effect_add := [0, 1], effect_rem := [] }, is_persistent := false, prenodes := [], effnodes := [21, 22], parents := [], children := [{ symbol := 0, is_pos := true }, { symbol := 1, is_pos := true }], mutex := [{ name := Sum.inr (0, false), is_persistent := true }, { name := Sum.inr (1, false), is_persistent := true }] }, { action := { name := Sum.inr (0, true), precond_pos := [0], precond_neg := [], effect_add := [0], effect_rem := [] }, is_persistent := true, prenodes := [{ symbol := 0, is_pos := true }], effnodes := [24], parents := [23], children := [{ symbol := 0, is_pos := true }], mutex := [{ name := Sum.inr (0, false), is_persistent := true }] }, { action := { name := Sum.inr (0, false), precond_pos := [], precond_neg := [0], effect_add := [], effect_rem := [0] }, is_persistent := true, prenodes := [{ symbol := 0, is_pos := false }], effnodes := [26], parents := [25], children := [{ symbol := 0, is_pos := false }], mutex := [{ name := Sum.inl 0, is_persistent := false }, { name := Sum.inl 1, is_persistent := false }, { name := Sum.inl 3, is_persistent := false }, { name := Sum.inr (0, true), is_persistent := true }] }, { action := { name := Sum.inr (1, true), precond_pos := [1], precond_neg := [], effect_add := [1], effect_rem := [] }, is_persistent := true, prenodes := [{ symbol := 1, is_pos := true }], effnodes := [28], parents := [27], children := [{ symbol := 1, is_pos := true }], mutex := [{ name := Sum.inr (1, false), is_persistent := true }] }, { action := { name := Sum.inr (1, false), precond_pos := [], precond_neg := [1], effect_add := [], effect_rem := [1] }, is_persistent := true, prenodes := [{ symbol := 1, is_pos := false }], effnodes := [30], parents := [29], children := [{ symbol := 1, is_pos := false }], mutex := [{ name := Sum.inl 2, is_persistent := false }, { name := Sum.inl 3, is_persistent := false }, { name := Sum.inr (1, true), is_persistent := true }] }, { action := { name := Sum.inr (2, true), precond_pos := [2], precond_neg := [], effect_add := [2], effect_rem := [] }, is_persistent := true, prenodes := [{ symbol := 2, is_pos := true }], effnodes := [32], parents := [31], children := [{ symbol := 2, is_pos := true }], mutex := [{ name := Sum.inl 2, is_persistent := false }, { name := Sum.inr (2, false), is_persistent := true }] }, { action := { name := Sum.inr (2, false), precond_pos := [], precond_neg := [2], effect_add := [], effect_rem := [2] }, is_persistent := true, prenodes := [{ symbol := 2, is_pos := false }], effnodes := [34], parents := [33], children := [{ symbol := 2, is_pos := false }], mutex := [{ name := Sum.inl 0, is_persistent := false }, { name := Sum.inr (2, true), is_persistent := true }] }], s_levels := [[0, 1, 2], [3, 4, 6, 7, 11, 13], [16, 17, 19, 20, 26, 30]], a_levels := [[0, 1, 2, 3, 4, 5, 6], [7, 8, 9, 10, 11, 12, 13, 14, 15, 16]], serial := false, all_actions := [{ name := Sum.inl 0, precond_pos := [], precond_neg := [], effect_add := [0, 2], effect_rem := [] }, { name := Sum.inl 1, precond_pos := [], precond_neg := [], effect_add := [0], effect_rem := [] }, { name := Sum.inl 2, precond_pos := [], precond_neg := [], effect_add := [1], effect_rem := [2] }, { name := Sum.inl 3, precond_pos := [], precond_neg := [], effect_add := [0, 1], effect_rem := [] }, { name := Sum.inr (0, true), precond_pos := [0], precond_neg := [], effect_add := [0], effect_rem := [] }, { name := Sum.inr (0, false), precond_pos := [], precond_neg := [0], effect_add := [], effect_rem := [0] }, { name := Sum.inr (1, true), precond_pos := [1], precond_neg := [], effect_add := [1], effect_rem := [] }, { name := Sum.inr (1, false), precond_pos := [], precond_neg := [1], effect_add := [], effect_rem := [1] }, { name := Sum.inr (2, true), precond_pos := [2], precond_neg := [], effect_add := [2], effect_rem := [] }, { name := Sum.inr (2, false), precond_pos := [], precond_neg := [2], effect_add := [], effect_rem := [2] }], fs_pos := [], fs_neg := [0, 1, 2], goal := [] }

/-- Example problem D.  One fluent Q = 0, initially false; `addQ` (no
preconditions) adds Q, `c1` requires Q positively, `c2` requires Q negatively;
neither `c1` nor `c2` has any effect; non-serial mode. -/
def exD : PG :=
  (mkPlanningGraph 5
    [⟨Sum.inl 0, [], [], [0], []⟩,
     ⟨Sum.inl 1, [0], [], [], []⟩,
     ⟨Sum.inl 2, [], [0], [], []⟩]
    [0] [] [false] false).1

/-- Example problem B.  One fluent G = 0, initially false, no problem actions,
goal +G: the goal literal never appears in any literal level. -/
def exB : PG := (mkPlanningGraph 5 [] [0] [0] [false] false).1

/-- Example problem C.  Like B but G initially true: the goal literal is
already in literal level 0. -/
def exC : PG := (mkPlanningGraph 5 [] [0] [0] [true] false).1

end PlanGraph

/-!
## Theorems
-/

namespace PlanGraph

set_option maxHeartbeats 2000000 in
theorem exA_eq : exA = exA_val := rfl

theorem isPersistentOf_noopPos (f : Nat) : isPersistentOf (noopPos f) = true := by
  simp [isPersistentOf, noopPos, preKeysOf, effKeysOf, dedupSKeys, skeySetAdd, memSKey, keySetEq]

theorem isPersistentOf_noopNeg (f : Nat) : isPersistentOf (noopNeg f) = true := by
  simp [isPersistentOf, noopNeg, preKeysOf, effKeysOf, dedupSKeys, skeySetAdd, memSKey, keySetEq]

theorem levelCostGo_eq_zero_of_not_found (g : PG) (k : SKey) :
    ∀ (ls : List (List Nat)), (∀ L ∈ ls, levelHasKey g L k = false) →
      ∀ i : Nat, levelCostGo g k i ls = 0 := by
  intro ls
  induction ls with
  | nil => intro _ i; rfl
  | cons L rest ih =>
    intro h i
    have hL : levelHasKey g L k = false := h L (by simp)
    simp only [levelCostGo, hL, Bool.false_eq_true, if_false]
    exact ih (fun L' hL' => h L' (by simp [hL'])) (i + 1)

theorem levelCostGo_pos_eq_zero_iff (g : PG) (k : SKey) :
    ∀ (ls : List (List Nat)) (i : Nat), 0 < i →
      (levelCostGo g k i ls = 0 ↔ ∀ L ∈ ls, levelHasKey g L k = false) := by
  intro ls
  induction ls with
  | nil => intro i _; simp [levelCostGo]
  | cons L rest ih =>
    intro i hi
    by_cases hL : levelHasKey g L k = true
    · simp only [levelCostGo, hL, if_true]
      constructor
      · intro h0; omega
      · intro hall
        have := hall L (by simp)
        rw [hL] at this
        cases this
    · have hLf : levelHasKey g L k = false := by
        cases h : levelHasKey g L k
        · rfl
        · exact absurd h hL
      simp only [levelCostGo, hLf, Bool.false_eq_true, if_false]
      rw [ih (i + 1) (by omega)]
      constructor
      · intro hall L' hL'
        rcases List.mem_cons.mp hL' with rfl | hmem
        · exact hLf
        · exact hall L' hmem
      · intro hall L' hL'
        exact hall L' (by simp [hL'])

theorem levelCost_eq_zero_iff (g : PG) (k : SKey) :
    levelCost g k = 0 ↔
      (∃ L0, g.s_levels.head? = some L0 ∧ levelHasKey g L0 k = true) ∨
      (∀ L ∈ g.s_levels, levelHasKey g L k = false) := by
  unfold levelCost
  cases hls : g.s_levels with
  | nil => simp [levelCostGo]
  | cons L rest =>
    simp only [List.head?_cons]
    by_cases hL : levelHasKey g L k = true
    · simp only [levelCostGo, hL, if_true]
      constructor
      · intro _; exact Or.inl ⟨L, rfl, hL⟩
      · intro _; trivial
    · have hLf : levelHasKey g L k = false := by
        cases h : levelHasKey g L k
        · rfl
        · exact absurd h hL
      simp only [levelCostGo, hLf, Bool.false_eq_true, if_false]
      rw [levelCostGo_pos_eq_zero_iff g k rest 1 (by omega)]
      constructor
      · intro hall
        refine Or.inr ?_
        intro L' hL'
        rcases List.mem_cons.mp hL' with rfl | hmem
        · exact hLf
        · exact hall L' hmem
      · rintro (⟨L0, hL0, hhas⟩ | hall)
        · cases hL0
          rw [hhas] at hLf
          cases hLf
        · intro L' hL'
          exact hall L' (by simp [hL'])

theorem foldl_add_levelCost_eq_zero_iff (g : PG) (l : List SKey) (n : Nat) :
    l.foldl (fun acc k => acc + levelCost g k) n = 0 ↔
      n = 0 ∧ ∀ k ∈ l, levelCost g k = 0 := by
  induction l generalizing n with
  | nil => simp
  | cons x xs ih =>
    simp only [List.foldl_cons, ih, Nat.add_eq_zero]
    constructor
    · rintro ⟨⟨hn, hx⟩, hall⟩
      exact ⟨hn, fun k hk => by
        rcases List.mem_cons.mp hk with rfl | hmem
        · exact hx
        · exact hall k hmem⟩
    · rintro ⟨hn, hall⟩
      exact ⟨⟨hn, hall x (by simp)⟩, fun k hk => hall k (by simp [hk])⟩

/-- C1 (code-bug evaluation): at the failing input `exA`, the literal level 1
nodes +X (id 3) and +Y (id 6) are marked mutex under inconsistent support even
though the action node `c` (id 3 of action level 0) produces both literals as
part of its effects and the producer pair (`a2` = id 1, `b` = id 2) is not
mutex - under the claimed rule (all producer pairs mutex, overridden to
non-mutex by a joint producer) the pair must be non-mutex either way.  The
code scans only the stored parent links (a single producer each, here `a1` and
`b`, which are mutex) and checks the joint-producer override only on that
mutex pair, so it answers "mutex". -/
theorem C1_inconsistent_support_divergence :
    memNat (exA.s_levels.getD 1 []) 3 = true ∧
    memNat (exA.s_levels.getD 1 []) 6 = true ∧
    skeyOf exA 3 = ⟨0, true⟩ ∧
    skeyOf exA 6 = ⟨1, true⟩ ∧
    inconsistent_support_mutex exA 3 6 = true ∧
    negation_mutex exA 3 6 = false ∧
    sIsMutex exA 3 6 = true ∧
    specInconsistentSupport exA 0 3 6 = false ∧
    memNat (exA.a_levels.getD 0 []) 3 = true ∧
    (producesKey exA 3 ⟨0, true⟩ && producesKey exA 3 ⟨1, true⟩) = true ∧
    memNat (exA.a_levels.getD 0 []) 1 = true ∧
    memNat (exA.a_levels.getD 0 []) 2 = true ∧
    producesKey exA 1 ⟨0, true⟩ = true ∧
    producesKey exA 2 ⟨1, true⟩ = true ∧
    aIsMutex exA 1 2 = false := by
  rw [exA_eq]; decide

/-- C2 (code-bug evaluation): in `exD`, the action level 1 nodes c1 (id 4,
precondition +Q) and c2 (id 5, precondition -Q) have matching literal nodes at
literal level 1 that are marked mutex with each other (negation), so the
claimed competing-needs rule marks the pair mutex; but `competing_needs_mutex`
returns false, because the parent links stored by `add_action_level` point to
fresh literal instances whose mutex sets are never populated. -/
theorem C2_competing_needs_divergence :
    memNat (exD.a_levels.getD 1 []) 4 = true ∧
    memNat (exD.a_levels.getD 1 []) 5 = true ∧
    (aAt exD 4).action.precond_pos = [0] ∧
    (aAt exD 5).action.precond_neg = [0] ∧
    specCompetingNeeds exD 1 4 5 = true ∧
    competing_needs_mutex exD 4 5 = false ∧
    aIsMutex exD 4 5 = false ∧
    ((aAt exD 4).parents.all (fun p => decide ((sAt exD p).mutex = []))) = true ∧
    ((aAt exD 5).parents.all (fun p => decide ((sAt exD p).mutex = []))) = true := by
  decide

/-- C3 (code-bug evaluation): in `exA`, both a1 (id 0) and a2 (id 1) of action
level 0 produce the effect literal +X, but the single +X instance stored in
literal level 1 (id 3) holds only a1 in its parents set: a2's parent link went
to a2's own effect instance, which the level set discarded as a duplicate. -/
theorem C3_parent_accumulation_divergence :
    memNat (exA.s_levels.getD 1 []) 3 = true ∧
    skeyOf exA 3 = ⟨0, true⟩ ∧
    memNat (exA.a_levels.getD 0 []) 0 = true ∧
    memNat (exA.a_levels.getD 0 []) 1 = true ∧
    producesKey exA 0 ⟨0, true⟩ = true ∧
    producesKey exA 1 ⟨0, true⟩ = true ∧
    (sAt exA 3).parents = [0] ∧
    memAKey ((sAt exA 3).parents.map (akeyOf exA)) (akeyOf exA 1) = false ∧
    ¬(akeyOf exA 0 = akeyOf exA 1) := by
  rw [exA_eq]; decide

/-- C4 (counterexample): in `exB` the goal literal +G appears in no literal
level, yet `h_levelsum` silently returns the plain number 0, the same value it
returns for `exC`, where the goal is genuinely present at level 0 - no
sentinel or error distinguishes the unreachable case. -/
theorem C4_counterexample :
    exB.goal = [0] ∧
    (exB.s_levels.all (fun L => !levelHasKey exB L ⟨0, true⟩)) = true ∧
    h_levelsum exB = 0 ∧
    exC.goal = [0] ∧
    levelHasKey exC (exC.s_levels.getD 0 []) ⟨0, true⟩ = true ∧
    h_levelsum exC = 0 := by
  decide

/-- C4 (amended): a goal literal that appears in no literal level is silently
skipped by the extractor - its contribution to the level sum is 0, not an
explicit unreachable signal. -/
theorem C4_unreachable_goal_silent_zero (g : PG) (k : SKey)
    (h : ∀ L ∈ g.s_levels, levelHasKey g L k = false) :
    levelCost g k = 0 :=
  levelCostGo_eq_zero_of_not_found g k g.s_levels h 0

theorem C4_witness :
    (∀ L ∈ exB.s_levels, levelHasKey exB L ⟨0, true⟩ = false) ∧
    levelCost exB ⟨0, true⟩ = 0 :=
  ⟨by decide, C4_unreachable_goal_silent_zero exB ⟨0, true⟩ (by decide)⟩

/-- C5 (counterexample): in `exB` the level sum is 0 although the goal literal
+G is not present in literal level 0 (it is present in no level at all), so
"level-sum is 0 iff every goal literal is in level 0" fails. -/
theorem C5_counterexample :
    memSKey (goalStates exB) ⟨0, true⟩ = true ∧
    h_levelsum exB = 0 ∧
    exB.s_levels.getD 0 [] ∈ exB.s_levels ∧
    levelHasKey exB (exB.s_levels.getD 0 []) ⟨0, true⟩ = false := by
  decide

/-- C5 (amended): `h_levelsum` returns 0 iff every goal literal is present in
the first literal level or appears in no literal level at all. -/
theorem C5_levelsum_zero_iff (g : PG) :
    h_levelsum g = 0 ↔ ∀ k ∈ goalStates g,
      (∃ L0, g.s_levels.head? = some L0 ∧ levelHasKey g L0 k = true) ∨
      (∀ L ∈ g.s_levels, levelHasKey g L k = false) := by
  unfold h_levelsum
  rw [foldl_add_levelCost_eq_zero_iff]
  simp only [true_and, levelCost_eq_zero_iff]

/-- C7: every action synthesized by `noop_actions` gets `is_persistent = true`
(the constructor's pre/effect node sets are equal), and the serial-exclusion
rule returns true exactly when the graph is serial and neither action node is
persistent - in particular it never fires in non-serial mode and never fires
on a pair involving a persistent node. -/
theorem C7_noop_persistence_serial_exclusion :
    (∀ vocab : List Nat, (noop_actions vocab).all isPersistentOf = true) ∧
    (∀ (g : PG) (i j : Nat), serialize_actions g i j =
      (g.serial && !(aAt g i).is_persistent && !(aAt g j).is_persistent)) := by
  constructor
  · intro vocab
    induction vocab with
    | nil => rfl
    | cons f rest ih =>
      simp [noop_actions, ih, isPersistentOf_noopPos, isPersistentOf_noopNeg]
  · intro g i j
    unfold serialize_actions
    cases hs : g.serial <;> cases h1 : (aAt g i).is_persistent <;>
      cases h2 : (aAt g j).is_persistent <;> simp

/-- C9: calling `create_graph` on an instance whose level lists are already
populated yields the fatal "already created" error, and the pair returned
carries the instance unchanged (the guard fires before any mutation). -/
theorem C9_double_construction_fatal (fuel : Nat) (g : PG)
    (h : g.s_levels ≠ [] ∨ g.a_levels ≠ []) :
    create_graph fuel g = (g, some pgAlreadyCreatedMsg) := by
  have hb : (g.s_levels.length != 0 || g.a_levels.length != 0) = true := by
    rcases h with h | h
    · have : g.s_levels.length ≠ 0 := by
        intro h0
        exact h (List.length_eq_zero.mp h0)
      simp [this]
    · have : g.a_levels.length ≠ 0 := by
        intro h0
        exact h (List.length_eq_zero.mp h0)
      simp [this]
  unfold create_graph
  rw [hb]
  rfl

theorem C9_witness :
    (exB.s_levels ≠ [] ∨ exB.a_levels ≠ []) ∧
    create_graph 3 exB = (exB, some pgAlreadyCreatedMsg) :=
  ⟨Or.inl (by decide), C9_double_construction_fatal 3 exB (Or.inl (by decide))⟩

end PlanGraph

/-!
## Mutex symmetry and irreflexivity machinery (claims C8, C10)
-/

namespace PlanGraph

theorem updAt_length {α : Type} (f : α → α) (l : List α) (i : Nat) :
    (updAt f l i).length = l.length := by
  induction l generalizing i with
  | nil => rfl
  | cons x xs ih =>
    cases i with
    | zero => rfl
    | succ i' => simp [updAt, ih]

theorem updAt_getD_ne {α : Type} (f : α → α) (l : List α) (i j : Nat) (d : α) (h : j ≠ i) :
    (updAt f l i).getD j d = l.getD j d := by
  induction l generalizing i j with
  | nil => rfl
  | cons x xs ih =>
    cases i with
    | zero =>
      cases j with
      | zero => exact absurd rfl h
      | succ j' => rfl
    | succ i' =>
      cases j with
      | zero => rfl
      | succ j' => exact ih i' j' (fun hh => h (by rw [hh]))

theorem updAt_getD_self {α : Type} (f : α → α) (l : List α) (i : Nat) (d : α)
    (h : i < l.length) : (updAt f l i).getD i d = f (l.getD i d) := by
  induction l generalizing i with
  | nil => simp at h
  | cons x xs ih =>
    cases i with
    | zero => rfl
    | succ i' => exact ih i' (by simpa using h)

theorem getD_append_lt {α : Type} (l l' : List α) (i : Nat) (d : α) (h : i < l.length) :
    (l ++ l').getD i d = l.getD i d := by
  induction l generalizing i with
  | nil => simp at h
  | cons x xs ih =>
    cases i with
    | zero => rfl
    | succ i' => exact ih i' (by simpa using h)

theorem getD_snoc_self {α : Type} (l : List α) (x : α) (d : α) :
    (l ++ [x]).getD l.length d = x := by
  induction l with
  | nil => rfl
  | cons y ys ih => simpa using ih

theorem memSKey_append (l1 l2 : List SKey) (k : SKey) :
    memSKey (l1 ++ l2) k = (memSKey l1 k || memSKey l2 k) := by
  simp [memSKey]

theorem memSKey_skeySetAdd (m : List SKey) (k0 k : SKey) :
    memSKey (skeySetAdd m k0) k = (memSKey m k || decide (k0 = k)) := by
  unfold skeySetAdd
  by_cases h : memSKey m k0 = true
  · rw [if_pos h]
    by_cases hk : k0 = k
    · subst hk
      simp [h]
    · simp [hk]
  · rw [if_neg h, memSKey_append]
    simp [memSKey]

theorem memAKey_append (l1 l2 : List AKey) (k : AKey) :
    memAKey (l1 ++ l2) k = (memAKey l1 k || memAKey l2 k) := by
  simp [memAKey]

theorem memAKey_akeySetAdd (m : List AKey) (k0 k : AKey) :
    memAKey (akeySetAdd m k0) k = (memAKey m k || decide (k0 = k)) := by
  unfold akeySetAdd
  by_cases h : memAKey m k0 = true
  · rw [if_pos h]
    by_cases hk : k0 = k
    · subst hk
      simp [h]
    · simp [hk]
  · rw [if_neg h, memAKey_append]
    simp [memAKey]

/-- Mutex symmetry (by node value) among the member instances of one level. -/
def symOnS (g : PG) (L : List Nat) : Prop :=
  ∀ i ∈ L, ∀ j ∈ L,
    (memSKey (sAt g i).mutex (skeyOf g j) = true ↔ memSKey (sAt g j).mutex (skeyOf g i) = true)

/-- Mutex irreflexivity (by node value) among the member instances of one level. -/
def irreflOnS (g : PG) (L : List Nat) : Prop :=
  ∀ i ∈ L, memSKey (sAt g i).mutex (skeyOf g i) = false

def symOnA (g : PG) (L : List Nat) : Prop :=
  ∀ i ∈ L, ∀ j ∈ L,
    (memAKey (aAt g i).mutex (akeyOf g j) = true ↔ memAKey (aAt g j).mutex (akeyOf g i) = true)

def irreflOnA (g : PG) (L : List Nat) : Prop :=
  ∀ i ∈ L, memAKey (aAt g i).mutex (akeyOf g i) = false

theorem symOnS_of_empty (g : PG) (L : List Nat) (h : ∀ i ∈ L, (sAt g i).mutex = []) :
    symOnS g L := by
  intro i hi j hj
  rw [h i hi, h j hj]
  simp [memSKey]

theorem irreflOnS_of_empty (g : PG) (L : List Nat) (h : ∀ i ∈ L, (sAt g i).mutex = []) :
    irreflOnS g L := by
  intro i hi
  rw [h i hi]
  rfl

theorem symOnA_of_empty (g : PG) (L : List Nat) (h : ∀ i ∈ L, (aAt g i).mutex = []) :
    symOnA g L := by
  intro i hi j hj
  rw [h i hi, h j hj]
  simp [memAKey]

theorem irreflOnA_of_empty (g : PG) (L : List Nat) (h : ∀ i ∈ L, (aAt g i).mutex = []) :
    irreflOnA g L := by
  intro i hi
  rw [h i hi]
  rfl

theorem sAt_updS_self (g : PG) (i : Nat) (f : SNode → SNode) (h : i < g.snodes.length) :
    sAt (updS g i f) i = f (sAt g i) := updAt_getD_self f g.snodes i defSNode h

theorem sAt_updS_ne (g : PG) (i n : Nat) (f : SNode → SNode) (h : n ≠ i) :
    sAt (updS g i f) n = sAt g n := updAt_getD_ne f g.snodes i n defSNode h

theorem snodes_length_updS (g : PG) (i : Nat) (f : SNode → SNode) :
    (updS g i f).snodes.length = g.snodes.length := updAt_length f g.snodes i

theorem aAt_updA_self (g : PG) (i : Nat) (f : ANode → ANode) (h : i < g.anodes.length) :
    aAt (updA g i f) i = f (aAt g i) := updAt_getD_self f g.anodes i defANode h

theorem aAt_updA_ne (g : PG) (i n : Nat) (f : ANode → ANode) (h : n ≠ i) :
    aAt (updA g i f) n = aAt g n := updAt_getD_ne f g.anodes i n defANode h

theorem anodes_length_updA (g : PG) (i : Nat) (f : ANode → ANode) :
    (updA g i f).anodes.length = g.anodes.length := updAt_length f g.anodes i

theorem sAt_mutexifyS (g : PG) (i j n : Nat) (hij : i ≠ j)
    (hi : i < g.snodes.length) (hj : j < g.snodes.length) :
    sAt (mutexifyS g i j) n =
      (if n = i then { sAt g i with mutex := skeySetAdd (sAt g i).mutex (skeyOf g j) }
       else if n = j then { sAt g j with mutex := skeySetAdd (sAt g j).mutex (skeyOf g i) }
       else sAt g n) := by
  unfold mutexifyS
  by_cases hni : n = i
  · subst hni
    rw [if_pos rfl, sAt_updS_ne _ _ _ _ hij, sAt_updS_self _ _ _ hi]
  · rw [if_neg hni]
    by_cases hnj : n = j
    · subst hnj
      rw [if_pos rfl,
        sAt_updS_self _ _ _ (by rw [snodes_length_updS]; exact hj),
        sAt_updS_ne _ _ _ _ (fun h => hij h.symm)]
    · rw [if_neg hnj, sAt_updS_ne _ _ _ _ hnj, sAt_updS_ne _ _ _ _ hni]

theorem aAt_mutexifyA (g : PG) (i j n : Nat) (hij : i ≠ j)
    (hi : i < g.anodes.length) (hj : j < g.anodes.length) :
    aAt (mutexifyA g i j) n =
      (if n = i then { aAt g i with mutex := akeySetAdd (aAt g i).mutex (akeyOf g j) }
       else if n = j then { aAt g j with mutex := akeySetAdd (aAt g j).mutex (akeyOf g i) }
       else aAt g n) := by
  unfold mutexifyA
  by_cases hni : n = i
  · subst hni
    rw [if_pos rfl, aAt_updA_ne _ _ _ _ hij, aAt_updA_self _ _ _ hi]
  · rw [if_neg hni]
    by_cases hnj : n = j
    · subst hnj
      rw [if_pos rfl,
        aAt_updA_self _ _ _ (by rw [anodes_length_updA]; exact hj),
        aAt_updA_ne _ _ _ _ (fun h => hij h.symm)]
    · rw [if_neg hnj, aAt_updA_ne _ _ _ _ hnj, aAt_updA_ne _ _ _ _ hni]

/-- Everything except the literal-node heap agrees. -/
def eqExceptS (g0 g : PG) : Prop := g = { g0 with snodes := g.snodes }

/-- Everything except the action-node heap agrees. -/
def eqExceptA (g0 g : PG) : Prop := g = { g0 with anodes := g.anodes }

theorem eqExceptS_refl (g : PG) : eqExceptS g g := rfl

theorem eqExceptA_refl (g : PG) : eqExceptA g g := rfl

theorem eqExceptS_updS (g : PG) (i : Nat) (f : SNode → SNode) : eqExceptS g (updS g i f) := rfl

theorem eqExceptA_updA (g : PG) (i : Nat) (f : ANode → ANode) : eqExceptA g (updA g i f) := rfl

theorem eqExceptS_trans {g0 g1 g2 : PG} (h1 : eqExceptS g0 g1) (h2 : eqExceptS g1 g2) :
    eqExceptS g0 g2 := by
  unfold eqExceptS at *
  rw [h2, h1]

theorem eqExceptA_trans {g0 g1 g2 : PG} (h1 : eqExceptA g0 g1) (h2 : eqExceptA g1 g2) :
    eqExceptA g0 g2 := by
  unfold eqExceptA at *
  rw [h2, h1]

theorem eqExceptS_mutexifyS (g : PG) (i j : Nat) : eqExceptS g (mutexifyS g i j) :=
  eqExceptS_trans (eqExceptS_updS g i _) (eqExceptS_updS _ j _)

theorem eqExceptA_mutexifyA (g : PG) (i j : Nat) : eqExceptA g (mutexifyA g i j) :=
  eqExceptA_trans (eqExceptA_updA g i _) (eqExceptA_updA _ j _)

/-- State relation maintained across `update_s_mutex`: only the mutex sets of
the given level's member instances change, and symmetry and irreflexivity
hold among them. -/
def sMutexUpdOK (g0 : PG) (lvl : List Nat) (g : PG) : Prop :=
  eqExceptS g0 g ∧
  g.snodes.length = g0.snodes.length ∧
  (∀ n, skeyOf g n = skeyOf g0 n) ∧
  (∀ n, (sAt g n).parents = (sAt g0 n).parents) ∧
  (∀ n, (sAt g n).children = (sAt g0 n).children) ∧
  (∀ n, n ∉ lvl → (sAt g n).mutex = (sAt g0 n).mutex) ∧
  symOnS g lvl ∧ irreflOnS g lvl

/-- State relation maintained across `update_a_mutex`. -/
def aMutexUpdOK (g0 : PG) (lvl : List Nat) (g : PG) : Prop :=
  eqExceptA g0 g ∧
  g.anodes.length = g0.anodes.length ∧
  (∀ n, akeyOf g n = akeyOf g0 n) ∧
  (∀ n, (aAt g n).parents = (aAt g0 n).parents) ∧
  (∀ n, (aAt g n).children = (aAt g0 n).children) ∧
  (∀ n, (aAt g n).effnodes = (aAt g0 n).effnodes) ∧
  (∀ n, (aAt g n).action = (aAt g0 n).action) ∧
  (∀ n, n ∉ lvl → (aAt g n).mutex = (aAt g0 n).mutex) ∧
  symOnA g lvl ∧ irreflOnA g lvl

theorem sMutexUpdOK_refl (g : PG) (lvl : List Nat) (hsym : symOnS g lvl)
    (hirr : irreflOnS g lvl) : sMutexUpdOK g lvl g :=
  ⟨eqExceptS_refl g, rfl, fun _ => rfl, fun _ => rfl, fun _ => rfl, fun _ _ => rfl, hsym, hirr⟩

theorem aMutexUpdOK_refl (g : PG) (lvl : List Nat) (hsym : symOnA g lvl)
    (hirr : irreflOnA g lvl) : aMutexUpdOK g lvl g :=
  ⟨eqExceptA_refl g, rfl, fun _ => rfl, fun _ => rfl, fun _ => rfl, fun _ => rfl, fun _ => rfl,
    fun _ _ => rfl, hsym, hirr⟩

theorem keys_distinct_of_nodup (g0 : PG) (lvl : List Nat)
    (hnd : (levelKeys g0 lvl).Nodup) {i j : Nat} (hi : i ∈ lvl) (hj : j ∈ lvl) (hij : i ≠ j) :
    skeyOf g0 i ≠ skeyOf g0 j := by
  intro he
  exact hij (List.inj_on_of_nodup_map hnd hi hj he)

theorem mutexifyS_snodes_length (g : PG) (i j : Nat) :
    (mutexifyS g i j).snodes.length = g.snodes.length := by
  unfold mutexifyS
  rw [snodes_length_updS, snodes_length_updS]

theorem mutexifyA_anodes_length (g : PG) (i j : Nat) :
    (mutexifyA g i j).anodes.length = g.anodes.length := by
  unfold mutexifyA
  rw [anodes_length_updA, anodes_length_updA]

theorem sMutexUpdOK_mutexifyS (g0 : PG) (lvl : List Nat)
    (hnd : (levelKeys g0 lvl).Nodup) (hbd : ∀ n ∈ lvl, n < g0.snodes.length)
    (g : PG) (hg : sMutexUpdOK g0 lvl g) (i j : Nat)
    (hi : i ∈ lvl) (hj : j ∈ lvl) (hij : i ≠ j) :
    sMutexUpdOK g0 lvl (mutexifyS g i j) := by
  obtain ⟨heq, hlen, hkeys, hpar, hch, hoff, hsym, hirr⟩ := hg
  have hib : i < g.snodes.length := by rw [hlen]; exact hbd i hi
  have hjb : j < g.snodes.length := by rw [hlen]; exact hbd j hj
  have hat := fun n => sAt_mutexifyS g i j n hij hib hjb
  have hkdist : ∀ a ∈ lvl, ∀ b ∈ lvl, a ≠ b → skeyOf g0 a ≠ skeyOf g0 b :=
    fun a ha b hb hab => keys_distinct_of_nodup g0 lvl hnd ha hb hab
  have hkey' : ∀ n, skeyOf (mutexifyS g i j) n = skeyOf g0 n := by
    intro n
    rw [← hkeys n]
    unfold skeyOf
    rw [hat n]
    by_cases h1 : n = i
    · rw [if_pos h1, h1]
    · rw [if_neg h1]
      by_cases h2 : n = j
      · rw [if_pos h2, h2]
      · rw [if_neg h2]
  have hmut : ∀ n, (sAt (mutexifyS g i j) n).mutex =
      (if n = i then skeySetAdd (sAt g i).mutex (skeyOf g j)
       else if n = j then skeySetAdd (sAt g j).mutex (skeyOf g i)
       else (sAt g n).mutex) := by
    intro n
    rw [hat n]
    by_cases h1 : n = i
    · rw [if_pos h1, if_pos h1]
    · rw [if_neg h1, if_neg h1]
      by_cases h2 : n = j
      · rw [if_pos h2, if_pos h2]
      · rw [if_neg h2, if_neg h2]
  have hmemAdd : ∀ (M : List SKey), ∀ a ∈ lvl, ∀ b ∈ lvl,
      memSKey (skeySetAdd M (skeyOf g a)) (skeyOf g0 b) =
        (memSKey M (skeyOf g0 b) || decide (a = b)) := by
    intro M a ha b hb
    rw [memSKey_skeySetAdd, hkeys a]
    by_cases hab : a = b
    · rw [hab]
      simp
    · rw [decide_eq_false (hkdist a ha b hb hab), decide_eq_false hab]
  have hmem' : ∀ p ∈ lvl, ∀ q ∈ lvl,
      memSKey (sAt (mutexifyS g i j) p).mutex (skeyOf g0 q) =
        ((memSKey (sAt g p).mutex (skeyOf g0 q) || (decide (p = i) && decide (q = j)))
          || (decide (p = j) && decide (q = i))) := by
    intro p hp q hq
    rw [hmut p]
    by_cases hpi : p = i
    · rw [if_pos hpi, hmemAdd _ j hj q hq, hpi]
      by_cases hqj : q = j
      · simp [hqj, hij]
      · have hjq : ¬j = q := fun h => hqj h.symm
        simp [hqj, hjq, hij]
    · rw [if_neg hpi]
      by_cases hpj : p = j
      · rw [if_pos hpj, hmemAdd _ i hi q hq, hpj]
        have hji : ¬j = i := fun h => hij h.symm
        by_cases hqi : q = i
        · simp [hqi, hji]
        · have hiq : ¬i = q := fun h => hqi h.symm
          simp [hqi, hiq, hji]
      · simp [hpi, hpj]
  refine ⟨eqExceptS_trans heq (eqExceptS_mutexifyS g i j), ?_, hkey', ?_, ?_, ?_, ?_, ?_⟩
  · rw [mutexifyS_snodes_length]; exact hlen
  · intro n
    rw [← hpar n, hat n]
    by_cases h1 : n = i
    · rw [if_pos h1, h1]
    · rw [if_neg h1]
      by_cases h2 : n = j
      · rw [if_pos h2, h2]
      · rw [if_neg h2]
  · intro n
    rw [← hch n, hat n]
    by_cases h1 : n = i
    · rw [if_pos h1, h1]
    · rw [if_neg h1]
      by_cases h2 : n = j
      · rw [if_pos h2, h2]
      · rw [if_neg h2]
  · intro n hn
    have hni : ¬n = i := fun h => hn (by rw [h]; exact hi)
    have hnj : ¬n = j := fun h => hn (by rw [h]; exact hj)
    rw [← hoff n hn, hmut n, if_neg hni, if_neg hnj]
  · -- symmetry on lvl
    intro p hp q hq
    have hsympq := hsym p hp q hq
    rw [hkeys p, hkeys q] at hsympq
    rw [hkey' p, hkey' q, hmem' p hp q hq, hmem' q hq p hp]
    simp only [Bool.or_eq_true, Bool.and_eq_true, decide_eq_true_eq]
    constructor
    · rintro ((h | ⟨h1, h2⟩) | ⟨h1, h2⟩)
      · exact Or.inl (Or.inl (hsympq.mp h))
      · exact Or.inr ⟨h2, h1⟩
      · exact Or.inl (Or.inr ⟨h2, h1⟩)
    · rintro ((h | ⟨h1, h2⟩) | ⟨h1, h2⟩)
      · exact Or.inl (Or.inl (hsympq.mpr h))
      · exact Or.inr ⟨h2, h1⟩
      · exact Or.inl (Or.inr ⟨h2, h1⟩)
  · -- irreflexivity on lvl
    intro p hp
    have hirrp := hirr p hp
    rw [hkeys p] at hirrp
    rw [hkey' p, hmem' p hp p hp, hirrp]
    by_cases hpi : p = i
    · have hpj : ¬p = j := fun h => hij (hpi.symm.trans h)
      simp [hpi, hpj, hij]
    · simp [hpi]

theorem sMutexUpdOK_foldl_inner (g0 : PG) (lvl : List Nat)
    (hnd : (levelKeys g0 lvl).Nodup) (hbd : ∀ n ∈ lvl, n < g0.snodes.length)
    (i : Nat) (hi : i ∈ lvl) :
    ∀ (rest : List Nat), (∀ j ∈ rest, j ∈ lvl ∧ j ≠ i) →
      ∀ g, sMutexUpdOK g0 lvl g →
        sMutexUpdOK g0 lvl (rest.foldl (fun gg j => sPairStep gg i j) g) := by
  intro rest
  induction rest with
  | nil => intro _ g hg; exact hg
  | cons j rest ih =>
    intro h g hg
    simp only [List.foldl_cons]
    apply ih (fun j' hj' => h j' (by simp [hj']))
    unfold sPairStep
    by_cases hc : sMutexCond g i j = true
    · rw [if_pos hc]
      exact sMutexUpdOK_mutexifyS g0 lvl hnd hbd g hg i j hi (h j (by simp)).1
        (fun he => (h j (by simp)).2 he.symm)
    · rw [if_neg hc]
      exact hg

theorem sMutexUpdOK_pairUpdate (g0 : PG) (lvl : List Nat)
    (hnd : (levelKeys g0 lvl).Nodup) (hbd : ∀ n ∈ lvl, n < g0.snodes.length) :
    ∀ (l : List Nat), l.Nodup → (∀ x ∈ l, x ∈ lvl) →
      ∀ g, sMutexUpdOK g0 lvl g → sMutexUpdOK g0 lvl (pairUpdate sPairStep g l) := by
  intro l
  induction l with
  | nil => intro _ _ g hg; exact hg
  | cons i rest ih =>
    intro hnodup hsub g hg
    simp only [pairUpdate]
    apply ih (List.Nodup.of_cons hnodup) (fun x hx => hsub x (by simp [hx]))
    apply sMutexUpdOK_foldl_inner g0 lvl hnd hbd i (hsub i (by simp)) rest
      (fun j hj => ⟨hsub j (by simp [hj]),
        fun he => (List.nodup_cons.mp hnodup).1 (he ▸ hj)⟩) g hg

/-- `update_s_mutex` characterised: it only adds symmetric, irreflexive mutex
entries among the given level's member instances. -/
theorem update_s_mutex_ok (g0 : PG) (lvl : List Nat)
    (hnd : (levelKeys g0 lvl).Nodup) (hbd : ∀ n ∈ lvl, n < g0.snodes.length)
    (hsym : symOnS g0 lvl) (hirr : irreflOnS g0 lvl) :
    sMutexUpdOK g0 lvl (update_s_mutex g0 lvl) :=
  sMutexUpdOK_pairUpdate g0 lvl hnd hbd lvl (List.Nodup.of_map _ hnd) (fun _ hx => hx) g0
    (sMutexUpdOK_refl g0 lvl hsym hirr)


end PlanGraph

namespace PlanGraph

theorem akeys_distinct_of_nodup (g0 : PG) (lvl : List Nat)
    (hnd : (aLevelKeys g0 lvl).Nodup) {i j : Nat} (hi : i ∈ lvl) (hj : j ∈ lvl) (hij : i ≠ j) :
    akeyOf g0 i ≠ akeyOf g0 j := by
  intro he
  exact hij (List.inj_on_of_nodup_map hnd hi hj he)

theorem aMutexUpdOK_mutexifyA (g0 : PG) (lvl : List Nat)
    (hnd : (aLevelKeys g0 lvl).Nodup) (hbd : ∀ n ∈ lvl, n < g0.anodes.length)
    (g : PG) (hg : aMutexUpdOK g0 lvl g) (i j : Nat)
    (hi : i ∈ lvl) (hj : j ∈ lvl) (hij : i ≠ j) :
    aMutexUpdOK g0 lvl (mutexifyA g i j) := by
  obtain ⟨heq, hlen, hkeys, hpar, hch, heff, hact, hoff, hsym, hirr⟩ := hg
  have hib : i < g.anodes.length := by rw [hlen]; exact hbd i hi
  have hjb : j < g.anodes.length := by rw [hlen]; exact hbd j hj
  have hat := fun n => aAt_mutexifyA g i j n hij hib hjb
  have hkdist : ∀ a ∈ lvl, ∀ b ∈ lvl, a ≠ b → akeyOf g0 a ≠ akeyOf g0 b :=
    fun a ha b hb hab => akeys_distinct_of_nodup g0 lvl hnd ha hb hab
  have hkey' : ∀ n, akeyOf (mutexifyA g i j) n = akeyOf g0 n := by
    intro n
    rw [← hkeys n]
    unfold akeyOf
    rw [hat n]
    by_cases h1 : n = i
    · rw [if_pos h1, h1]
    · rw [if_neg h1]
      by_cases h2 : n = j
      · rw [if_pos h2, h2]
      · rw [if_neg h2]
  have hmut : ∀ n, (aAt (mutexifyA g i j) n).mutex =
      (if n = i then akeySetAdd (aAt g i).mutex (akeyOf g j)
       else if n = j then akeySetAdd (aAt g j).mutex (akeyOf g i)
       else (aAt g n).mutex) := by
    intro n
    rw [hat n]
    by_cases h1 : n = i
    · rw [if_pos h1, if_pos h1]
    · rw [if_neg h1, if_neg h1]
      by_cases h2 : n = j
      · rw [if_pos h2, if_pos h2]
      · rw [if_neg h2, if_neg h2]
  have hmemAdd : ∀ (M : List AKey), ∀ a ∈ lvl, ∀ b ∈ lvl,
      memAKey (akeySetAdd M (akeyOf g a)) (akeyOf g0 b) =
        (memAKey M (akeyOf g0 b) || decide (a = b)) := by
    intro M a ha b hb
    rw [memAKey_akeySetAdd, hkeys a]
    by_cases hab : a = b
    · rw [hab]
      simp
    · rw [decide_eq_false (hkdist a ha b hb hab), decide_eq_false hab]
  have hmem' : ∀ p ∈ lvl, ∀ q ∈ lvl,
      memAKey (aAt (mutexifyA g i j) p).mutex (akeyOf g0 q) =
        ((memAKey (aAt g p).mutex (akeyOf g0 q) || (decide (p = i) && decide (q = j)))
          || (decide (p = j) && decide (q = i))) := by
    intro p hp q hq
    rw [hmut p]
    by_cases hpi : p = i
    · rw [if_pos hpi, hmemAdd _ j hj q hq, hpi]
      by_cases hqj : q = j
      · simp [hqj, hij]
      · have hjq : ¬j = q := fun h => hqj h.symm
        simp [hqj, hjq, hij]
    · rw [if_neg hpi]
      by_cases hpj : p = j
      · rw [if_pos hpj, hmemAdd _ i hi q hq, hpj]
        have hji : ¬j = i := fun h => hij h.symm
        by_cases hqi : q = i
        · simp [hqi, hji]
        · have hiq : ¬i = q := fun h => hqi h.symm
          simp [hqi, hiq, hji]
      · simp [hpi, hpj]
  refine ⟨eqExceptA_trans heq (eqExceptA_mutexifyA g i j), ?_, hkey', ?_, ?_, ?_, ?_, ?_, ?_, ?_⟩
  · rw [mutexifyA_anodes_length]; exact hlen
  · intro n
    rw [← hpar n, hat n]
    by_cases h1 : n = i
    · rw [if_pos h1, h1]
    · rw [if_neg h1]
      by_cases h2 : n = j
      · rw [if_pos h2, h2]
      · rw [if_neg h2]
  · intro n
    rw [← hch n, hat n]
    by_cases h1 : n = i
    · rw [if_pos h1, h1]
    · rw [if_neg h1]
      by_cases h2 : n = j
      · rw [if_pos h2, h2]
      · rw [if_neg h2]
  · intro n
    rw [← heff n, hat n]
    by_cases h1 : n = i
    · rw [if_pos h1, h1]
    · rw [if_neg h1]
      by_cases h2 : n = j
      · rw [if_pos h2, h2]
      · rw [if_neg h2]
  · intro n
    rw [← hact n, hat n]
    by_cases h1 : n = i
    · rw [if_pos h1, h1]
    · rw [if_neg h1]
      by_cases h2 : n = j
      · rw [if_pos h2, h2]
      · rw [if_neg h2]
  · intro n hn
    have hni : ¬n = i := fun h => hn (by rw [h]; exact hi)
    have hnj : ¬n = j := fun h => hn (by rw [h]; exact hj)
    rw [← hoff n hn, hmut n, if_neg hni, if_neg hnj]
  · intro p hp q hq
    have hsympq := hsym p hp q hq
    rw [hkeys p, hkeys q] at hsympq
    rw [hkey' p, hkey' q, hmem' p hp q hq, hmem' q hq p hp]
    simp only [Bool.or_eq_true, Bool.and_eq_true, decide_eq_true_eq]
    constructor
    · rintro ((h | ⟨h1, h2⟩) | ⟨h1, h2⟩)
      · exact Or.inl (Or.inl (hsympq.mp h))
      · exact Or.inr ⟨h2, h1⟩
      · exact Or.inl (Or.inr ⟨h2, h1⟩)
    · rintro ((h | ⟨h1, h2⟩) | ⟨h1, h2⟩)
      · exact Or.inl (Or.inl (hsympq.mpr h))
      · exact Or.inr ⟨h2, h1⟩
      · exact Or.inl (Or.inr ⟨h2, h1⟩)
  · intro p hp
    have hirrp := hirr p hp
    rw [hkeys p] at hirrp
    rw [hkey' p, hmem' p hp p hp, hirrp]
    by_cases hpi : p = i
    · have hpj : ¬p = j := fun h => hij (hpi.symm.trans h)
      simp [hpi, hpj, hij]
    · simp [hpi]

theorem aMutexUpdOK_foldl_inner (g0 : PG) (lvl : List Nat)
    (hnd : (aLevelKeys g0 lvl).Nodup) (hbd : ∀ n ∈ lvl, n < g0.anodes.length)
    (i : Nat) (hi : i ∈ lvl) :
    ∀ (rest : List Nat), (∀ j ∈ rest, j ∈ lvl ∧ j ≠ i) →
      ∀ g, aMutexUpdOK g0 lvl g →
        aMutexUpdOK g0 lvl (rest.foldl (fun gg j => aPairStep gg i j) g) := by
  intro rest
  induction rest with
  | nil => intro _ g hg; exact hg
  | cons j rest ih =>
    intro h g hg
    simp only [List.foldl_cons]
    apply ih (fun j' hj' => h j' (by simp [hj']))
    unfold aPairStep
    by_cases hc : aMutexCond g i j = true
    · rw [if_pos hc]
      exact aMutexUpdOK_mutexifyA g0 lvl hnd hbd g hg i j hi (h j (by simp)).1
        (fun he => (h j (by simp)).2 he.symm)
    · rw [if_neg hc]
      exact hg

theorem aMutexUpdOK_pairUpdate (g0 : PG) (lvl : List Nat)
    (hnd : (aLevelKeys g0 lvl).Nodup) (hbd : ∀ n ∈ lvl, n < g0.anodes.length) :
    ∀ (l : List Nat), l.Nodup → (∀ x ∈ l, x ∈ lvl) →
      ∀ g, aMutexUpdOK g0 lvl g → aMutexUpdOK g0 lvl (pairUpdate aPairStep g l) := by
  intro l
  induction l with
  | nil => intro _ _ g hg; exact hg
  | cons i rest ih =>
    intro hnodup hsub g hg
    simp only [pairUpdate]
    apply ih (List.Nodup.of_cons hnodup) (fun x hx => hsub x (by simp [hx]))
    apply aMutexUpdOK_foldl_inner g0 lvl hnd hbd i (hsub i (by simp)) rest
      (fun j hj => ⟨hsub j (by simp [hj]),
        fun he => (List.nodup_cons.mp hnodup).1 (he ▸ hj)⟩) g hg

/-- `update_a_mutex` characterised: it only adds symmetric, irreflexive mutex
entries among the given level's member instances. -/
theorem update_a_mutex_ok (g0 : PG) (lvl : List Nat)
    (hnd : (aLevelKeys g0 lvl).Nodup) (hbd : ∀ n ∈ lvl, n < g0.anodes.length)
    (hsym : symOnA g0 lvl) (hirr : irreflOnA g0 lvl) :
    aMutexUpdOK g0 lvl (update_a_mutex g0 lvl) :=
  aMutexUpdOK_pairUpdate g0 lvl hnd hbd lvl (List.Nodup.of_map _ hnd) (fun _ hx => hx) g0
    (aMutexUpdOK_refl g0 lvl hsym hirr)

end PlanGraph

/-!
## Frame lemmas for the construction phases
-/

namespace PlanGraph

/-- The fields never touched by graph construction steps. -/
def sameMeta (g g' : PG) : Prop :=
  g'.serial = g.serial ∧ g'.all_actions = g.all_actions ∧ g'.fs_pos = g.fs_pos ∧
  g'.fs_neg = g.fs_neg ∧ g'.goal = g.goal

theorem updAt_getD_oob {α : Type} (f : α → α) (l : List α) (i : Nat) (d : α)
    (h : l.length ≤ i) : (updAt f l i).getD i d = l.getD i d := by
  induction l generalizing i with
  | nil => rfl
  | cons x xs ih =>
    cases i with
    | zero => simp at h
    | succ i' => exact ih i' (by simpa using h)

theorem sameMeta_refl (g : PG) : sameMeta g g := ⟨rfl, rfl, rfl, rfl, rfl⟩

theorem sameMeta_trans {g0 g1 g2 : PG} (h1 : sameMeta g0 g1) (h2 : sameMeta g1 g2) :
    sameMeta g0 g2 :=
  ⟨h2.1.trans h1.1, h2.2.1.trans h1.2.1, h2.2.2.1.trans h1.2.2.1,
    h2.2.2.2.1.trans h1.2.2.2.1, h2.2.2.2.2.trans h1.2.2.2.2⟩

theorem allocSNodes_facts (ks : List SKey) : ∀ (g : PG),
    (allocSNodes g ks).1.s_levels = g.s_levels ∧
    (allocSNodes g ks).1.a_levels = g.a_levels ∧
    (allocSNodes g ks).1.anodes = g.anodes ∧
    sameMeta g (allocSNodes g ks).1 ∧
    (allocSNodes g ks).1.snodes.length = g.snodes.length + ks.length ∧
    (∀ i, i < g.snodes.length → sAt (allocSNodes g ks).1 i = sAt g i) ∧
    (∀ e ∈ (allocSNodes g ks).2, g.snodes.length ≤ e ∧ e < (allocSNodes g ks).1.snodes.length) ∧
    levelKeys (allocSNodes g ks).1 (allocSNodes g ks).2 = ks ∧
    (∀ i, g.snodes.length ≤ i →
      (sAt (allocSNodes g ks).1 i).mutex = [] ∧ (sAt (allocSNodes g ks).1 i).parents = []) := by
  induction ks with
  | nil =>
    intro g
    refine ⟨rfl, rfl, rfl, sameMeta_refl g, by simp [allocSNodes], fun i _ => rfl,
      fun e he => absurd he (List.not_mem_nil e), rfl, fun i hi => ?_⟩
    constructor
    · show (g.snodes.getD i defSNode).mutex = []
      rw [List.getD_eq_default _ _ hi]
      rfl
    · show (g.snodes.getD i defSNode).parents = []
      rw [List.getD_eq_default _ _ hi]
      rfl
  | cons k ks ih =>
    intro g
    set g1 : PG := { g with snodes := g.snodes ++ [⟨k.symbol, k.is_pos, [], [], []⟩] } with hg1
    have hrec := ih g1
    obtain ⟨hsl, hal, han, hmeta, hlen, hbelow, hfresh, hkeys, habove⟩ := hrec
    have hshape1 : allocSNodes g (k :: ks) =
        ((allocSNodes g1 ks).1, g.snodes.length :: (allocSNodes g1 ks).2) := rfl
    have hlen1 : g1.snodes.length = g.snodes.length + 1 := by
      simp [hg1]
    have hbelow1 : ∀ i, i < g.snodes.length → sAt g1 i = sAt g i := by
      intro i hi
      show (g.snodes ++ _).getD i defSNode = g.snodes.getD i defSNode
      exact getD_append_lt _ _ i defSNode hi
    have hself1 : sAt g1 g.snodes.length = ⟨k.symbol, k.is_pos, [], [], []⟩ :=
      getD_snoc_self g.snodes _ defSNode
    rw [hshape1]
    refine ⟨hsl, hal, han, sameMeta_trans (by exact ⟨rfl, rfl, rfl, rfl, rfl⟩) hmeta, ?_,
      ?_, ?_, ?_, ?_⟩
    · rw [hlen, hlen1]
      simp [Nat.add_comm, Nat.add_assoc, Nat.add_left_comm]
    · intro i hi
      rw [hbelow i (by rw [hlen1]; omega), hbelow1 i hi]
    · intro e he
      rcases List.mem_cons.mp he with rfl | hmem
      · exact ⟨Nat.le_refl _, by rw [hlen, hlen1]; omega⟩
      · have := hfresh e hmem
        rw [hlen1] at this
        exact ⟨by omega, this.2⟩
    · show skeyOf (allocSNodes g1 ks).1 g.snodes.length :: levelKeys (allocSNodes g1 ks).1 (allocSNodes g1 ks).2 = k :: ks
      rw [hkeys]
      unfold skeyOf
      rw [hbelow g.snodes.length (by rw [hlen1]; omega), hself1]
    · intro i hi
      by_cases h1 : i < g1.snodes.length
      · have hie : i = g.snodes.length := by rw [hlen1] at h1; omega
        rw [hie, hbelow g.snodes.length (by rw [hlen1]; omega), hself1]
        exact ⟨rfl, rfl⟩
      · exact habove i (Nat.le_of_not_lt h1)

theorem sAt_updS_fields (g : PG) (t : Nat) (f : SNode → SNode) (i : Nat) :
    sAt (updS g t f) i = sAt g i ∨
      (i = t ∧ i < g.snodes.length ∧ sAt (updS g t f) i = f (sAt g i)) := by
  by_cases hit : i = t
  · subst hit
    by_cases h : i < g.snodes.length
    · exact Or.inr ⟨rfl, h, sAt_updS_self g i f h⟩
    · exact Or.inl (updAt_getD_oob f g.snodes i defSNode (Nat.le_of_not_lt h))
  · exact Or.inl (sAt_updS_ne g t i f hit)

theorem aAt_updA_fields (g : PG) (t : Nat) (f : ANode → ANode) (i : Nat) :
    aAt (updA g t f) i = aAt g i ∨
      (i = t ∧ i < g.anodes.length ∧ aAt (updA g t f) i = f (aAt g i)) := by
  by_cases hit : i = t
  · subst hit
    by_cases h : i < g.anodes.length
    · exact Or.inr ⟨rfl, h, aAt_updA_self g i f h⟩
    · exact Or.inl (updAt_getD_oob f g.anodes i defANode (Nat.le_of_not_lt h))
  · exact Or.inl (aAt_updA_ne g t i f hit)

theorem linkChildren_facts (level : Nat) (ks : List SKey) (ak : AKey) : ∀ (g : PG),
    eqExceptS g (linkChildren g level ks ak) ∧
    (linkChildren g level ks ak).snodes.length = g.snodes.length ∧
    (∀ i, (sAt (linkChildren g level ks ak) i).symbol = (sAt g i).symbol ∧
      (sAt (linkChildren g level ks ak) i).is_pos = (sAt g i).is_pos ∧
      (sAt (linkChildren g level ks ak) i).mutex = (sAt g i).mutex ∧
      (sAt (linkChildren g level ks ak) i).parents = (sAt g i).parents) := by
  unfold linkChildren
  intro g
  generalize g.s_levels.getD level [] = sids
  induction sids generalizing g with
  | nil => exact ⟨eqExceptS_refl g, rfl, fun i => ⟨rfl, rfl, rfl, rfl⟩⟩
  | cons sid rest ih =>
    rw [List.foldl_cons]
    set g1 := if memSKey ks (skeyOf g sid) then
        updS g sid (fun n => { n with children := akeySetAdd n.children ak })
      else g with hg1
    have hstep : eqExceptS g g1 ∧ g1.snodes.length = g.snodes.length ∧
        (∀ i, (sAt g1 i).symbol = (sAt g i).symbol ∧ (sAt g1 i).is_pos = (sAt g i).is_pos ∧
          (sAt g1 i).mutex = (sAt g i).mutex ∧ (sAt g1 i).parents = (sAt g i).parents) := by
      rw [hg1]
      by_cases hc : memSKey ks (skeyOf g sid) = true
      · rw [if_pos hc]
        refine ⟨eqExceptS_updS g sid _, snodes_length_updS g sid _, fun i => ?_⟩
        rcases sAt_updS_fields g sid (fun n => { n with children := akeySetAdd n.children ak }) i
          with h | ⟨_, _, h⟩ <;> rw [h] <;> exact ⟨rfl, rfl, rfl, rfl⟩
      · rw [if_neg hc]
        exact ⟨eqExceptS_refl g, rfl, fun i => ⟨rfl, rfl, rfl, rfl⟩⟩
    obtain ⟨he1, hl1, hf1⟩ := hstep
    obtain ⟨he2, hl2, hf2⟩ := ih g1
    refine ⟨eqExceptS_trans he1 he2, hl2.trans hl1, fun i => ?_⟩
    obtain ⟨a1, b1, c1, d1⟩ := hf1 i
    obtain ⟨a2, b2, c2, d2⟩ := hf2 i
    exact ⟨a2.trans a1, b2.trans b1, c2.trans c1, d2.trans d1⟩

end PlanGraph

namespace PlanGraph

theorem eqExceptS_fields {g g' : PG} (h : eqExceptS g g') :
    g'.anodes = g.anodes ∧ g'.s_levels = g.s_levels ∧ g'.a_levels = g.a_levels ∧
    sameMeta g g' := by
  rw [h]
  exact ⟨rfl, rfl, rfl, rfl, rfl, rfl, rfl, rfl⟩

theorem eqExceptA_fields {g g' : PG} (h : eqExceptA g g') :
    g'.snodes = g.snodes ∧ g'.s_levels = g.s_levels ∧ g'.a_levels = g.a_levels ∧
    sameMeta g g' := by
  rw [h]
  exact ⟨rfl, rfl, rfl, rfl, rfl, rfl, rfl, rfl⟩

theorem mkActionNode_facts (g : PG) (a : PAction) :
    (mkActionNode g a).1.s_levels = g.s_levels ∧
    (mkActionNode g a).1.a_levels = g.a_levels ∧
    sameMeta g (mkActionNode g a).1 ∧
    g.snodes.length ≤ (mkActionNode g a).1.snodes.length ∧
    (∀ i, i < g.snodes.length → sAt (mkActionNode g a).1 i = sAt g i) ∧
    (∀ i, g.snodes.length ≤ i →
      (sAt (mkActionNode g a).1 i).mutex = [] ∧ (sAt (mkActionNode g a).1 i).parents = []) ∧
    (mkActionNode g a).2 = g.anodes.length ∧
    (mkActionNode g a).1.anodes.length = g.anodes.length + 1 ∧
    (∀ i, i < g.anodes.length → aAt (mkActionNode g a).1 i = aAt g i) ∧
    (aAt (mkActionNode g a).1 (mkActionNode g a).2).action = a ∧
    (aAt (mkActionNode g a).1 (mkActionNode g a).2).is_persistent = isPersistentOf a ∧
    (aAt (mkActionNode g a).1 (mkActionNode g a).2).mutex = [] ∧
    (aAt (mkActionNode g a).1 (mkActionNode g a).2).children = [] ∧
    levelKeys (mkActionNode g a).1 (aAt (mkActionNode g a).1 (mkActionNode g a).2).effnodes =
      effKeysOf a ∧
    (∀ e ∈ (aAt (mkActionNode g a).1 (mkActionNode g a).2).effnodes,
      g.snodes.length ≤ e ∧ e < (mkActionNode g a).1.snodes.length) ∧
    (∀ i, (mkActionNode g a).1.anodes.length ≤ i → aAt (mkActionNode g a).1 i = defANode) := by
  obtain ⟨sl1, al1, an1, m1, len1, below1, fresh1, keys1, above1⟩ :=
    allocSNodes_facts (preKeysOf a) g
  obtain ⟨sl2, al2, an2, m2, len2, below2, fresh2, keys2, above2⟩ :=
    allocSNodes_facts (effKeysOf a) (allocSNodes g (preKeysOf a)).1
  set p1 := allocSNodes g (preKeysOf a) with hp1
  set p2 := allocSNodes p1.1 (effKeysOf a) with hp2
  have hnode : mkActionNode g a =
      ({ p2.1 with anodes := p2.1.anodes ++ [⟨a, isPersistentOf a, preKeysOf a, p2.2, p1.2, [], []⟩] },
        p2.1.anodes.length) := rfl
  have hsAtmk : ∀ i, sAt (mkActionNode g a).1 i = sAt p2.1 i := fun _ => rfl
  have hlenmk : (mkActionNode g a).1.snodes.length = p2.1.snodes.length := rfl
  have haAtmk : ∀ i, aAt (mkActionNode g a).1 i =
      (p2.1.anodes ++ ([⟨a, isPersistentOf a, preKeysOf a, p2.2, p1.2, [], []⟩] : List ANode)).getD
        i defANode :=
    fun _ => rfl
  have han2 : p2.1.anodes = g.anodes := an2.trans an1
  have hmkid : (mkActionNode g a).2 = g.anodes.length := by
    rw [hnode]
    show p2.1.anodes.length = g.anodes.length
    rw [han2]
  have hself : aAt (mkActionNode g a).1 (mkActionNode g a).2 =
      ⟨a, isPersistentOf a, preKeysOf a, p2.2, p1.2, [], []⟩ := by
    rw [haAtmk, hnode]
    show (p2.1.anodes ++ [_]).getD p2.1.anodes.length defANode = _
    exact getD_snoc_self _ _ _
  have hslen : g.snodes.length ≤ p2.1.snodes.length := by
    rw [len2, len1]
    omega
  refine ⟨sl2.trans sl1, al2.trans al1, sameMeta_trans m1 m2, hslen, ?_, ?_, hmkid, ?_, ?_, ?_,
    ?_, ?_, ?_, ?_, ?_, ?_⟩
  · intro i hi
    rw [hsAtmk, below2 i (by rw [len1]; omega), below1 i hi]
  · intro i hi
    rw [hsAtmk]
    by_cases h1 : i < p1.1.snodes.length
    · have := above1 i hi
      rw [← below2 i h1] at this
      exact this
    · exact above2 i (Nat.le_of_not_lt h1)
  · rw [hnode]
    show (p2.1.anodes ++ [_]).length = g.anodes.length + 1
    rw [List.length_append, han2]
    rfl
  · intro i hi
    rw [haAtmk]
    show _ = aAt g i
    rw [getD_append_lt _ _ i defANode (by rw [han2]; exact hi)]
    unfold aAt
    rw [han2]
  · rw [hself]
  · rw [hself]
  · rw [hself]
  · rw [hself]
  · rw [hself]
    show levelKeys (mkActionNode g a).1 p2.2 = effKeysOf a
    have : ∀ L, levelKeys (mkActionNode g a).1 L = levelKeys p2.1 L := by
      intro L
      unfold levelKeys skeyOf
      rfl
    rw [this, keys2]
  · rw [hself]
    intro e he
    have := fresh2 e he
    rw [len1] at this
    exact ⟨by omega, by rw [hlenmk]; exact this.2⟩
  · intro i hi
    rw [haAtmk]
    apply List.getD_eq_default
    rw [hnode] at hi
    exact hi

end PlanGraph

namespace PlanGraph

theorem updAt_snoc {α : Type} (f : α → α) (xs : List α) (x : α) :
    updAt f (xs ++ [x]) xs.length = xs ++ [f x] := by
  induction xs with
  | nil => rfl
  | cons y ys ih => simp [updAt, ih]

theorem processAction_facts (g : PG) (level : Nat) (a : PAction) :
    (processAction g level a).s_levels = g.s_levels ∧
    sameMeta g (processAction g level a) ∧
    g.snodes.length ≤ (processAction g level a).snodes.length ∧
    (∀ i, i < g.snodes.length →
      (sAt (processAction g level a) i).symbol = (sAt g i).symbol ∧
      (sAt (processAction g level a) i).is_pos = (sAt g i).is_pos ∧
      (sAt (processAction g level a) i).mutex = (sAt g i).mutex ∧
      (sAt (processAction g level a) i).parents = (sAt g i).parents) ∧
    (∀ i, g.snodes.length ≤ i →
      (sAt (processAction g level a) i).mutex = [] ∧
      (sAt (processAction g level a) i).parents = []) ∧
    g.anodes.length ≤ (processAction g level a).anodes.length ∧
    (∀ i, i < g.anodes.length → aAt (processAction g level a) i = aAt g i) ∧
    (∀ i, g.anodes.length ≤ i →
      (aAt (processAction g level a) i).mutex = [] ∧
      (∀ e ∈ (aAt (processAction g level a) i).effnodes,
        g.snodes.length ≤ e ∧ e < (processAction g level a).snodes.length)) ∧
    (processAction g level a).a_levels.length = g.a_levels.length ∧
    (∀ m, m ≠ level → (processAction g level a).a_levels.getD m [] = g.a_levels.getD m []) ∧
    ((processAction g level a).a_levels.getD level [] = g.a_levels.getD level [] ∨
      ((processAction g level a).a_levels.getD level [] =
          g.a_levels.getD level [] ++ [g.anodes.length] ∧
        g.anodes.length < (processAction g level a).anodes.length ∧
        memAKey (aLevelKeys (processAction g level a) (g.a_levels.getD level []))
          (akeyOf (processAction g level a) g.anodes.length) = false)) ∧
    (∀ xs L0, g.a_levels = xs ++ [L0] → level = xs.length →
      ∃ L1, (processAction g level a).a_levels = xs ++ [L1] ∧
        (L1 = L0 ∨ (L1 = L0 ++ [g.anodes.length] ∧
          g.anodes.length < (processAction g level a).anodes.length ∧
          memAKey (aLevelKeys (processAction g level a) L0)
            (akeyOf (processAction g level a) g.anodes.length) = false))) := by
  by_cases hen : enabledAt g level a = true
  · have hpa : processAction g level a =
        { linkChildren (mkActionNode g a).1 level (preKeysOf a) ⟨a.name, isPersistentOf a⟩ with
          a_levels := updAt
            (fun L => aSetAdd
              (linkChildren (mkActionNode g a).1 level (preKeysOf a) ⟨a.name, isPersistentOf a⟩)
              L (mkActionNode g a).2)
            (linkChildren (mkActionNode g a).1 level (preKeysOf a)
              ⟨a.name, isPersistentOf a⟩).a_levels level } := by
      unfold processAction
      rw [if_pos hen]
    obtain ⟨msl, mal, mmeta, mslen, msbelow, msabove, mid, malen, mabelow, mact, mpers, mmut,
      mch, mkeys, meff, maoob⟩ := mkActionNode_facts g a
    obtain ⟨leq, llen, lfields⟩ :=
      linkChildren_facts level (preKeysOf a) ⟨a.name, isPersistentOf a⟩ (mkActionNode g a).1
    obtain ⟨lan, lsl, lal, lmeta⟩ := eqExceptS_fields leq
    set gm := (mkActionNode g a).1 with hgm
    set gl := linkChildren gm level (preKeysOf a) ⟨a.name, isPersistentOf a⟩ with hgl
    set gf := processAction g level a with hgf
    have hfsn : gf.snodes = gl.snodes := by rw [hpa]
    have hfan : gf.anodes = gl.anodes := by rw [hpa]
    have hfsl : gf.s_levels = gl.s_levels := by rw [hpa]
    have hfal : gf.a_levels =
        updAt (fun L => aSetAdd gl L (mkActionNode g a).2) gl.a_levels level := by rw [hpa]
    have hsAtf : ∀ i, sAt gf i = sAt gl i := by
      intro i
      unfold sAt
      rw [hfsn]
    have haAtf : ∀ i, aAt gf i = aAt gl i := by
      intro i
      unfold aAt
      rw [hfan]
    have hmetaf : sameMeta gl gf := by
      rw [hpa]
      exact ⟨rfl, rfl, rfl, rfl, rfl⟩
    have haAtl : ∀ i, aAt gl i = aAt gm i := by
      intro i
      unfold aAt
      rw [lan]
    have hslenf : gf.snodes.length = gm.snodes.length := by
      rw [hfsn]
      exact llen
    have halenf : gf.anodes.length = gm.anodes.length := by
      rw [hfan, lan]
    refine ⟨?_, ?_, ?_, ?_, ?_, ?_, ?_, ?_, ?_, ?_, ?_, ?_⟩
    · rw [hfsl, lsl, msl]
    · exact sameMeta_trans (sameMeta_trans mmeta lmeta) hmetaf
    · rw [hslenf]
      exact mslen
    · intro i hi
      obtain ⟨f1, f2, f3, f4⟩ := lfields i
      rw [hsAtf i, f1, f2, f3, f4, msbelow i hi]
      exact ⟨rfl, rfl, rfl, rfl⟩
    · intro i hi
      obtain ⟨f1, f2, f3, f4⟩ := lfields i
      rw [hsAtf i, f3, f4]
      exact msabove i hi
    · rw [halenf, malen]
      omega
    · intro i hi
      rw [haAtf i, haAtl i, mabelow i hi]
    · intro i hi
      rw [haAtf i, haAtl i]
      by_cases h1 : i < gm.anodes.length
      · have hieq : i = (mkActionNode g a).2 := by
          rw [mid]
          rw [malen] at h1
          omega
        rw [hieq]
        refine ⟨mmut, ?_⟩
        intro e he
        have := meff e he
        rw [hslenf]
        exact this
      · rw [maoob i (Nat.le_of_not_lt h1)]
        exact ⟨rfl, fun e he => absurd he (List.not_mem_nil e)⟩
    · rw [hfal, updAt_length, lal, mal]
    · intro m hm
      rw [hfal, updAt_getD_ne _ _ _ _ _ hm, lal, mal]
    · by_cases hlev : level < gl.a_levels.length
      · rw [hfal, updAt_getD_self _ _ _ _ hlev, lal, mal]
        unfold aSetAdd
        by_cases hc : memAKey (aLevelKeys gl (g.a_levels.getD level []))
            (akeyOf gl (mkActionNode g a).2) = true
        · rw [if_pos hc]
          exact Or.inl rfl
        · rw [if_neg hc]
          refine Or.inr ⟨by rw [mid], ?_, ?_⟩
          · rw [halenf, malen]
            omega
          · have hkk : akeyOf gf = akeyOf gl := funext fun i => by
              unfold akeyOf
              rw [haAtf i]
            unfold aLevelKeys
            unfold aLevelKeys at hc
            rw [← hkk, mid] at hc
            cases h : memAKey (List.map (akeyOf gf) (g.a_levels.getD level []))
                (akeyOf gf g.anodes.length)
            · rfl
            · exact absurd h hc
      · rw [hfal, updAt_getD_oob _ _ _ _ (Nat.le_of_not_lt hlev), lal, mal]
        exact Or.inl rfl
    · intro xs L0 hshape hlvl
      rw [hfal, lal, mal, hshape, hlvl, updAt_snoc]
      refine ⟨aSetAdd gl L0 (mkActionNode g a).2, rfl, ?_⟩
      unfold aSetAdd
      by_cases hc : memAKey (aLevelKeys gl L0) (akeyOf gl (mkActionNode g a).2) = true
      · rw [if_pos hc]
        exact Or.inl rfl
      · rw [if_neg hc]
        refine Or.inr ⟨by rw [mid], by rw [halenf, malen]; omega, ?_⟩
        have hkk : akeyOf gf = akeyOf gl := funext fun i => by
          unfold akeyOf
          rw [haAtf i]
        unfold aLevelKeys
        unfold aLevelKeys at hc
        rw [← hkk, mid] at hc
        cases h : memAKey (List.map (akeyOf gf) L0) (akeyOf gf g.anodes.length)
        · rfl
        · exact absurd h hc
  · have : processAction g level a = g := by
      unfold processAction
      rw [if_neg hen]
    rw [this]
    refine ⟨rfl, sameMeta_refl g, Nat.le_refl _, fun i _ => ⟨rfl, rfl, rfl, rfl⟩, ?_,
      Nat.le_refl _, fun i _ => rfl, ?_, rfl, fun m _ => rfl, Or.inl rfl,
      fun xs L0 hshape _ => ⟨L0, hshape, Or.inl rfl⟩⟩
    · intro i hi
      constructor
      · show (g.snodes.getD i defSNode).mutex = []
        rw [List.getD_eq_default _ _ hi]
        rfl
      · show (g.snodes.getD i defSNode).parents = []
        rw [List.getD_eq_default _ _ hi]
        rfl
    · intro i hi
      constructor
      · show (g.anodes.getD i defANode).mutex = []
        rw [List.getD_eq_default _ _ hi]
        rfl
      · intro e he
        rw [show aAt g i = defANode from List.getD_eq_default _ _ hi] at he
        exact absurd he (List.not_mem_nil e)

end PlanGraph

namespace PlanGraph

theorem memSKey_eq_true_iff (l : List SKey) (k : SKey) : memSKey l k = true ↔ k ∈ l := by
  simp [memSKey]

theorem memSKey_eq_false_iff (l : List SKey) (k : SKey) : memSKey l k = false ↔ k ∉ l := by
  rw [← Bool.not_eq_true, not_iff_not]
  exact memSKey_eq_true_iff l k

theorem memAKey_eq_true_iff (l : List AKey) (k : AKey) : memAKey l k = true ↔ k ∈ l := by
  simp [memAKey]

theorem memAKey_eq_false_iff (l : List AKey) (k : AKey) : memAKey l k = false ↔ k ∉ l := by
  rw [← Bool.not_eq_true, not_iff_not]
  exact memAKey_eq_true_iff l k

/-- The invariant carried through `add_action_level`'s per-action fold:
frames relative to the base graph `g`, plus the shape of the action levels. -/
def AALInv (g : PG) (xs : List (List Nat)) (gg : PG) : Prop :=
  gg.s_levels = g.s_levels ∧ sameMeta g gg ∧
  g.snodes.length ≤ gg.snodes.length ∧
  (∀ i, i < g.snodes.length →
    (sAt gg i).symbol = (sAt g i).symbol ∧ (sAt gg i).is_pos = (sAt g i).is_pos ∧
    (sAt gg i).mutex = (sAt g i).mutex ∧ (sAt gg i).parents = (sAt g i).parents) ∧
  (∀ i, g.snodes.length ≤ i → (sAt gg i).mutex = [] ∧ (sAt gg i).parents = []) ∧
  g.anodes.length ≤ gg.anodes.length ∧
  (∀ i, i < g.anodes.length → aAt gg i = aAt g i) ∧
  (∀ i, g.anodes.length ≤ i → (aAt gg i).mutex = [] ∧
    (∀ e ∈ (aAt gg i).effnodes, g.snodes.length ≤ e ∧ e < gg.snodes.length)) ∧
  (∃ L, gg.a_levels = xs ++ [L] ∧
    (∀ i ∈ L, g.anodes.length ≤ i ∧ i < gg.anodes.length) ∧
    (aLevelKeys gg L).Nodup)

theorem AALInv_step (g : PG) (xs : List (List Nat)) (level : Nat) (hlvl : level = xs.length)
    (gg : PG) (h : AALInv g xs gg) (a : PAction) :
    AALInv g xs (processAction gg level a) := by
  obtain ⟨hsl, hmeta, hslen, hsbelow, hsabove, halen, habelow, habove, L, hshape, hbd, hnd⟩ := h
  obtain ⟨fsl, fmeta, fslen, fsbelow, fsabove, falen, fabelow, fabove, _, _, _, fshape⟩ :=
    processAction_facts gg level a
  obtain ⟨L1, hshape1, hL1⟩ := fshape xs L hshape hlvl
  refine ⟨fsl.trans hsl, sameMeta_trans hmeta fmeta, Nat.le_trans hslen fslen, ?_, ?_,
    Nat.le_trans halen falen, ?_, ?_, L1, hshape1, ?_, ?_⟩
  · intro i hi
    obtain ⟨f1, f2, f3, f4⟩ := fsbelow i (by omega)
    obtain ⟨g1, g2, g3, g4⟩ := hsbelow i hi
    exact ⟨f1.trans g1, f2.trans g2, f3.trans g3, f4.trans g4⟩
  · intro i hi
    by_cases h1 : i < gg.snodes.length
    · obtain ⟨_, _, f3, f4⟩ := fsbelow i h1
      obtain ⟨g3, g4⟩ := hsabove i hi
      exact ⟨f3.trans g3, f4.trans g4⟩
    · exact fsabove i (Nat.le_of_not_lt h1)
  · intro i hi
    rw [fabelow i (by omega)]
    exact habelow i hi
  · intro i hi
    by_cases h1 : i < gg.anodes.length
    · rw [fabelow i h1]
      obtain ⟨g1, g2⟩ := habove i hi
      exact ⟨g1, fun e he => ⟨(g2 e he).1, by have := (g2 e he).2; omega⟩⟩
    · obtain ⟨f1, f2⟩ := fabove i (Nat.le_of_not_lt h1)
      exact ⟨f1, fun e he => ⟨by have := (f2 e he).1; omega, (f2 e he).2⟩⟩
  · -- member bounds for the possibly extended level list
    rcases hL1 with rfl | ⟨rfl, hlt, _⟩
    · intro i hi
      obtain ⟨b1, b2⟩ := hbd i hi
      exact ⟨b1, by omega⟩
    · intro i hi
      rcases List.mem_append.mp hi with hmem | hmem
      · obtain ⟨b1, b2⟩ := hbd i hmem
        exact ⟨b1, by omega⟩
      · rcases List.mem_singleton.mp hmem with rfl
        exact ⟨halen, hlt⟩
  · -- nodup keys of the new level list
    have hkeep : aLevelKeys (processAction gg level a) L = aLevelKeys gg L := by
      unfold aLevelKeys
      apply List.map_congr_left
      intro i hi
      unfold akeyOf
      rw [fabelow i (hbd i hi).2]
    rcases hL1 with rfl | ⟨rfl, _, hmemf⟩
    · rw [hkeep]
      exact hnd
    · unfold aLevelKeys
      rw [List.map_append]
      apply List.Nodup.append
      · show (aLevelKeys (processAction gg level a) L).Nodup
        rw [hkeep]
        exact hnd
      · exact List.nodup_singleton _
      · intro k hk1 hk2
        rcases List.mem_singleton.mp hk2 with rfl
        have : memAKey (aLevelKeys (processAction gg level a) L)
            (akeyOf (processAction gg level a) gg.anodes.length) = false := hmemf
        rw [memAKey_eq_false_iff] at this
        exact this hk1

theorem AALInv_fold (g : PG) (xs : List (List Nat)) (level : Nat) (hlvl : level = xs.length)
    (acts : List PAction) :
    ∀ gg, AALInv g xs gg →
      AALInv g xs (acts.foldl (fun gg a => processAction gg level a) gg) := by
  induction acts with
  | nil => intro gg h; exact h
  | cons a rest ih =>
    intro gg h
    rw [List.foldl_cons]
    exact ih _ (AALInv_step g xs level hlvl gg h a)

theorem add_action_level_facts (g : PG) (level : Nat) (hlev : g.a_levels.length = level) :
    AALInv g g.a_levels (add_action_level g level) := by
  unfold add_action_level
  apply AALInv_fold g g.a_levels level hlev.symm
  refine ⟨rfl, sameMeta_refl g, Nat.le_refl _, fun i _ => ⟨rfl, rfl, rfl, rfl⟩, ?_,
    Nat.le_refl _, fun i _ => rfl, ?_, [], rfl, fun i hi => absurd hi (List.not_mem_nil i),
    List.nodup_nil⟩
  · intro i hi
    constructor
    · show (g.snodes.getD i defSNode).mutex = []
      rw [List.getD_eq_default _ _ hi]
      rfl
    · show (g.snodes.getD i defSNode).parents = []
      rw [List.getD_eq_default _ _ hi]
      rfl
  · intro i hi
    constructor
    · show (g.anodes.getD i defANode).mutex = []
      rw [List.getD_eq_default _ _ hi]
      rfl
    · intro e he
      have hemp : (aAt { g with a_levels := g.a_levels ++ [[]] } i).effnodes = [] := by
        show (g.anodes.getD i defANode).effnodes = []
        rw [List.getD_eq_default _ _ hi]
        rfl
      rw [hemp] at he
      exact absurd he (List.not_mem_nil e)

end PlanGraph

namespace PlanGraph

theorem processEffnode_facts (g : PG) (aid eid level : Nat) :
    (processEffnode g aid eid level).a_levels = g.a_levels ∧
    sameMeta g (processEffnode g aid eid level) ∧
    (processEffnode g aid eid level).snodes.length = g.snodes.length ∧
    (processEffnode g aid eid level).anodes.length = g.anodes.length ∧
    (∀ i, (sAt (processEffnode g aid eid level) i).symbol = (sAt g i).symbol ∧
      (sAt (processEffnode g aid eid level) i).is_pos = (sAt g i).is_pos ∧
      (sAt (processEffnode g aid eid level) i).mutex = (sAt g i).mutex ∧
      (sAt (processEffnode g aid eid level) i).children = (sAt g i).children) ∧
    (∀ i, (aAt (processEffnode g aid eid level) i).action = (aAt g i).action ∧
      (aAt (processEffnode g aid eid level) i).is_persistent = (aAt g i).is_persistent ∧
      (aAt (processEffnode g aid eid level) i).effnodes = (aAt g i).effnodes ∧
      (aAt (processEffnode g aid eid level) i).parents = (aAt g i).parents ∧
      (aAt (processEffnode g aid eid level) i).mutex = (aAt g i).mutex) ∧
    (∀ m, m ≠ level →
      (processEffnode g aid eid level).s_levels.getD m [] = g.s_levels.getD m []) ∧
    (∀ xs L0, g.s_levels = xs ++ [L0] → level = xs.length →
      ∃ L1, (processEffnode g aid eid level).s_levels = xs ++ [L1] ∧
        (L1 = L0 ∨ (L1 = L0 ++ [eid] ∧
          memSKey (levelKeys (processEffnode g aid eid level) L0)
            (skeyOf (processEffnode g aid eid level) eid) = false))) := by
  set f1 : SNode → SNode := fun n =>
    { n with parents := if memAKey (n.parents.map (akeyOf g)) (akeyOf g aid) then n.parents
                        else n.parents ++ [aid] } with hf1
  set g1 := updS g eid f1 with hg1
  set f2 : ANode → ANode := fun n =>
    { n with children := skeySetAdd n.children (skeyOf g1 eid) } with hf2
  set g2 := updA g1 aid f2 with hg2
  have hpe : processEffnode g aid eid level =
      { g2 with s_levels := updAt (fun L => sSetAdd g2 L eid) g2.s_levels level } := rfl
  have hsn : (processEffnode g aid eid level).snodes = g1.snodes := by
    rw [hpe]
    rfl
  have han : (processEffnode g aid eid level).anodes = g2.anodes := by
    rw [hpe]
  have hsl2 : g2.s_levels = g.s_levels := rfl
  have hsl : (processEffnode g aid eid level).s_levels =
      updAt (fun L => sSetAdd g2 L eid) g.s_levels level := by
    rw [hpe]
    rfl
  have hsAtf : ∀ i, sAt (processEffnode g aid eid level) i = sAt g1 i := by
    intro i
    unfold sAt
    rw [hsn]
  have haAtf : ∀ i, aAt (processEffnode g aid eid level) i = aAt g2 i := by
    intro i
    unfold aAt
    rw [han]
  refine ⟨?_, ?_, ?_, ?_, ?_, ?_, ?_, ?_⟩
  · rw [hpe]
    rfl
  · rw [hpe]
    exact ⟨rfl, rfl, rfl, rfl, rfl⟩
  · rw [hsn, hg1, snodes_length_updS]
  · rw [han, hg2]
    show (updA g1 aid f2).anodes.length = g.anodes.length
    rw [anodes_length_updA]
    rfl
  · intro i
    rw [hsAtf i]
    rcases sAt_updS_fields g eid f1 i with h | ⟨_, _, h⟩ <;> rw [h] <;> exact ⟨rfl, rfl, rfl, rfl⟩
  · intro i
    rw [haAtf i]
    have hg1a : aAt g1 i = aAt g i := rfl
    rcases aAt_updA_fields g1 aid f2 i with h | ⟨_, _, h⟩ <;> rw [h] <;>
      exact ⟨rfl, rfl, rfl, rfl, rfl⟩
  · intro m hm
    rw [hsl, updAt_getD_ne _ _ _ _ _ hm]
  · intro xs L0 hshape hlvl
    subst hlvl
    rw [hsl, hshape, updAt_snoc]
    refine ⟨sSetAdd g2 L0 eid, rfl, ?_⟩
    unfold sSetAdd
    by_cases hc : memSKey (levelKeys g2 L0) (skeyOf g2 eid) = true
    · rw [if_pos hc]
      exact Or.inl rfl
    · rw [if_neg hc]
      refine Or.inr ⟨rfl, ?_⟩
      have hkeq : ∀ i, skeyOf (processEffnode g aid eid xs.length) i = skeyOf g2 i := by
        intro i
        unfold skeyOf sAt
        rw [hsn]
        rfl
      have hlk : levelKeys (processEffnode g aid eid xs.length) L0 = levelKeys g2 L0 := by
        unfold levelKeys
        exact List.map_congr_left fun i _ => hkeq i
      rw [hlk, hkeq]
      cases h : memSKey (levelKeys g2 L0) (skeyOf g2 eid)
      · rfl
      · exact absurd h hc

/-- The invariant carried through `add_literal_level`'s double fold. -/
def ALLInv (g : PG) (xs : List (List Nat)) (aids : List Nat) (gg : PG) : Prop :=
  gg.a_levels = g.a_levels ∧ sameMeta g gg ∧
  gg.snodes.length = g.snodes.length ∧
  gg.anodes.length = g.anodes.length ∧
  (∀ i, (sAt gg i).symbol = (sAt g i).symbol ∧ (sAt gg i).is_pos = (sAt g i).is_pos ∧
    (sAt gg i).mutex = (sAt g i).mutex ∧ (sAt gg i).children = (sAt g i).children) ∧
  (∀ i, (aAt gg i).action = (aAt g i).action ∧
    (aAt gg i).is_persistent = (aAt g i).is_persistent ∧
    (aAt gg i).effnodes = (aAt g i).effnodes ∧
    (aAt gg i).parents = (aAt g i).parents ∧
    (aAt gg i).mutex = (aAt g i).mutex) ∧
  (∃ SL, gg.s_levels = xs ++ [SL] ∧ (levelKeys gg SL).Nodup ∧
    (∀ e ∈ SL, ∃ aid, aid ∈ aids ∧ e ∈ (aAt g aid).effnodes))

theorem ALLInv_step (g : PG) (xs : List (List Nat)) (aids : List Nat) (level : Nat)
    (hlvl : level = xs.length) (gg : PG) (h : ALLInv g xs aids gg)
    (aid : Nat) (haid : aid ∈ aids) (eid : Nat) (heid : eid ∈ (aAt g aid).effnodes) :
    ALLInv g xs aids (processEffnode gg aid eid level) := by
  obtain ⟨hal, hmeta, hslen, halen, hsf, haf, SL, hshape, hnd, hprov⟩ := h
  obtain ⟨fal, fmeta, fslen, falen, fsf, faf, _, fshape⟩ :=
    processEffnode_facts gg aid eid level
  obtain ⟨L1, hshape1, hL1⟩ := fshape xs SL hshape hlvl
  have hkeq : ∀ i, skeyOf (processEffnode gg aid eid level) i = skeyOf gg i := by
    intro i
    unfold skeyOf
    rw [(fsf i).1, (fsf i).2.1]
  have hkeep : ∀ L, levelKeys (processEffnode gg aid eid level) L = levelKeys gg L := by
    intro L
    unfold levelKeys
    exact List.map_congr_left fun i _ => hkeq i
  refine ⟨fal.trans hal, sameMeta_trans hmeta fmeta, fslen.trans hslen, falen.trans halen,
    ?_, ?_, L1, hshape1, ?_, ?_⟩
  · intro i
    obtain ⟨f1, f2, f3, f4⟩ := fsf i
    obtain ⟨g1, g2, g3, g4⟩ := hsf i
    exact ⟨f1.trans g1, f2.trans g2, f3.trans g3, f4.trans g4⟩
  · intro i
    obtain ⟨f1, f2, f3, f4, f5⟩ := faf i
    obtain ⟨g1, g2, g3, g4, g5⟩ := haf i
    exact ⟨f1.trans g1, f2.trans g2, f3.trans g3, f4.trans g4, f5.trans g5⟩
  · rcases hL1 with rfl | ⟨rfl, hmemf⟩
    · rw [hkeep]
      exact hnd
    · unfold levelKeys
      rw [List.map_append]
      apply List.Nodup.append
      · show (levelKeys (processEffnode gg aid eid level) SL).Nodup
        rw [hkeep]
        exact hnd
      · exact List.nodup_singleton _
      · intro k hk1 hk2
        rcases List.mem_singleton.mp hk2 with rfl
        rw [memSKey_eq_false_iff] at hmemf
        exact hmemf hk1
  · rcases hL1 with rfl | ⟨rfl, _⟩
    · exact hprov
    · intro e he
      rcases List.mem_append.mp he with hmem | hmem
      · exact hprov e hmem
      · rcases List.mem_singleton.mp hmem with rfl
        exact ⟨aid, haid, heid⟩

theorem ALLInv_innerFold (g : PG) (xs : List (List Nat)) (aids : List Nat) (level : Nat)
    (hlvl : level = xs.length) (aid : Nat) (haid : aid ∈ aids) :
    ∀ (eids : List Nat), (∀ e ∈ eids, e ∈ (aAt g aid).effnodes) →
      ∀ gg, ALLInv g xs aids gg →
        ALLInv g xs aids (eids.foldl (fun gg2 eid => processEffnode gg2 aid eid level) gg) := by
  intro eids
  induction eids with
  | nil => intro _ gg h; exact h
  | cons e rest ih =>
    intro he gg h
    rw [List.foldl_cons]
    exact ih (fun e' he' => he e' (by simp [he'])) _
      (ALLInv_step g xs aids level hlvl gg h aid haid e (he e (by simp)))

theorem ALLInv_outerFold (g : PG) (xs : List (List Nat)) (aids : List Nat) (level : Nat)
    (hlvl : level = xs.length) :
    ∀ (as : List Nat), (∀ a ∈ as, a ∈ aids) →
      ∀ gg, ALLInv g xs aids gg →
        ALLInv g xs aids (as.foldl (fun gg aid => effFold gg aid level) gg) := by
  intro as
  induction as with
  | nil => intro _ gg h; exact h
  | cons aid rest ih =>
    intro ha gg h
    rw [List.foldl_cons]
    apply ih (fun a' ha' => ha a' (by simp [ha']))
    have heff : (aAt gg aid).effnodes = (aAt g aid).effnodes := (h.2.2.2.2.2.1 aid).2.2.1
    show ALLInv g xs aids (effFold gg aid level)
    unfold effFold
    rw [heff]
    exact ALLInv_innerFold g xs aids level hlvl aid (ha aid (by simp))
      (aAt g aid).effnodes (fun _ he => he) gg h

theorem add_literal_level_facts (g : PG) (level : Nat) (hlev : g.s_levels.length = level) :
    ALLInv g g.s_levels (g.a_levels.getD (level - 1) []) (add_literal_level g level) := by
  unfold add_literal_level
  apply ALLInv_outerFold g g.s_levels (g.a_levels.getD (level - 1) []) level hlev.symm
    _ (fun a ha => ha)
  exact ⟨rfl, sameMeta_refl g, rfl, rfl, fun i => ⟨rfl, rfl, rfl, rfl⟩,
    fun i => ⟨rfl, rfl, rfl, rfl, rfl⟩, [], rfl, List.nodup_nil,
    fun e he => absurd he (List.not_mem_nil e)⟩

end PlanGraph

namespace PlanGraph

/-- The per-level structural invariant maintained by graph construction:
distinct member values, members within the heap, mutex symmetry and
irreflexivity inside every level, and id-disjointness between levels. -/
def LevelOK (g : PG) : Prop :=
  (∀ L ∈ g.s_levels, (levelKeys g L).Nodup ∧ (∀ i ∈ L, i < g.snodes.length) ∧
    symOnS g L ∧ irreflOnS g L) ∧
  g.s_levels.Pairwise (fun L1 L2 => ∀ i ∈ L1, i ∉ L2) ∧
  (∀ L ∈ g.a_levels, (aLevelKeys g L).Nodup ∧ (∀ i ∈ L, i < g.anodes.length) ∧
    symOnA g L ∧ irreflOnA g L) ∧
  g.a_levels.Pairwise (fun L1 L2 => ∀ i ∈ L1, i ∉ L2)

theorem symOnS_transport (gA gB : PG) (L : List Nat)
    (hkey : ∀ i ∈ L, skeyOf gB i = skeyOf gA i)
    (hmut : ∀ i ∈ L, (sAt gB i).mutex = (sAt gA i).mutex) :
    symOnS gA L → symOnS gB L := by
  intro h i hi j hj
  rw [hmut i hi, hmut j hj, hkey i hi, hkey j hj]
  exact h i hi j hj

theorem irreflOnS_transport (gA gB : PG) (L : List Nat)
    (hkey : ∀ i ∈ L, skeyOf gB i = skeyOf gA i)
    (hmut : ∀ i ∈ L, (sAt gB i).mutex = (sAt gA i).mutex) :
    irreflOnS gA L → irreflOnS gB L := by
  intro h i hi
  rw [hmut i hi, hkey i hi]
  exact h i hi

theorem symOnA_transport (gA gB : PG) (L : List Nat)
    (hkey : ∀ i ∈ L, akeyOf gB i = akeyOf gA i)
    (hmut : ∀ i ∈ L, (aAt gB i).mutex = (aAt gA i).mutex) :
    symOnA gA L → symOnA gB L := by
  intro h i hi j hj
  rw [hmut i hi, hmut j hj, hkey i hi, hkey j hj]
  exact h i hi j hj

theorem irreflOnA_transport (gA gB : PG) (L : List Nat)
    (hkey : ∀ i ∈ L, akeyOf gB i = akeyOf gA i)
    (hmut : ∀ i ∈ L, (aAt gB i).mutex = (aAt gA i).mutex) :
    irreflOnA gA L → irreflOnA gB L := by
  intro h i hi
  rw [hmut i hi, hkey i hi]
  exact h i hi

theorem levelKeys_transport (gA gB : PG) (L : List Nat)
    (hkey : ∀ i ∈ L, skeyOf gB i = skeyOf gA i) : levelKeys gB L = levelKeys gA L := by
  unfold levelKeys
  exact List.map_congr_left hkey

theorem aLevelKeys_transport (gA gB : PG) (L : List Nat)
    (hkey : ∀ i ∈ L, akeyOf gB i = akeyOf gA i) : aLevelKeys gB L = aLevelKeys gA L := by
  unfold aLevelKeys
  exact List.map_congr_left hkey

theorem graphStep_ok (g : PG) (level : Nat)
    (hs : g.s_levels.length = level + 1) (ha : g.a_levels.length = level)
    (hok : LevelOK g) :
    LevelOK (graphStep g level) ∧
    (graphStep g level).s_levels.length = level + 2 ∧
    (graphStep g level).a_levels.length = level + 1 ∧
    sameMeta g (graphStep g level) := by
  obtain ⟨okS, okSdisj, okA, okAdisj⟩ := hok
  set g1 := add_action_level g level with hg1def
  obtain ⟨a_sl, a_meta, a_slen, a_sbelow, a_sabove, a_alen, a_abelow, a_aabove, L, a_shape,
    a_bnd, a_nd⟩ := add_action_level_facts g level ha
  have hlvlA : g1.a_levels.getD level [] = L := by
    rw [← hg1def] at a_shape
    rw [a_shape, ← ha]
    exact getD_snoc_self _ _ _
  rw [← hg1def] at a_sl a_meta a_slen a_sbelow a_sabove a_alen a_abelow a_aabove a_shape a_bnd a_nd
  -- action mutex update
  have hBpre_empty : ∀ i ∈ L, (aAt g1 i).mutex = [] := by
    intro i hi
    exact (a_aabove i (a_bnd i hi).1).1
  obtain ⟨b_eq, b_alen, b_akeys, b_apar, b_ach, b_aeff, b_aact, b_aoff, b_sym, b_irr⟩ :=
    update_a_mutex_ok g1 L a_nd (fun n hn => (a_bnd n hn).2)
      (symOnA_of_empty g1 L hBpre_empty) (irreflOnA_of_empty g1 L hBpre_empty)
  set g2 := update_a_mutex g1 L with hg2def
  obtain ⟨b_sn, b_sl, b_al, b_meta⟩ := eqExceptA_fields b_eq
  have hsAt12 : ∀ i, sAt g2 i = sAt g1 i := by
    intro i
    unfold sAt
    rw [b_sn]
  have hkey12 : ∀ i, skeyOf g2 i = skeyOf g1 i := by
    intro i
    unfold skeyOf
    rw [hsAt12]
  -- literal level
  have hg2slen : g2.s_levels.length = level + 1 := by
    rw [b_sl, a_sl, hs]
  have hg2al : g2.a_levels.getD ((level + 1) - 1) [] = L := by
    have : (level + 1) - 1 = level := by omega
    rw [this, b_al, hlvlA]
  obtain ⟨c_al, c_meta, c_slen, c_alen, c_sf, c_af, SL, c_shape, c_nd, c_prov⟩ :=
    add_literal_level_facts g2 (level + 1) hg2slen
  rw [hg2al] at c_prov
  set g3 := add_literal_level g2 (level + 1) with hg3def
  have hkey23 : ∀ i, skeyOf g3 i = skeyOf g2 i := by
    intro i
    unfold skeyOf
    rw [(c_sf i).1, (c_sf i).2.1]
  have hakey23 : ∀ i, akeyOf g3 i = akeyOf g2 i := by
    intro i
    unfold akeyOf
    rw [(c_af i).1, (c_af i).2.1]
  have hlvlS : g3.s_levels.getD (level + 1) [] = SL := by
    rw [c_shape, b_sl, a_sl, ← hs]
    exact getD_snoc_self _ _ _
  -- properties of the new literal level members
  have hSLfresh : ∀ e ∈ SL, g.snodes.length ≤ e ∧ e < g3.snodes.length := by
    intro e he
    obtain ⟨aid, haid, heff⟩ := c_prov e he
    have heff1 : e ∈ (aAt g1 aid).effnodes := by
      rw [← (b_aeff aid)]
      exact heff
    have := (a_aabove aid (a_bnd aid haid).1).2 e heff1
    refine ⟨this.1, ?_⟩
    rw [c_slen, b_sn]
    exact this.2
  have hSLempty : ∀ e ∈ SL, (sAt g3 e).mutex = [] := by
    intro e he
    rw [(c_sf e).2.2.1, hsAt12]
    exact (a_sabove e (hSLfresh e he).1).1
  obtain ⟨d_eq, d_slen, d_skeys, d_spar, d_sch, d_soff, d_sym, d_irr⟩ :=
    update_s_mutex_ok g3 SL c_nd (fun n hn => (hSLfresh n hn).2)
      (symOnS_of_empty g3 SL hSLempty) (irreflOnS_of_empty g3 SL hSLempty)
  set g4 := update_s_mutex g3 SL with hg4def
  obtain ⟨d_an, d_sl, d_al, d_meta⟩ := eqExceptS_fields d_eq
  have haAt34 : ∀ i, aAt g4 i = aAt g3 i := by
    intro i
    unfold aAt
    rw [d_an]
  have hakey34 : ∀ i, akeyOf g4 i = akeyOf g3 i := by
    intro i
    unfold akeyOf
    rw [haAt34]
  have hstep : graphStep g level = g4 := by
    show update_s_mutex
        (add_literal_level
          (update_a_mutex (add_action_level g level)
            ((add_action_level g level).a_levels.getD level []))
          (level + 1))
        ((add_literal_level
          (update_a_mutex (add_action_level g level)
            ((add_action_level g level).a_levels.getD level []))
          (level + 1)).s_levels.getD (level + 1) []) = g4
    rw [← hg1def, hlvlA, ← hg2def, ← hg3def, hlvlS, ← hg4def]
  -- final level lists
  have hfin_s : g4.s_levels = g.s_levels ++ [SL] := by
    rw [d_sl, c_shape, b_sl, a_sl]
  have hfin_a : g4.a_levels = g.a_levels ++ [L] := by
    rw [d_al, c_al, b_al, a_shape]
  -- key and mutex translation for old literal-level members
  have tr_skey : ∀ i, i < g.snodes.length → skeyOf g4 i = skeyOf g i := by
    intro i hi
    rw [d_skeys, hkey23, hkey12]
    unfold skeyOf
    obtain ⟨h1, h2, _, _⟩ := a_sbelow i hi
    rw [h1, h2]
  have tr_smut : ∀ i, i < g.snodes.length → i ∉ SL → (sAt g4 i).mutex = (sAt g i).mutex := by
    intro i hi hni
    rw [d_soff i hni, (c_sf i).2.2.1, hsAt12]
    exact (a_sbelow i hi).2.2.1
  have tr_akey : ∀ i, i < g.anodes.length → akeyOf g4 i = akeyOf g i := by
    intro i hi
    rw [hakey34, hakey23, b_akeys]
    unfold akeyOf
    rw [a_abelow i hi]
  have tr_amut : ∀ i, i < g.anodes.length → i ∉ L → (aAt g4 i).mutex = (aAt g i).mutex := by
    intro i hi hni
    rw [haAt34, (c_af i).2.2.2.2, b_aoff i hni, a_abelow i hi]
  have hSnotin : ∀ i, i < g.snodes.length → i ∉ SL := by
    intro i hi hmem
    have := (hSLfresh i hmem).1
    omega
  have hAnotin : ∀ i, i < g.anodes.length → i ∉ L := by
    intro i hi hmem
    have := (a_bnd i hmem).1
    omega
  have hslen14 : g.snodes.length ≤ g4.snodes.length := by
    have h4 : g4.snodes.length = g3.snodes.length := d_slen
    rw [h4, c_slen, b_sn]
    exact a_slen
  have halen14 : g.anodes.length ≤ g4.anodes.length := by
    have h4 : g4.anodes.length = g3.anodes.length := by rw [d_an]
    rw [h4, c_alen, b_alen]
    exact a_alen
  rw [hstep]
  refine ⟨⟨?_, ?_, ?_, ?_⟩, ?_, ?_, ?_⟩
  · -- literal levels
    intro L' hL'
    rw [hfin_s] at hL'
    rcases List.mem_append.mp hL' with hold | hnew
    · obtain ⟨o_nd, o_bd, o_sym, o_irr⟩ := okS L' hold
      have hkeyL : ∀ i ∈ L', skeyOf g4 i = skeyOf g i := fun i hi => tr_skey i (o_bd i hi)
      have hmutL : ∀ i ∈ L', (sAt g4 i).mutex = (sAt g i).mutex := fun i hi =>
        tr_smut i (o_bd i hi) (hSnotin i (o_bd i hi))
      exact ⟨by rw [levelKeys_transport g g4 L' hkeyL]; exact o_nd,
        fun i hi => by have := o_bd i hi; omega,
        symOnS_transport g g4 L' hkeyL hmutL o_sym,
        irreflOnS_transport g g4 L' hkeyL hmutL o_irr⟩
    · rcases List.mem_singleton.mp hnew with rfl
      have hkeySL : ∀ i ∈ L', skeyOf g4 i = skeyOf g3 i := fun i _ => d_skeys i
      refine ⟨by rw [levelKeys_transport g3 g4 L' hkeySL]; exact c_nd, ?_, d_sym, d_irr⟩
      intro i hi
      have := (hSLfresh i hi).2
      have h4 : g4.snodes.length = g3.snodes.length := d_slen
      omega
  · -- literal level disjointness
    rw [hfin_s]
    rw [List.pairwise_append]
    refine ⟨okSdisj, List.pairwise_singleton _ _, ?_⟩
    intro L' hL' L'' hL'' i hiL'
    rcases List.mem_singleton.mp hL'' with rfl
    exact hSnotin i ((okS L' hL').2.1 i hiL')
  · -- action levels
    intro L' hL'
    rw [hfin_a] at hL'
    rcases List.mem_append.mp hL' with hold | hnew
    · obtain ⟨o_nd, o_bd, o_sym, o_irr⟩ := okA L' hold
      have hkeyL : ∀ i ∈ L', akeyOf g4 i = akeyOf g i := fun i hi => tr_akey i (o_bd i hi)
      have hmutL : ∀ i ∈ L', (aAt g4 i).mutex = (aAt g i).mutex := fun i hi =>
        tr_amut i (o_bd i hi) (hAnotin i (o_bd i hi))
      exact ⟨by rw [aLevelKeys_transport g g4 L' hkeyL]; exact o_nd,
        fun i hi => by have := o_bd i hi; omega,
        symOnA_transport g g4 L' hkeyL hmutL o_sym,
        irreflOnA_transport g g4 L' hkeyL hmutL o_irr⟩
    · rcases List.mem_singleton.mp hnew with rfl
      have hkeyL : ∀ i ∈ L', akeyOf g4 i = akeyOf g2 i := fun i _ => by
        rw [hakey34, hakey23]
      have hmutL : ∀ i ∈ L', (aAt g4 i).mutex = (aAt g2 i).mutex := fun i _ => by
        rw [haAt34, (c_af i).2.2.2.2]
      have hkeyL1 : ∀ i ∈ L', akeyOf g4 i = akeyOf g1 i := fun i hi => by
        rw [hkeyL i hi, b_akeys]
      refine ⟨by rw [aLevelKeys_transport g1 g4 L' hkeyL1]; exact a_nd, ?_,
        symOnA_transport g2 g4 L' hkeyL hmutL b_sym,
        irreflOnA_transport g2 g4 L' hkeyL hmutL b_irr⟩
      intro i hi
      have h2 : i < g1.anodes.length := (a_bnd i hi).2
      have h4 : g4.anodes.length = g3.anodes.length := by rw [d_an]
      rw [h4, c_alen, b_alen]
      exact h2
  · -- action level disjointness
    rw [hfin_a]
    rw [List.pairwise_append]
    refine ⟨okAdisj, List.pairwise_singleton _ _, ?_⟩
    intro L' hL' L'' hL'' i hiL'
    rcases List.mem_singleton.mp hL'' with rfl
    exact hAnotin i ((okA L' hL').2.1 i hiL')
  · rw [hfin_s, List.length_append, hs]
    rfl
  · rw [hfin_a, List.length_append, ha]
    rfl
  · exact sameMeta_trans (sameMeta_trans (sameMeta_trans a_meta b_meta) c_meta) d_meta

end PlanGraph

namespace PlanGraph

/-- State of the graph after S0 seeding: one literal level whose member values
are distinct, in bounds, and mutex-free; no action level yet. -/
def SeedInv (g : PG) : Prop :=
  g.a_levels = [] ∧ ∃ L0, g.s_levels = [L0] ∧ (levelKeys g L0).Nodup ∧
    ∀ i ∈ L0, i < g.snodes.length ∧ (sAt g i).mutex = []

theorem seedLit_meta (g : PG) (k : SKey) : sameMeta g (seedLit g k) := by
  unfold seedLit
  by_cases h : memSKey (levelKeys g (g.s_levels.getD 0 [])) k = true
  · rw [if_pos h]
    exact sameMeta_refl g
  · rw [if_neg h]
    exact ⟨rfl, rfl, rfl, rfl, rfl⟩

theorem seedLit_inv (g : PG) (k : SKey) (h : SeedInv g) : SeedInv (seedLit g k) := by
  obtain ⟨ha, L0, hsl, hnd, hbd⟩ := h
  have hget : g.s_levels.getD 0 [] = L0 := by rw [hsl]; rfl
  unfold seedLit
  rw [hget]
  by_cases hmem : memSKey (levelKeys g L0) k = true
  · rw [if_pos hmem]
    exact ⟨ha, L0, hsl, hnd, hbd⟩
  · rw [if_neg hmem]
    set i := g.snodes.length with hidef
    set nd : SNode := ⟨k.symbol, k.is_pos, [], [], []⟩ with hnddef
    set g' : PG := { { g with snodes := g.snodes ++ [nd] } with
        s_levels := updAt (fun L1 => L1 ++ [i]) ({ g with snodes := g.snodes ++ [nd] } : PG).s_levels 0 } with hg'def
    have hsn : g'.snodes = g.snodes ++ [nd] := rfl
    have hsl' : g'.s_levels = [L0 ++ [i]] := by
      show updAt (fun L1 => L1 ++ [i]) g.s_levels 0 = [L0 ++ [i]]
      rw [hsl]
      rfl
    have hAtOld : ∀ j, j < g.snodes.length → sAt g' j = sAt g j := by
      intro j hj
      show (g.snodes ++ [nd]).getD j defSNode = g.snodes.getD j defSNode
      exact getD_append_lt _ _ _ _ hj
    have hAtNew : sAt g' i = nd := by
      show (g.snodes ++ [nd]).getD g.snodes.length defSNode = nd
      exact getD_snoc_self _ _ _
    have hkeyNew : skeyOf g' i = k := by
      unfold skeyOf
      rw [hAtNew, hnddef]
    have hkeysOld : ∀ j ∈ L0, skeyOf g' j = skeyOf g j := by
      intro j hj
      unfold skeyOf
      rw [hAtOld j (hbd j hj).1]
    refine ⟨ha, L0 ++ [i], hsl', ?_, ?_⟩
    · have hmap : levelKeys g' (L0 ++ [i]) = levelKeys g L0 ++ [k] := by
        unfold levelKeys
        rw [List.map_append]
        congr 1
        · exact List.map_congr_left hkeysOld
        · simp [hkeyNew]
      rw [hmap]
      rw [List.nodup_append]
      refine ⟨hnd, List.nodup_singleton k, ?_⟩
      intro x hx hx'
      rcases List.mem_singleton.mp hx' with rfl
      exact (memSKey_eq_false_iff _ _).mp (Bool.not_eq_true _ ▸ (by simpa using hmem)) hx
    · intro j hj
      have hlen' : g'.snodes.length = g.snodes.length + 1 := by
        rw [hsn, List.length_append]
        rfl
      rcases List.mem_append.mp hj with hold | hnew
      · obtain ⟨hb, hm⟩ := hbd j hold
        refine ⟨by omega, ?_⟩
        rw [hAtOld j hb]
        exact hm
      · rcases List.mem_singleton.mp hnew with rfl
        refine ⟨by omega, ?_⟩
        rw [hAtNew, hnddef]

theorem foldl_seedLit_inv (ks : List SKey) (g : PG) (h : SeedInv g) :
    SeedInv (ks.foldl seedLit g) ∧ sameMeta g (ks.foldl seedLit g) := by
  induction ks generalizing g with
  | nil => exact ⟨h, sameMeta_refl g⟩
  | cons k ks ih =>
    obtain ⟨h1, h2⟩ := ih (seedLit g k) (seedLit_inv g k h)
    exact ⟨h1, sameMeta_trans (seedLit_meta g k) h2⟩

theorem seedS0_ok (g : PG) (h0s : g.s_levels = []) (h0a : g.a_levels = []) :
    SeedInv (seedS0 g) ∧ sameMeta g (seedS0 g) := by
  unfold seedS0
  set g0 : PG := { g with s_levels := g.s_levels ++ [[]] } with hg0def
  have hinv0 : SeedInv g0 := by
    refine ⟨h0a, [], ?_, List.nodup_nil, ?_⟩
    · show g.s_levels ++ [[]] = [[]]
      rw [h0s]
      rfl
    · intro i hi
      simp at hi
  obtain ⟨h1, h2⟩ := foldl_seedLit_inv
    (g0.fs_pos.map (fun p => SKey.mk p true) ++ g0.fs_neg.map (fun p => SKey.mk p false)) g0 hinv0
  exact ⟨h1, sameMeta_trans ⟨rfl, rfl, rfl, rfl, rfl⟩ h2⟩

theorem SeedInv_LevelOK (g : PG) (h : SeedInv g) :
    LevelOK g ∧ g.s_levels.length = 1 ∧ g.a_levels.length = 0 := by
  obtain ⟨ha, L0, hsl, hnd, hbd⟩ := h
  refine ⟨⟨?_, ?_, ?_, ?_⟩, by rw [hsl]; rfl, by rw [ha]; rfl⟩
  · intro L hL
    rw [hsl] at hL
    rcases List.mem_singleton.mp hL with rfl
    exact ⟨hnd, fun i hi => (hbd i hi).1,
      symOnS_of_empty g L (fun i hi => (hbd i hi).2),
      irreflOnS_of_empty g L (fun i hi => (hbd i hi).2)⟩
  · rw [hsl]
    exact List.pairwise_singleton _ _
  · intro L hL
    rw [ha] at hL
    simp at hL
  · rw [ha]
    exact List.Pairwise.nil

theorem createGraphLoop_ok (fuel : Nat) : ∀ (level : Nat) (g g' : PG),
    g.s_levels.length = level + 1 → g.a_levels.length = level → LevelOK g →
    createGraphLoop fuel level g = some g' → LevelOK g' ∧ sameMeta g g' := by
  induction fuel with
  | zero =>
    intro level g g' _ _ _ hres
    exact absurd hres (by simp [createGraphLoop])
  | succ n ih =>
    intro level g g' hs ha hok hres
    obtain ⟨hok1, hs1, ha1, hmeta1⟩ := graphStep_ok g level hs ha hok
    unfold createGraphLoop at hres
    by_cases hcond : sLevelSetEq (graphStep g level)
        ((graphStep g level).s_levels.getD (level + 1) [])
        ((graphStep g level).s_levels.getD level []) = true
    · rw [if_pos hcond] at hres
      cases hres
      exact ⟨hok1, hmeta1⟩
    · rw [if_neg hcond] at hres
      obtain ⟨hok2, hmeta2⟩ := ih (level + 1) (graphStep g level) g' hs1 ha1 hok1 hres
      exact ⟨hok2, sameMeta_trans hmeta1 hmeta2⟩

/-- Successful construction yields `LevelOK` together with unchanged metadata. -/
theorem construct_LevelOK (fuel : Nat) (acts : List PAction) (vocab goal : List Nat)
    (state : List Bool) (serial : Bool) (g : PG)
    (hg : mkPlanningGraph fuel acts vocab goal state serial = (g, none)) :
    LevelOK g := by
  unfold mkPlanningGraph create_graph at hg
  have hguard : ((initPG acts vocab goal state serial).s_levels.length != 0 ||
      (initPG acts vocab goal state serial).a_levels.length != 0) = false := rfl
  rw [hguard] at hg
  simp only [Bool.false_eq_true, if_false] at hg
  obtain ⟨hseed, _⟩ := seedS0_ok (initPG acts vocab goal state serial) rfl rfl
  obtain ⟨hok0, hs0, ha0⟩ := SeedInv_LevelOK _ hseed
  cases hloop : createGraphLoop fuel 0 (seedS0 (initPG acts vocab goal state serial)) with
  | none =>
    rw [hloop] at hg
    simp at hg
  | some gg =>
    rw [hloop] at hg
    have hgg : gg = g := by
      have := congrArg Prod.fst hg
      exact this
    rw [← hgg]
    exact (createGraphLoop_ok fuel 0 _ gg hs0 ha0 hok0 hloop).1

end PlanGraph

namespace PlanGraph

/-- C8: after a successful graph construction, mutex is symmetric at every
level: for every pair of member instances i, j of one literal level, the mutex
set of i contains the node value of j iff the mutex set of j contains the node
value of i, and likewise inside every action level. -/
theorem C8_mutex_symmetric (fuel : Nat) (acts : List PAction) (vocab goal : List Nat)
    (state : List Bool) (serial : Bool) (g : PG)
    (hg : mkPlanningGraph fuel acts vocab goal state serial = (g, none)) :
    (∀ L ∈ g.s_levels, symOnS g L) ∧ (∀ L ∈ g.a_levels, symOnA g L) := by
  obtain ⟨hS, _, hA, _⟩ := construct_LevelOK fuel acts vocab goal state serial g hg
  exact ⟨fun L hL => (hS L hL).2.2.1, fun L hL => (hA L hL).2.2.1⟩

theorem C8_witness :
    symOnS exB (exB.s_levels.getD 0 []) ∧ symOnA exB (exB.a_levels.getD 0 []) :=
  ⟨(C8_mutex_symmetric 5 [] [0] [0] [false] false exB rfl).1 _ (by decide),
   (C8_mutex_symmetric 5 [] [0] [0] [false] false exB rfl).2 _ (by decide)⟩

/-- C10: after a successful graph construction, mutex is irreflexive at every
level: no member instance of a literal or action level has its own node value
in its mutex set. -/
theorem C10_mutex_irreflexive (fuel : Nat) (acts : List PAction) (vocab goal : List Nat)
    (state : List Bool) (serial : Bool) (g : PG)
    (hg : mkPlanningGraph fuel acts vocab goal state serial = (g, none)) :
    (∀ L ∈ g.s_levels, irreflOnS g L) ∧ (∀ L ∈ g.a_levels, irreflOnA g L) := by
  obtain ⟨hS, _, hA, _⟩ := construct_LevelOK fuel acts vocab goal state serial g hg
  exact ⟨fun L hL => (hS L hL).2.2.2, fun L hL => (hA L hL).2.2.2⟩

theorem C10_witness :
    irreflOnS exC (exC.s_levels.getD 0 []) ∧ irreflOnA exC (exC.a_levels.getD 0 []) :=
  ⟨(C10_mutex_irreflexive 5 [] [0] [0] [true] false exC rfl).1 _ (by decide),
   (C10_mutex_irreflexive 5 [] [0] [0] [true] false exC rfl).2 _ (by decide)⟩

end PlanGraph

namespace PlanGraph

/-- The value identity a stored node for action `a` will carry. -/
def actKey (a : PAction) : AKey := ⟨a.name, isPersistentOf a⟩

/-- The no-op that re-produces literal value `k`. -/
def noopFor (k : SKey) : PAction := if k.is_pos then noopPos k.symbol else noopNeg k.symbol

/-- All literal values over a vocabulary: each fluent positively then each
negatively. -/
def allKeys (vocab : List Nat) : List SKey :=
  vocab.map (fun f => ⟨f, true⟩) ++ vocab.map (fun f => ⟨f, false⟩)

theorem mem_foldl_skeySetAdd (l : List SKey) : ∀ (acc : List SKey) (k : SKey),
    k ∈ l.foldl skeySetAdd acc ↔ k ∈ acc ∨ k ∈ l := by
  induction l with
  | nil => intro acc k; simp
  | cons a rest ih =>
    intro acc k
    rw [List.foldl_cons, ih]
    constructor
    · rintro (h | h)
      · unfold skeySetAdd at h
        by_cases hm : memSKey acc a = true
        · rw [if_pos hm] at h
          exact Or.inl h
        · rw [if_neg hm] at h
          rcases List.mem_append.mp h with h | h
          · exact Or.inl h
          · rcases List.mem_singleton.mp h with rfl
            exact Or.inr (List.mem_cons_self _ _)
      · exact Or.inr (List.mem_cons_of_mem _ h)
    · rintro (h | h)
      · left
        unfold skeySetAdd
        by_cases hm : memSKey acc a = true
        · rw [if_pos hm]; exact h
        · rw [if_neg hm]; exact List.mem_append_left _ h
      · rcases List.mem_cons.mp h with rfl | h
        · left
          unfold skeySetAdd
          by_cases hm : memSKey acc k = true
          · rw [if_pos hm]
            exact (memSKey_eq_true_iff _ _).mp hm
          · rw [if_neg hm]
            exact List.mem_append_right _ (List.mem_singleton_self _)
        · exact Or.inr h

theorem mem_dedupSKeys (l : List SKey) (k : SKey) : k ∈ dedupSKeys l ↔ k ∈ l := by
  unfold dedupSKeys
  rw [mem_foldl_skeySetAdd]
  simp

theorem noop_actions_mem (vocab : List Nat) :
    ∀ a ∈ noop_actions vocab, ∃ f ∈ vocab, a = noopPos f ∨ a = noopNeg f := by
  induction vocab with
  | nil => intro a ha; exact absurd ha (List.not_mem_nil a)
  | cons f rest ih =>
    intro a ha
    rcases List.mem_cons.mp ha with rfl | ha
    · exact ⟨f, List.mem_cons_self _ _, Or.inl rfl⟩
    · rcases List.mem_cons.mp ha with rfl | ha
      · exact ⟨f, List.mem_cons_self _ _, Or.inr rfl⟩
      · obtain ⟨f', hf', h⟩ := ih a ha
        exact ⟨f', List.mem_cons_of_mem _ hf', h⟩

theorem noopFor_mem (vocab : List Nat) (k : SKey) (h : k.symbol ∈ vocab) :
    noopFor k ∈ noop_actions vocab := by
  induction vocab with
  | nil => exact absurd h (List.not_mem_nil _)
  | cons f rest ih =>
    rcases List.mem_cons.mp h with hf | hf
    · unfold noopFor
      rw [hf]
      cases hp : k.is_pos
      · rw [if_neg (by simp [hp])]
        exact List.mem_cons_of_mem _ (List.mem_cons_self _ _)
      · rw [if_pos rfl]
        exact List.mem_cons_self _ _
    · exact List.mem_cons_of_mem _ (List.mem_cons_of_mem _ (ih hf))

theorem effKeysOf_noopPos (f : Nat) : effKeysOf (noopPos f) = [⟨f, true⟩] := by
  simp [effKeysOf, noopPos, dedupSKeys, skeySetAdd, memSKey]

theorem effKeysOf_noopNeg (f : Nat) : effKeysOf (noopNeg f) = [⟨f, false⟩] := by
  simp [effKeysOf, noopNeg, dedupSKeys, skeySetAdd, memSKey]

theorem memSKey_effKeysOf_noopFor (k : SKey) : memSKey (effKeysOf (noopFor k)) k = true := by
  unfold noopFor
  cases k with
  | mk s p =>
    cases p
    · rw [if_neg (by simp)]
      rw [effKeysOf_noopNeg]
      simp [memSKey]
    · rw [if_pos rfl]
      rw [effKeysOf_noopPos]
      simp [memSKey]

theorem actKey_noop_cases (k : SKey) (f : Nat) :
    (actKey (noopPos f) = actKey (noopFor k) → noopPos f = noopFor k) ∧
    (actKey (noopNeg f) = actKey (noopFor k) → noopNeg f = noopFor k) := by
  cases k with
  | mk s p =>
    cases p <;>
      simp [actKey, noopFor, noopPos, noopNeg, isPersistentOf_noopPos, isPersistentOf_noopNeg] <;>
      intro h <;> simp [h]

/-- In the combined action list, any action whose stored value identity matches
the no-op of `k` is that no-op itself. -/
theorem actKey_distinct (acts0 : List PAction) (vocab : List Nat)
    (hname : ∀ a ∈ acts0, a.name.isLeft = true) (k : SKey) :
    ∀ c ∈ acts0 ++ noop_actions vocab, c = noopFor k ∨ actKey c ≠ actKey (noopFor k) := by
  intro c hc
  rcases List.mem_append.mp hc with hc | hc
  · right
    intro hak
    have h1 : c.name = (noopFor k).name := congrArg AKey.name hak
    have h2 : (noopFor k).name = Sum.inr (k.symbol, k.is_pos) := by
      unfold noopFor
      cases hp : k.is_pos <;> simp [noopPos, noopNeg, hp]
    rw [h2] at h1
    have := hname c hc
    rw [h1] at this
    simp [Sum.isLeft] at this
  · obtain ⟨f, _, hf⟩ := noop_actions_mem vocab c hc
    rcases hf with rfl | rfl
    · by_cases h : actKey (noopPos f) = actKey (noopFor k)
      · exact Or.inl ((actKey_noop_cases k f).1 h)
      · exact Or.inr h
    · by_cases h : actKey (noopNeg f) = actKey (noopFor k)
      · exact Or.inl ((actKey_noop_cases k f).2 h)
      · exact Or.inr h

theorem enabledAt_noopFor (g : PG) (level : Nat) (k : SKey)
    (h : memSKey (levelKeys g (g.s_levels.getD level [])) k = true) :
    enabledAt g level (noopFor k) = true := by
  cases k with
  | mk s p =>
    cases p
    · show enabledAt g level (noopNeg s) = true
      simp only [enabledAt, noopNeg, List.all_cons, List.all_nil, Bool.and_true, Bool.true_and]
      exact h
    · show enabledAt g level (noopPos s) = true
      simp only [enabledAt, noopPos, List.all_cons, List.all_nil, Bool.and_true, Bool.true_and]
      exact h

theorem mem_allKeys (vocab : List Nat) (k : SKey) (h : k.symbol ∈ vocab) :
    k ∈ allKeys vocab := by
  unfold allKeys
  cases k with
  | mk s p =>
    cases p
    · exact List.mem_append_right _ (List.mem_map.mpr ⟨s, h, rfl⟩)
    · exact List.mem_append_left _ (List.mem_map.mpr ⟨s, h, rfl⟩)

theorem allKeys_nodup (vocab : List Nat) (h : vocab.Nodup) : (allKeys vocab).Nodup := by
  unfold allKeys
  rw [List.nodup_append]
  refine ⟨h.map (fun a b hab => by simpa using hab), h.map (fun a b hab => by simpa using hab), ?_⟩
  intro x hx hx'
  obtain ⟨f1, _, rfl⟩ := List.mem_map.mp hx
  obtain ⟨f2, _, h2⟩ := List.mem_map.mp hx'
  simp at h2

theorem allKeys_length (vocab : List Nat) : (allKeys vocab).length = 2 * vocab.length := by
  unfold allKeys
  rw [List.length_append, List.length_map, List.length_map]
  omega

theorem nodup_subset_length {α : Type} [DecidableEq α] (l1 l2 : List α) (hnd : l1.Nodup)
    (hsub : l1 ⊆ l2) : l1.length ≤ l2.length :=
  (List.subperm_of_subset hnd hsub).length_le

theorem getD_mem {α : Type} (l : List α) (i : Nat) (d : α) (h : i < l.length) :
    l.getD i d ∈ l := by
  induction l generalizing i with
  | nil => simp at h
  | cons x xs ih =>
    cases i with
    | zero => exact List.mem_cons_self _ _
    | succ i' => exact List.mem_cons_of_mem _ (ih i' (by simpa using h))

theorem effKeysOf_symbol_vocab (acts0 : List PAction) (vocab : List Nat)
    (heff : ∀ a ∈ acts0, (∀ e ∈ a.effect_add, e ∈ vocab) ∧ (∀ e ∈ a.effect_rem, e ∈ vocab)) :
    ∀ a ∈ acts0 ++ noop_actions vocab, ∀ k ∈ effKeysOf a, k.symbol ∈ vocab := by
  intro a ha k hk
  rcases List.mem_append.mp ha with ha | ha
  · unfold effKeysOf at hk
    rw [mem_dedupSKeys] at hk
    rcases List.mem_append.mp hk with hk | hk
    · obtain ⟨e, he, rfl⟩ := List.mem_map.mp hk
      exact (heff a ha).1 e he
    · obtain ⟨e, he, rfl⟩ := List.mem_map.mp hk
      exact (heff a ha).2 e he
  · obtain ⟨f, hf, h⟩ := noop_actions_mem vocab a ha
    rcases h with rfl | rfl
    · rw [effKeysOf_noopPos] at hk
      rcases List.mem_singleton.mp hk with rfl
      exact hf
    · rw [effKeysOf_noopNeg] at hk
      rcases List.mem_singleton.mp hk with rfl
      exact hf

end PlanGraph

namespace PlanGraph

/-- Forward direction of `processAction` for an enabled action whose value
identity is not yet in the level: the new node instance is appended to the
level set and its effect instances carry exactly the action's effect values. -/
theorem processAction_covers (g : PG) (level : Nat) (a : PAction)
    (hen : enabledAt g level a = true)
    (hlev : level < g.a_levels.length)
    (hbnd : ∀ i ∈ g.a_levels.getD level [], i < g.anodes.length)
    (hmem : memAKey (aLevelKeys g (g.a_levels.getD level [])) (actKey a) = false) :
    (processAction g level a).a_levels.getD level [] =
      g.a_levels.getD level [] ++ [g.anodes.length] ∧
    levelKeys (processAction g level a)
      (aAt (processAction g level a) g.anodes.length).effnodes = effKeysOf a := by
  have hpa : processAction g level a =
      { linkChildren (mkActionNode g a).1 level (preKeysOf a) ⟨a.name, isPersistentOf a⟩ with
        a_levels := updAt
          (fun L => aSetAdd
            (linkChildren (mkActionNode g a).1 level (preKeysOf a) ⟨a.name, isPersistentOf a⟩)
            L (mkActionNode g a).2)
          (linkChildren (mkActionNode g a).1 level (preKeysOf a)
            ⟨a.name, isPersistentOf a⟩).a_levels level } := by
    unfold processAction
    rw [if_pos hen]
  obtain ⟨msl, mal, mmeta, mslen, msbelow, msabove, mid, malen, mabelow, mact, mpers, mmut,
    mch, mkeys, meff, maoob⟩ := mkActionNode_facts g a
  obtain ⟨leq, llen, lfields⟩ :=
    linkChildren_facts level (preKeysOf a) ⟨a.name, isPersistentOf a⟩ (mkActionNode g a).1
  obtain ⟨lan, lsl, lal, lmeta⟩ := eqExceptS_fields leq
  set gm := (mkActionNode g a).1 with hgm
  set gl := linkChildren gm level (preKeysOf a) ⟨a.name, isPersistentOf a⟩ with hgl
  set gf := processAction g level a with hgf
  have hfsn : gf.snodes = gl.snodes := by rw [hpa]
  have hfan : gf.anodes = gl.anodes := by rw [hpa]
  have hfal : gf.a_levels = updAt (fun L => aSetAdd gl L (mkActionNode g a).2) gl.a_levels
      level := by rw [hpa]
  have hglal : gl.a_levels = g.a_levels := by rw [lal, mal]
  have haAtl : ∀ i, aAt gl i = aAt gm i := by
    intro i
    unfold aAt
    rw [lan]
  have hkeyl : ∀ i, skeyOf gl i = skeyOf gm i := by
    intro i
    unfold skeyOf
    rw [(lfields i).1, (lfields i).2.1]
  have hkeyf : ∀ i, skeyOf gf i = skeyOf gl i := by
    intro i
    unfold skeyOf sAt
    rw [hfsn]
  have haAtf : ∀ i, aAt gf i = aAt gl i := by
    intro i
    unfold aAt
    rw [hfan]
  have hakey : akeyOf gl (mkActionNode g a).2 = actKey a := by
    unfold akeyOf
    rw [haAtl, mact, mpers]
    rfl
  have hkeysOL : aLevelKeys gl (g.a_levels.getD level []) =
      aLevelKeys g (g.a_levels.getD level []) := by
    unfold aLevelKeys
    apply List.map_congr_left
    intro i hi
    unfold akeyOf
    rw [haAtl, mabelow i (hbnd i hi)]
  have hgetD : gf.a_levels.getD level [] =
      aSetAdd gl (g.a_levels.getD level []) (mkActionNode g a).2 := by
    rw [hfal, hglal, updAt_getD_self _ _ _ _ hlev]
  have hadd : aSetAdd gl (g.a_levels.getD level []) (mkActionNode g a).2 =
      g.a_levels.getD level [] ++ [g.anodes.length] := by
    unfold aSetAdd
    rw [hakey, hkeysOL, hmem]
    rw [if_neg (by simp), mid]
  refine ⟨by rw [hgetD, hadd], ?_⟩
  have heq1 : aAt gf g.anodes.length = aAt gm (mkActionNode g a).2 := by
    rw [haAtf, haAtl, mid]
  rw [heq1]
  rw [← mkeys]
  unfold levelKeys
  apply List.map_congr_left
  intro e _
  rw [hkeyf, hkeyl]

/-- Any node id freshly allocated by `processAction` holds the processed
action with its canonical persistence flag and effect values. -/
theorem processAction_newnode (g : PG) (level : Nat) (a : PAction) :
    ∀ i, g.anodes.length ≤ i → i < (processAction g level a).anodes.length →
      akeyOf (processAction g level a) i = actKey a ∧
      levelKeys (processAction g level a) (aAt (processAction g level a) i).effnodes =
        effKeysOf a := by
  by_cases hen : enabledAt g level a = true
  · have hpa : processAction g level a =
        { linkChildren (mkActionNode g a).1 level (preKeysOf a) ⟨a.name, isPersistentOf a⟩ with
          a_levels := updAt
            (fun L => aSetAdd
              (linkChildren (mkActionNode g a).1 level (preKeysOf a) ⟨a.name, isPersistentOf a⟩)
              L (mkActionNode g a).2)
            (linkChildren (mkActionNode g a).1 level (preKeysOf a)
              ⟨a.name, isPersistentOf a⟩).a_levels level } := by
      unfold processAction
      rw [if_pos hen]
    obtain ⟨msl, mal, mmeta, mslen, msbelow, msabove, mid, malen, mabelow, mact, mpers, mmut,
      mch, mkeys, meff, maoob⟩ := mkActionNode_facts g a
    obtain ⟨leq, llen, lfields⟩ :=
      linkChildren_facts level (preKeysOf a) ⟨a.name, isPersistentOf a⟩ (mkActionNode g a).1
    obtain ⟨lan, lsl, lal, lmeta⟩ := eqExceptS_fields leq
    set gm := (mkActionNode g a).1 with hgm
    set gl := linkChildren gm level (preKeysOf a) ⟨a.name, isPersistentOf a⟩ with hgl
    set gf := processAction g level a with hgf
    have hfsn : gf.snodes = gl.snodes := by rw [hpa]
    have hfan : gf.anodes = gl.anodes := by rw [hpa]
    have haAtl : ∀ i, aAt gl i = aAt gm i := by
      intro i
      unfold aAt
      rw [lan]
    have hkeyl : ∀ i, skeyOf gl i = skeyOf gm i := by
      intro i
      unfold skeyOf
      rw [(lfields i).1, (lfields i).2.1]
    have hkeyf : ∀ i, skeyOf gf i = skeyOf gl i := by
      intro i
      unfold skeyOf sAt
      rw [hfsn]
    have haAtf : ∀ i, aAt gf i = aAt gl i := by
      intro i
      unfold aAt
      rw [hfan]
    have hflen : gf.anodes.length = g.anodes.length + 1 := by
      have h1 : gf.anodes.length = gl.anodes.length := by rw [hfan]
      have h2 : gl.anodes.length = gm.anodes.length := by rw [lan]
      rw [h1, h2, malen]
    intro i hlo hhi
    have hieq : i = g.anodes.length := by omega
    subst hieq
    have heq1 : aAt gf g.anodes.length = aAt gm (mkActionNode g a).2 := by
      rw [haAtf, haAtl, mid]
    constructor
    · unfold akeyOf
      rw [heq1, mact, mpers]
      rfl
    · rw [heq1, ← mkeys]
      unfold levelKeys
      apply List.map_congr_left
      intro e _
      rw [hkeyf, hkeyl]
  · have hpa : processAction g level a = g := by
      unfold processAction
      rw [if_neg hen]
    intro i hlo hhi
    rw [hpa] at hhi
    omega

end PlanGraph

namespace PlanGraph

/-- Some instance of the action level produces literal value `k`. -/
def covOK (g : PG) (level : Nat) (k : SKey) : Prop :=
  ∃ aid ∈ g.a_levels.getD level [],
    memSKey (levelKeys g (aAt g aid).effnodes) k = true

/-- Every instance of the action level carries the effect values of some
listed action. -/
def effPr (A0 : List PAction) (g : PG) (level : Nat) : Prop :=
  ∀ aid ∈ g.a_levels.getD level [],
    ∃ a ∈ A0, levelKeys g (aAt g aid).effnodes = effKeysOf a

theorem AALInv_getD (g : PG) (xs : List (List Nat)) (level : Nat) (hlvl : level = xs.length)
    (gg : PG) (hA : AALInv g xs gg) :
    ∃ L, gg.a_levels.getD level [] = L ∧ gg.a_levels = xs ++ [L] ∧
      (∀ i ∈ L, g.anodes.length ≤ i ∧ i < gg.anodes.length) ∧ (aLevelKeys gg L).Nodup := by
  obtain ⟨_, _, _, _, _, _, _, _, L, hshape, hbd, hnd⟩ := hA
  refine ⟨L, ?_, hshape, hbd, hnd⟩
  rw [hshape, hlvl]
  exact getD_snoc_self _ _ _

theorem enabledAt_transfer (g : PG) (xs : List (List Nat)) (gg : PG) (level : Nat)
    (hA : AALInv g xs gg)
    (hsbd : ∀ i ∈ g.s_levels.getD level [], i < g.snodes.length) (a : PAction) :
    enabledAt gg level a = enabledAt g level a := by
  obtain ⟨hsl, _, _, hsbelow, _⟩ := hA
  unfold enabledAt
  rw [hsl]
  have hkeys : levelKeys gg (g.s_levels.getD level []) =
      levelKeys g (g.s_levels.getD level []) := by
    unfold levelKeys
    apply List.map_congr_left
    intro i hi
    unfold skeyOf
    obtain ⟨h1, h2, _, _⟩ := hsbelow i (hsbd i hi)
    rw [h1, h2]
  rw [hkeys]

/-- Transport of level-instance effect values across one `processAction` step. -/
theorem effkeys_transport (g : PG) (xs : List (List Nat)) (level : Nat)
    (gg : PG) (hA : AALInv g xs gg) (c : PAction) (aid : Nat)
    (hlo : g.anodes.length ≤ aid) (hhi : aid < gg.anodes.length) :
    levelKeys (processAction gg level c) (aAt (processAction gg level c) aid).effnodes =
      levelKeys gg (aAt gg aid).effnodes := by
  obtain ⟨_, _, _, _, _, _, _, habove, _⟩ := hA
  obtain ⟨_, _, _, fsbelow, _, _, fabelow, _⟩ := processAction_facts gg level c
  rw [fabelow aid hhi]
  unfold levelKeys
  apply List.map_congr_left
  intro e he
  have hebd : e < gg.snodes.length := ((habove aid hlo).2 e he).2
  unfold skeyOf
  obtain ⟨h1, h2, _, _⟩ := fsbelow e hebd
  rw [h1, h2]

theorem covOK_step (g : PG) (xs : List (List Nat)) (level : Nat) (hlvl : level = xs.length)
    (gg : PG) (hA : AALInv g xs gg) (c : PAction) (k : SKey)
    (h : covOK gg level k) : covOK (processAction gg level c) level k := by
  obtain ⟨aid, haid, hmem⟩ := h
  obtain ⟨L, hget, hshape, hbd, _⟩ := AALInv_getD g xs level hlvl gg hA
  rw [hget] at haid
  obtain ⟨_, _, _, _, _, _, _, _, _, _, _, fshape⟩ := processAction_facts gg level c
  obtain ⟨L1, hshape1, hL1⟩ := fshape xs L hshape hlvl
  have hget1 : (processAction gg level c).a_levels.getD level [] = L1 := by
    rw [hshape1, hlvl]
    exact getD_snoc_self _ _ _
  have haid1 : aid ∈ L1 := by
    rcases hL1 with rfl | ⟨rfl, _, _⟩
    · exact haid
    · exact List.mem_append_left _ haid
  refine ⟨aid, by rw [hget1]; exact haid1, ?_⟩
  rw [effkeys_transport g xs level gg hA c aid (hbd aid haid).1 (hbd aid haid).2]
  exact hmem

theorem cov_establish (g : PG) (xs : List (List Nat)) (level : Nat) (hlvl : level = xs.length)
    (gg : PG) (hA : AALInv g xs gg) (b : PAction) (k : SKey)
    (hk : memSKey (effKeysOf b) k = true)
    (hsbd : ∀ i ∈ g.s_levels.getD level [], i < g.snodes.length)
    (hen : enabledAt g level b = true)
    (hmem : memAKey (aLevelKeys gg (gg.a_levels.getD level [])) (actKey b) = false) :
    covOK (processAction gg level b) level k := by
  obtain ⟨L, hget, hshape, hbd, _⟩ := AALInv_getD g xs level hlvl gg hA
  have hen' : enabledAt gg level b = true := by
    rw [enabledAt_transfer g xs gg level hA hsbd]
    exact hen
  have hlev : level < gg.a_levels.length := by
    rw [hshape, List.length_append, hlvl]
    simp
  obtain ⟨hadd, hkeys⟩ := processAction_covers gg level b hen' hlev
    (fun i hi => (hbd i (by rw [hget] at hi; exact hi)).2) hmem
  refine ⟨gg.anodes.length, ?_, ?_⟩
  · rw [hadd]
    exact List.mem_append_right _ (List.mem_singleton_self _)
  · rw [hkeys]
    exact hk

theorem akey_absent_step (g : PG) (xs : List (List Nat)) (level : Nat)
    (hlvl : level = xs.length) (gg : PG) (hA : AALInv g xs gg) (c : PAction) (b : PAction)
    (hne : actKey c ≠ actKey b)
    (hmem : memAKey (aLevelKeys gg (gg.a_levels.getD level [])) (actKey b) = false) :
    memAKey (aLevelKeys (processAction gg level c)
      ((processAction gg level c).a_levels.getD level [])) (actKey b) = false := by
  obtain ⟨L, hget, hshape, hbd, _⟩ := AALInv_getD g xs level hlvl gg hA
  rw [hget] at hmem
  obtain ⟨_, _, _, _, _, _, fabelow, _, _, _, _, fshape⟩ := processAction_facts gg level c
  obtain ⟨L1, hshape1, hL1⟩ := fshape xs L hshape hlvl
  have hget1 : (processAction gg level c).a_levels.getD level [] = L1 := by
    rw [hshape1, hlvl]
    exact getD_snoc_self _ _ _
  have hkeep : aLevelKeys (processAction gg level c) L = aLevelKeys gg L := by
    unfold aLevelKeys
    apply List.map_congr_left
    intro i hi
    unfold akeyOf
    rw [fabelow i (hbd i hi).2]
  rw [hget1]
  rcases hL1 with rfl | ⟨rfl, hlt, _⟩
  · rw [hkeep]
    exact hmem
  · unfold aLevelKeys
    rw [List.map_append]
    rw [memAKey_append]
    have h1 : memAKey (List.map (akeyOf (processAction gg level c)) L) (actKey b) = false := by
      show memAKey (aLevelKeys (processAction gg level c) L) (actKey b) = false
      rw [hkeep]
      exact hmem
    rw [h1]
    have h2 : akeyOf (processAction gg level c) gg.anodes.length = actKey c :=
      (processAction_newnode gg level c gg.anodes.length (Nat.le_refl _) hlt).1
    simp [memAKey, h2]
    intro h
    exact absurd h.symm (fun he => hne he.symm)

theorem effPr_step (A0 : List PAction) (g : PG) (xs : List (List Nat)) (level : Nat)
    (hlvl : level = xs.length) (gg : PG) (hA : AALInv g xs gg) (c : PAction) (hc : c ∈ A0)
    (h : effPr A0 gg level) : effPr A0 (processAction gg level c) level := by
  obtain ⟨L, hget, hshape, hbd, _⟩ := AALInv_getD g xs level hlvl gg hA
  obtain ⟨_, _, _, _, _, _, _, _, _, _, _, fshape⟩ := processAction_facts gg level c
  obtain ⟨L1, hshape1, hL1⟩ := fshape xs L hshape hlvl
  have hget1 : (processAction gg level c).a_levels.getD level [] = L1 := by
    rw [hshape1, hlvl]
    exact getD_snoc_self _ _ _
  intro aid haid
  rw [hget1] at haid
  have hold : aid ∈ L → ∃ a ∈ A0,
      levelKeys (processAction gg level c) (aAt (processAction gg level c) aid).effnodes =
        effKeysOf a := by
    intro hmem
    obtain ⟨a, ha, hkeys⟩ := h aid (by rw [hget]; exact hmem)
    refine ⟨a, ha, ?_⟩
    rw [effkeys_transport g xs level gg hA c aid (hbd aid hmem).1 (hbd aid hmem).2]
    exact hkeys
  rcases hL1 with rfl | ⟨rfl, hlt, _⟩
  · exact hold haid
  · rcases List.mem_append.mp haid with hmem | hmem
    · exact hold hmem
    · rcases List.mem_singleton.mp hmem with rfl
      exact ⟨c, hc, (processAction_newnode gg level c gg.anodes.length (Nat.le_refl _) hlt).2⟩

theorem cov_fold (g : PG) (xs : List (List Nat)) (level : Nat) (hlvl : level = xs.length)
    (b : PAction) (k : SKey) (hk : memSKey (effKeysOf b) k = true)
    (hsbd : ∀ i ∈ g.s_levels.getD level [], i < g.snodes.length)
    (hen : enabledAt g level b = true) :
    ∀ (acts : List PAction) (gg : PG), AALInv g xs gg →
      (∀ c ∈ acts, c = b ∨ actKey c ≠ actKey b) →
      (covOK gg level k ∨ (b ∈ acts ∧
        memAKey (aLevelKeys gg (gg.a_levels.getD level [])) (actKey b) = false)) →
      covOK (acts.foldl (fun gg a => processAction gg level a) gg) level k := by
  intro acts
  induction acts with
  | nil =>
    intro gg hA _ hst
    rcases hst with h | ⟨hb, _⟩
    · exact h
    · exact absurd hb (List.not_mem_nil b)
  | cons c rest ih =>
    intro gg hA hdist hst
    rw [List.foldl_cons]
    have hA' := AALInv_step g xs level hlvl gg hA c
    apply ih _ hA' (fun c' hc' => hdist c' (List.mem_cons_of_mem _ hc'))
    rcases hst with h | ⟨hb, hmem⟩
    · exact Or.inl (covOK_step g xs level hlvl gg hA c k h)
    · rcases hdist c (List.mem_cons_self _ _) with rfl | hne
      · exact Or.inl (cov_establish g xs level hlvl gg hA c k hk hsbd hen hmem)
      · rcases List.mem_cons.mp hb with rfl | hb'
        · exact absurd rfl hne
        · exact Or.inr ⟨hb', akey_absent_step g xs level hlvl gg hA c b hne hmem⟩

theorem effPr_fold (A0 : List PAction) (g : PG) (xs : List (List Nat)) (level : Nat)
    (hlvl : level = xs.length) :
    ∀ (acts : List PAction) (gg : PG), AALInv g xs gg → (∀ c ∈ acts, c ∈ A0) →
      effPr A0 gg level →
      effPr A0 (acts.foldl (fun gg a => processAction gg level a) gg) level := by
  intro acts
  induction acts with
  | nil => intro gg _ _ h; exact h
  | cons c rest ih =>
    intro gg hA hsub h
    rw [List.foldl_cons]
    exact ih _ (AALInv_step g xs level hlvl gg hA c)
      (fun c' hc' => hsub c' (List.mem_cons_of_mem _ hc'))
      (effPr_step A0 g xs level hlvl gg hA c (hsub c (List.mem_cons_self _ _)) h)

theorem AALInv_base (g : PG) : AALInv g g.a_levels { g with a_levels := g.a_levels ++ [[]] } := by
  refine ⟨rfl, sameMeta_refl g, Nat.le_refl _, fun i _ => ⟨rfl, rfl, rfl, rfl⟩, ?_,
    Nat.le_refl _, fun i _ => rfl, ?_, [], rfl, fun i hi => absurd hi (List.not_mem_nil i),
    List.nodup_nil⟩
  · intro i hi
    constructor
    · show (g.snodes.getD i defSNode).mutex = []
      rw [List.getD_eq_default _ _ hi]
      rfl
    · show (g.snodes.getD i defSNode).parents = []
      rw [List.getD_eq_default _ _ hi]
      rfl
  · intro i hi
    constructor
    · show (g.anodes.getD i defANode).mutex = []
      rw [List.getD_eq_default _ _ hi]
      rfl
    · intro e he
      have hemp : (aAt { g with a_levels := g.a_levels ++ [[]] } i).effnodes = [] := by
        show (g.anodes.getD i defANode).effnodes = []
        rw [List.getD_eq_default _ _ hi]
        rfl
      rw [hemp] at he
      exact absurd he (List.not_mem_nil e)

/-- After `add_action_level`, every listed enabled no-op-identity-unique action
with effect value `k` is witnessed by some level instance producing `k`. -/
theorem add_action_level_covOK (g : PG) (level : Nat) (hlev : g.a_levels.length = level)
    (b : PAction) (hb : b ∈ g.all_actions)
    (hdist : ∀ c ∈ g.all_actions, c = b ∨ actKey c ≠ actKey b)
    (k : SKey) (hk : memSKey (effKeysOf b) k = true)
    (hsbd : ∀ i ∈ g.s_levels.getD level [], i < g.snodes.length)
    (hen : enabledAt g level b = true) :
    covOK (add_action_level g level) level k := by
  unfold add_action_level
  apply cov_fold g g.a_levels level hlev.symm b k hk hsbd hen _ _ (AALInv_base g) hdist
  refine Or.inr ⟨hb, ?_⟩
  have hget : ({ g with a_levels := g.a_levels ++ [[]] } : PG).a_levels.getD level [] = [] := by
    show (g.a_levels ++ [[]]).getD level [] = []
    rw [← hlev]
    exact getD_snoc_self _ _ _
  rw [hget]
  rfl

/-- After `add_action_level`, every instance of the new action level carries
the effect values of some action of the candidate list. -/
theorem add_action_level_effPr (g : PG) (level : Nat) (hlev : g.a_levels.length = level) :
    effPr g.all_actions (add_action_level g level) level := by
  unfold add_action_level
  apply effPr_fold g.all_actions g g.a_levels level hlev.symm _ _ (AALInv_base g)
    (fun c hc => hc)
  intro aid haid
  have hget : ({ g with a_levels := g.a_levels ++ [[]] } : PG).a_levels.getD level [] = [] := by
    show (g.a_levels ++ [[]]).getD level [] = []
    rw [← hlev]
    exact getD_snoc_self _ _ _
  rw [hget] at haid
  exact absurd haid (List.not_mem_nil aid)

end PlanGraph

namespace PlanGraph

theorem processEffnode_s_levels_length (g : PG) (aid eid level : Nat) :
    (processEffnode g aid eid level).s_levels.length = g.s_levels.length := by
  set f1 : SNode → SNode := fun n =>
    { n with parents := if memAKey (n.parents.map (akeyOf g)) (akeyOf g aid) then n.parents
                        else n.parents ++ [aid] } with hf1
  set g1 := updS g eid f1 with hg1
  set f2 : ANode → ANode := fun n =>
    { n with children := skeySetAdd n.children (skeyOf g1 eid) } with hf2
  set g2 := updA g1 aid f2 with hg2
  have hpe : processEffnode g aid eid level =
      { g2 with s_levels := updAt (fun L => sSetAdd g2 L eid) g2.s_levels level } := rfl
  rw [hpe]
  show (updAt (fun L => sSetAdd g2 L eid) g2.s_levels level).length = g.s_levels.length
  rw [updAt_length]
  rfl

theorem processEffnode_getD_level (g : PG) (aid eid level : Nat)
    (h : level < g.s_levels.length) :
    ∃ OL, g.s_levels.getD level [] = OL ∧
      ((processEffnode g aid eid level).s_levels.getD level [] = OL ∨
       ((processEffnode g aid eid level).s_levels.getD level [] = OL ++ [eid])) ∧
      (((processEffnode g aid eid level).s_levels.getD level [] = OL) →
        memSKey (levelKeys g OL) (skeyOf g eid) = true) := by
  set f1 : SNode → SNode := fun n =>
    { n with parents := if memAKey (n.parents.map (akeyOf g)) (akeyOf g aid) then n.parents
                        else n.parents ++ [aid] } with hf1
  set g1 := updS g eid f1 with hg1
  set f2 : ANode → ANode := fun n =>
    { n with children := skeySetAdd n.children (skeyOf g1 eid) } with hf2
  set g2 := updA g1 aid f2 with hg2
  have hpe : processEffnode g aid eid level =
      { g2 with s_levels := updAt (fun L => sSetAdd g2 L eid) g2.s_levels level } := rfl
  have hsl2 : g2.s_levels = g.s_levels := rfl
  have hget : (processEffnode g aid eid level).s_levels.getD level [] =
      sSetAdd g2 (g.s_levels.getD level []) eid := by
    rw [hpe]
    show (updAt (fun L => sSetAdd g2 L eid) g2.s_levels level).getD level [] = _
    rw [hsl2, updAt_getD_self _ _ _ _ h]
  have hkey2 : ∀ i, skeyOf g2 i = skeyOf g i := by
    intro i
    have hs2 : sAt g2 i = sAt g1 i := rfl
    unfold skeyOf
    rw [hs2]
    rcases sAt_updS_fields g eid f1 i with hh | ⟨_, _, hh⟩ <;> rw [hh]
  have hlk : ∀ L, levelKeys g2 L = levelKeys g L := by
    intro L
    unfold levelKeys
    exact List.map_congr_left fun i _ => hkey2 i
  refine ⟨g.s_levels.getD level [], rfl, ?_, ?_⟩
  · rw [hget]
    unfold sSetAdd
    by_cases hc : memSKey (levelKeys g2 (g.s_levels.getD level [])) (skeyOf g2 eid) = true
    · rw [if_pos hc]
      exact Or.inl rfl
    · rw [if_neg hc]
      exact Or.inr rfl
  · intro heq
    rw [hget] at heq
    unfold sSetAdd at heq
    by_cases hc : memSKey (levelKeys g2 (g.s_levels.getD level [])) (skeyOf g2 eid) = true
    · rw [hlk, hkey2] at hc
      exact hc
    · rw [if_neg hc] at heq
      have hlen := congrArg List.length heq
      simp at hlen

/-- After `processEffnode`, the processed effect instance's value is in the
literal level (either it was already there by value, or it was appended). -/
theorem processEffnode_mem_self (g : PG) (aid eid level : Nat)
    (h : level < g.s_levels.length) :
    memSKey (levelKeys (processEffnode g aid eid level)
      ((processEffnode g aid eid level).s_levels.getD level [])) (skeyOf g eid) = true := by
  obtain ⟨OL, hOL, hcase, hmemcase⟩ := processEffnode_getD_level g aid eid level h
  have hkeq : ∀ i, skeyOf (processEffnode g aid eid level) i = skeyOf g i :=
    fun i => by
      obtain ⟨_, _, _, _, hsf, _⟩ := processEffnode_facts g aid eid level
      unfold skeyOf
      rw [(hsf i).1, (hsf i).2.1]
  have hlk : ∀ L, levelKeys (processEffnode g aid eid level) L = levelKeys g L :=
    fun L => List.map_congr_left fun i _ => hkeq i
  rcases hcase with heq | heq
  · rw [heq, hlk]
    exact hmemcase heq
  · rw [heq, hlk]
    unfold levelKeys
    rw [List.map_append, memSKey_append]
    simp [memSKey]

/-- Membership by value in the literal level is monotone under
`processEffnode`. -/
theorem processEffnode_mem_mono (g : PG) (aid eid level : Nat) (k : SKey)
    (h : level < g.s_levels.length)
    (hmem : memSKey (levelKeys g (g.s_levels.getD level [])) k = true) :
    memSKey (levelKeys (processEffnode g aid eid level)
      ((processEffnode g aid eid level).s_levels.getD level [])) k = true := by
  obtain ⟨OL, hOL, hcase, _⟩ := processEffnode_getD_level g aid eid level h
  have hkeq : ∀ i, skeyOf (processEffnode g aid eid level) i = skeyOf g i :=
    fun i => by
      obtain ⟨_, _, _, _, hsf, _⟩ := processEffnode_facts g aid eid level
      unfold skeyOf
      rw [(hsf i).1, (hsf i).2.1]
  have hlk : ∀ L, levelKeys (processEffnode g aid eid level) L = levelKeys g L :=
    fun L => List.map_congr_left fun i _ => hkeq i
  rw [hOL] at hmem
  rcases hcase with heq | heq
  · rw [heq, hlk]
    exact hmem
  · rw [heq, hlk]
    unfold levelKeys
    rw [List.map_append, memSKey_append]
    show (memSKey (levelKeys g OL) k || _) = true
    rw [hmem]
    rfl

/-- The inner fold of `add_literal_level` over a list of effect instances:
level membership is monotone, every processed effect value is added, and the
heap key / effect-list observations are unchanged. -/
theorem peFold_facts (aid level : Nat) : ∀ (es : List Nat) (gg : PG),
    level < gg.s_levels.length →
    (es.foldl (fun g2 e => processEffnode g2 aid e level) gg).s_levels.length =
      gg.s_levels.length ∧
    (∀ i, skeyOf (es.foldl (fun g2 e => processEffnode g2 aid e level) gg) i = skeyOf gg i) ∧
    (∀ i, (aAt (es.foldl (fun g2 e => processEffnode g2 aid e level) gg) i).effnodes =
      (aAt gg i).effnodes) ∧
    (∀ k, memSKey (levelKeys gg (gg.s_levels.getD level [])) k = true →
      memSKey (levelKeys (es.foldl (fun g2 e => processEffnode g2 aid e level) gg)
        ((es.foldl (fun g2 e => processEffnode g2 aid e level) gg).s_levels.getD level []))
        k = true) ∧
    (∀ e0 ∈ es, memSKey (levelKeys (es.foldl (fun g2 e => processEffnode g2 aid e level) gg)
        ((es.foldl (fun g2 e => processEffnode g2 aid e level) gg).s_levels.getD level []))
        (skeyOf gg e0) = true) := by
  intro es
  induction es with
  | nil =>
    intro gg hlev
    exact ⟨rfl, fun _ => rfl, fun _ => rfl, fun _ h => h, fun e0 he0 =>
      absurd he0 (List.not_mem_nil e0)⟩
  | cons e rest ih =>
    intro gg hlev
    rw [List.foldl_cons]
    have hlev' : level < (processEffnode gg aid e level).s_levels.length := by
      rw [processEffnode_s_levels_length]
      exact hlev
    obtain ⟨ilen, ikey, ieff, imono, iest⟩ := ih (processEffnode gg aid e level) hlev'
    have hkeq : ∀ i, skeyOf (processEffnode gg aid e level) i = skeyOf gg i :=
      fun i => by
        obtain ⟨_, _, _, _, hsf, _⟩ := processEffnode_facts gg aid e level
        unfold skeyOf
        rw [(hsf i).1, (hsf i).2.1]
    have heeq : ∀ i, (aAt (processEffnode gg aid e level) i).effnodes = (aAt gg i).effnodes :=
      fun i => by
        obtain ⟨_, _, _, _, _, haf, _⟩ := processEffnode_facts gg aid e level
        exact (haf i).2.2.1
    refine ⟨by rw [ilen, processEffnode_s_levels_length], ?_, ?_, ?_, ?_⟩
    · intro i
      rw [ikey i, hkeq i]
    · intro i
      rw [ieff i, heeq i]
    · intro k hk
      exact imono k (processEffnode_mem_mono gg aid e level k hlev hk)
    · intro e0 he0
      rcases List.mem_cons.mp he0 with rfl | he0'
      · have := processEffnode_mem_self gg aid e0 level hlev
        exact imono _ this
      · rw [← hkeq e0]
        exact iest e0 he0'

/-- The outer fold of `add_literal_level`: every effect value of every listed
action-level instance ends up, by value, in the literal level. -/
theorem alFold_facts (level : Nat) : ∀ (aids : List Nat) (gg : PG),
    level < gg.s_levels.length →
    (aids.foldl (fun g2 a => effFold g2 a level) gg).s_levels.length =
      gg.s_levels.length ∧
    (∀ i, skeyOf (aids.foldl (fun g2 a => effFold g2 a level) gg) i = skeyOf gg i) ∧
    (∀ i, (aAt (aids.foldl (fun g2 a => effFold g2 a level) gg) i).effnodes =
      (aAt gg i).effnodes) ∧
    (∀ k, memSKey (levelKeys gg (gg.s_levels.getD level [])) k = true →
      memSKey (levelKeys (aids.foldl (fun g2 a => effFold g2 a level) gg)
        ((aids.foldl (fun g2 a => effFold g2 a level) gg).s_levels.getD level []))
        k = true) ∧
    (∀ a0 ∈ aids, ∀ e0 ∈ (aAt gg a0).effnodes,
      memSKey (levelKeys (aids.foldl (fun g2 a => effFold g2 a level) gg)
        ((aids.foldl (fun g2 a => effFold g2 a level) gg).s_levels.getD level []))
        (skeyOf gg e0) = true) := by
  intro aids
  induction aids with
  | nil =>
    intro gg hlev
    exact ⟨rfl, fun _ => rfl, fun _ => rfl, fun _ h => h, fun a0 ha0 =>
      absurd ha0 (List.not_mem_nil a0)⟩
  | cons a rest ih =>
    intro gg hlev
    rw [List.foldl_cons]
    have heF : effFold gg a level =
        ((aAt gg a).effnodes).foldl (fun g2 e => processEffnode g2 a e level) gg := rfl
    obtain ⟨plen, pkey, peff, pmono, pest⟩ := peFold_facts a level (aAt gg a).effnodes gg hlev
    rw [← heF] at plen pkey peff pmono pest
    have hlev' : level < (effFold gg a level).s_levels.length := by
      rw [plen]
      exact hlev
    obtain ⟨ilen, ikey, ieff, imono, iest⟩ := ih (effFold gg a level) hlev'
    refine ⟨by rw [ilen, plen], ?_, ?_, ?_, ?_⟩
    · intro i
      rw [ikey i, pkey i]
    · intro i
      rw [ieff i, peff i]
    · intro k hk
      exact imono k (pmono k hk)
    · intro a0 ha0 e0 he0
      rcases List.mem_cons.mp ha0 with rfl | ha0'
      · rw [← pkey e0]
        have hh := pest e0 he0
        rw [← pkey e0] at hh
        exact imono _ hh
      · rw [← pkey e0]
        exact iest a0 ha0' e0 (by rw [peff a0]; exact he0)

/-- Every effect value of every instance of the previous action level is, by
value, a member of the new literal level built by `add_literal_level`. -/
theorem add_literal_level_covers (g : PG) (level : Nat) (hlev : g.s_levels.length = level)
    (aid : Nat) (haid : aid ∈ g.a_levels.getD (level - 1) [])
    (eid : Nat) (heid : eid ∈ (aAt g aid).effnodes) :
    memSKey (levelKeys (add_literal_level g level)
      ((add_literal_level g level).s_levels.getD level [])) (skeyOf g eid) = true := by
  have hal : add_literal_level g level =
      (({ g with s_levels := g.s_levels ++ [[]] } : PG).a_levels.getD (level - 1) []).foldl
        (fun gg aid => effFold gg aid level) ({ g with s_levels := g.s_levels ++ [[]] } : PG)
      := rfl
  have hlev0 : level < ({ g with s_levels := g.s_levels ++ [[]] } : PG).s_levels.length := by
    show level < (g.s_levels ++ [[]]).length
    rw [List.length_append, hlev]
    simp
  obtain ⟨_, _, _, _, hest⟩ := alFold_facts level
    (({ g with s_levels := g.s_levels ++ [[]] } : PG).a_levels.getD (level - 1) [])
    ({ g with s_levels := g.s_levels ++ [[]] } : PG) hlev0
  rw [← hal] at hest
  exact hest aid haid eid heid
end PlanGraph

namespace PlanGraph

/-- One level-off iteration: literal-level content is monotone by value (via
the no-op persistence actions), all literal values stay inside the vocabulary,
and the previous level's value list is unchanged. -/
theorem graphStep_C6 (acts0 : List PAction) (vocab : List Nat)
    (heffs : ∀ a ∈ acts0 ++ noop_actions vocab, ∀ k ∈ effKeysOf a, k.symbol ∈ vocab)
    (hname : ∀ a ∈ acts0, a.name.isLeft = true)
    (g : PG) (level : Nat)
    (hs : g.s_levels.length = level + 1) (ha : g.a_levels.length = level)
    (hok : LevelOK g)
    (hacts : g.all_actions = acts0 ++ noop_actions vocab)
    (hsym : ∀ k, memSKey (levelKeys g (g.s_levels.getD level [])) k = true →
      k.symbol ∈ vocab) :
    (∀ k, memSKey (levelKeys g (g.s_levels.getD level [])) k = true →
      memSKey (levelKeys (graphStep g level)
        ((graphStep g level).s_levels.getD (level + 1) [])) k = true) ∧
    (∀ k, memSKey (levelKeys (graphStep g level)
        ((graphStep g level).s_levels.getD (level + 1) [])) k = true → k.symbol ∈ vocab) ∧
    levelKeys (graphStep g level) ((graphStep g level).s_levels.getD level []) =
      levelKeys g (g.s_levels.getD level []) := by
  obtain ⟨okS, okSdisj, okA, okAdisj⟩ := hok
  have hlastmem : g.s_levels.getD level [] ∈ g.s_levels :=
    getD_mem _ _ _ (by omega)
  have hsbd : ∀ i ∈ g.s_levels.getD level [], i < g.snodes.length :=
    (okS _ hlastmem).2.1
  have hcov0 : ∀ k, memSKey (levelKeys g (g.s_levels.getD level [])) k = true →
      covOK (add_action_level g level) level k := by
    intro k hm
    have hsymk : k.symbol ∈ vocab := hsym k hm
    apply add_action_level_covOK g level ha (noopFor k)
    · rw [hacts]
      exact List.mem_append_right _ (noopFor_mem vocab k hsymk)
    · rw [hacts]
      exact actKey_distinct acts0 vocab hname k
    · exact memSKey_effKeysOf_noopFor k
    · exact hsbd
    · exact enabledAt_noopFor g level k hm
  have hePr : effPr g.all_actions (add_action_level g level) level :=
    add_action_level_effPr g level ha
  set g1 := add_action_level g level with hg1def
  obtain ⟨a_sl, a_meta, a_slen, a_sbelow, a_sabove, a_alen, a_abelow, a_aabove, L, a_shape,
    a_bnd, a_nd⟩ := add_action_level_facts g level ha
  have hlvlA : g1.a_levels.getD level [] = L := by
    rw [← hg1def] at a_shape
    rw [a_shape, ← ha]
    exact getD_snoc_self _ _ _
  rw [← hg1def] at a_sl a_meta a_slen a_sbelow a_sabove a_alen a_abelow a_aabove a_shape a_bnd a_nd
  have hBpre_empty : ∀ i ∈ L, (aAt g1 i).mutex = [] := by
    intro i hi
    exact (a_aabove i (a_bnd i hi).1).1
  obtain ⟨b_eq, b_alen, b_akeys, b_apar, b_ach, b_aeff, b_aact, b_aoff, b_sym, b_irr⟩ :=
    update_a_mutex_ok g1 L a_nd (fun n hn => (a_bnd n hn).2)
      (symOnA_of_empty g1 L hBpre_empty) (irreflOnA_of_empty g1 L hBpre_empty)
  set g2 := update_a_mutex g1 L with hg2def
  obtain ⟨b_sn, b_sl, b_al, b_meta⟩ := eqExceptA_fields b_eq
  have hsAt12 : ∀ i, sAt g2 i = sAt g1 i := by
    intro i
    unfold sAt
    rw [b_sn]
  have hkey12 : ∀ i, skeyOf g2 i = skeyOf g1 i := by
    intro i
    unfold skeyOf
    rw [hsAt12]
  have hg2slen : g2.s_levels.length = level + 1 := by
    rw [b_sl, a_sl, hs]
  have hg2al : g2.a_levels.getD ((level + 1) - 1) [] = L := by
    have : (level + 1) - 1 = level := by omega
    rw [this, b_al, hlvlA]
  obtain ⟨c_al, c_meta, c_slen, c_alen, c_sf, c_af, SL, c_shape, c_nd, c_prov⟩ :=
    add_literal_level_facts g2 (level + 1) hg2slen
  rw [hg2al] at c_prov
  have hcov3 : ∀ aid ∈ L, ∀ eid ∈ (aAt g2 aid).effnodes,
      memSKey (levelKeys (add_literal_level g2 (level + 1))
        ((add_literal_level g2 (level + 1)).s_levels.getD (level + 1) []))
        (skeyOf g2 eid) = true := by
    intro aid haid eid heid
    apply add_literal_level_covers g2 (level + 1) hg2slen aid _ eid heid
    rw [hg2al]
    exact haid
  set g3 := add_literal_level g2 (level + 1) with hg3def
  have hkey23 : ∀ i, skeyOf g3 i = skeyOf g2 i := by
    intro i
    unfold skeyOf
    rw [(c_sf i).1, (c_sf i).2.1]
  have hlvlS : g3.s_levels.getD (level + 1) [] = SL := by
    rw [c_shape, b_sl, a_sl, ← hs]
    exact getD_snoc_self _ _ _
  have hSLfresh : ∀ e ∈ SL, g.snodes.length ≤ e ∧ e < g3.snodes.length := by
    intro e he
    obtain ⟨aid, haid, heff⟩ := c_prov e he
    have heff1 : e ∈ (aAt g1 aid).effnodes := by
      rw [← (b_aeff aid)]
      exact heff
    have := (a_aabove aid (a_bnd aid haid).1).2 e heff1
    refine ⟨this.1, ?_⟩
    rw [c_slen, b_sn]
    exact this.2
  have hSLempty : ∀ e ∈ SL, (sAt g3 e).mutex = [] := by
    intro e he
    rw [(c_sf e).2.2.1, hsAt12]
    exact (a_sabove e (hSLfresh e he).1).1
  obtain ⟨d_eq, d_slen, d_skeys, d_spar, d_sch, d_soff, d_sym, d_irr⟩ :=
    update_s_mutex_ok g3 SL c_nd (fun n hn => (hSLfresh n hn).2)
      (symOnS_of_empty g3 SL hSLempty) (irreflOnS_of_empty g3 SL hSLempty)
  set g4 := update_s_mutex g3 SL with hg4def
  obtain ⟨d_an, d_sl, d_al, d_meta⟩ := eqExceptS_fields d_eq
  have hstep : graphStep g level = g4 := by
    show update_s_mutex
        (add_literal_level
          (update_a_mutex (add_action_level g level)
            ((add_action_level g level).a_levels.getD level []))
          (level + 1))
        ((add_literal_level
          (update_a_mutex (add_action_level g level)
            ((add_action_level g level).a_levels.getD level []))
          (level + 1)).s_levels.getD (level + 1) []) = g4
    rw [← hg1def, hlvlA, ← hg2def, ← hg3def, hlvlS, ← hg4def]
  have hfin_s : g4.s_levels = g.s_levels ++ [SL] := by
    rw [d_sl, c_shape, b_sl, a_sl]
  have hlk34 : ∀ X, levelKeys g4 X = levelKeys g3 X := by
    intro X
    unfold levelKeys
    exact List.map_congr_left fun i _ => d_skeys i
  have tr_skey : ∀ i, i < g.snodes.length → skeyOf g4 i = skeyOf g i := by
    intro i hi
    rw [d_skeys, hkey23, hkey12]
    unfold skeyOf
    obtain ⟨h1, h2, _, _⟩ := a_sbelow i hi
    rw [h1, h2]
  refine ⟨?_, ?_, ?_⟩
  · -- monotone content
    intro k hm
    rw [hstep]
    obtain ⟨aid, haid1, hmm⟩ := hcov0 k hm
    rw [hlvlA] at haid1
    have hkeyseq : levelKeys g2 (aAt g2 aid).effnodes =
        levelKeys g1 (aAt g1 aid).effnodes := by
      rw [b_aeff aid]
      unfold levelKeys
      exact List.map_congr_left fun i _ => hkey12 i
    have hmm2 : memSKey (levelKeys g2 (aAt g2 aid).effnodes) k = true := by
      rw [hkeyseq]
      exact hmm
    have hkmem : k ∈ (aAt g2 aid).effnodes.map (skeyOf g2) :=
      (memSKey_eq_true_iff _ _).mp hmm2
    obtain ⟨eid, heid, hkeq⟩ := List.mem_map.mp hkmem
    have hc3 := hcov3 aid haid1 eid heid
    rw [hkeq] at hc3
    rw [d_sl, hlk34]
    exact hc3
  · -- vocabulary closure of the new level
    intro k hm
    rw [hstep] at hm
    rw [d_sl, hlk34, hlvlS] at hm
    have hkmem : k ∈ SL.map (skeyOf g3) := (memSKey_eq_true_iff _ _).mp hm
    obtain ⟨e, he, hkeq⟩ := List.mem_map.mp hkmem
    obtain ⟨aid, haid, heff⟩ := c_prov e he
    have haid1 : aid ∈ g1.a_levels.getD level [] := by
      rw [hlvlA]
      exact haid
    obtain ⟨a, hamem, hkeys⟩ := hePr aid haid1
    have heff1 : e ∈ (aAt g1 aid).effnodes := by
      rw [← (b_aeff aid)]
      exact heff
    have hkin : k ∈ levelKeys g1 (aAt g1 aid).effnodes := by
      rw [← hkeq, hkey23, hkey12]
      exact List.mem_map.mpr ⟨e, heff1, rfl⟩
    rw [hkeys] at hkin
    rw [hacts] at hamem
    exact heffs a hamem k hkin
  · -- previous level unchanged
    rw [hstep]
    have hgetold : g4.s_levels.getD level [] = g.s_levels.getD level [] := by
      rw [hfin_s]
      exact getD_append_lt _ _ _ _ (by omega)
    rw [hgetold]
    unfold levelKeys
    exact List.map_congr_left fun i hi => tr_skey i (hsbd i hi)

end PlanGraph

namespace PlanGraph

theorem seedLit_keys (g : PG) (k : SKey) (h : SeedInv g) :
    levelKeys (seedLit g k) ((seedLit g k).s_levels.getD 0 []) =
      skeySetAdd (levelKeys g (g.s_levels.getD 0 [])) k := by
  obtain ⟨ha, L0, hsl, hnd, hbd⟩ := h
  have hget : g.s_levels.getD 0 [] = L0 := by rw [hsl]; rfl
  unfold seedLit
  rw [hget]
  by_cases hmem : memSKey (levelKeys g L0) k = true
  · rw [if_pos hmem, hget]
    unfold skeySetAdd
    rw [if_pos hmem]
  · rw [if_neg hmem]
    set i := g.snodes.length with hidef
    set nd : SNode := ⟨k.symbol, k.is_pos, [], [], []⟩ with hnddef
    set g' : PG := { { g with snodes := g.snodes ++ [nd] } with
        s_levels := updAt (fun L1 => L1 ++ [i]) ({ g with snodes := g.snodes ++ [nd] } : PG).s_levels 0 } with hg'def
    have hsl' : g'.s_levels = [L0 ++ [i]] := by
      show updAt (fun L1 => L1 ++ [i]) g.s_levels 0 = [L0 ++ [i]]
      rw [hsl]
      rfl
    have hget' : g'.s_levels.getD 0 [] = L0 ++ [i] := by
      rw [hsl']
      rfl
    have hAtOld : ∀ j, j < g.snodes.length → sAt g' j = sAt g j := by
      intro j hj
      show (g.snodes ++ [nd]).getD j defSNode = g.snodes.getD j defSNode
      exact getD_append_lt _ _ _ _ hj
    have hAtNew : sAt g' i = nd := by
      show (g.snodes ++ [nd]).getD g.snodes.length defSNode = nd
      exact getD_snoc_self _ _ _
    have hkeyNew : skeyOf g' i = k := by
      unfold skeyOf
      rw [hAtNew, hnddef]
    have hrhs : skeySetAdd (levelKeys g L0) k = levelKeys g L0 ++ [k] := by
      unfold skeySetAdd
      rw [if_neg hmem]
    rw [hget', hrhs]
    unfold levelKeys
    rw [List.map_append]
    congr 1
    · apply List.map_congr_left
      intro j hj
      unfold skeyOf
      rw [hAtOld j (hbd j hj).1]
    · simp [hkeyNew]

theorem foldl_seedLit_keys (ks : List SKey) : ∀ (g : PG), SeedInv g →
    levelKeys (ks.foldl seedLit g) ((ks.foldl seedLit g).s_levels.getD 0 []) =
      ks.foldl skeySetAdd (levelKeys g (g.s_levels.getD 0 [])) := by
  induction ks with
  | nil => intro g _; rfl
  | cons k rest ih =>
    intro g h
    rw [List.foldl_cons, List.foldl_cons, ih (seedLit g k) (seedLit_inv g k h),
      seedLit_keys g k h]

theorem foldl_skeySetAdd_of_fresh (ks : List SKey) : ∀ (acc : List SKey), ks.Nodup →
    (∀ k ∈ ks, memSKey acc k = false) → ks.foldl skeySetAdd acc = acc ++ ks := by
  induction ks with
  | nil => intro acc _ _; simp
  | cons k rest ih =>
    intro acc hnd hf
    rw [List.foldl_cons]
    have hstep : skeySetAdd acc k = acc ++ [k] := by
      unfold skeySetAdd
      rw [hf k (List.mem_cons_self _ _)]
      rw [if_neg (by simp)]
    rw [hstep]
    rw [ih (acc ++ [k]) (List.Nodup.of_cons hnd) ?_]
    · rw [List.append_assoc]
      rfl
    · intro k' hk'
      rw [memSKey_append]
      rw [hf k' (List.mem_cons_of_mem _ hk')]
      have hne : k ≠ k' := by
        intro he
        rw [he] at hnd
        exact (List.nodup_cons.mp hnd).1 hk'
      simp [memSKey]
      exact hne

theorem dedupSKeys_of_nodup (ks : List SKey) (h : ks.Nodup) : dedupSKeys ks = ks := by
  unfold dedupSKeys
  rw [foldl_skeySetAdd_of_fresh ks [] h (fun k _ => rfl)]
  rfl

theorem decode_facts : ∀ (vocab : List Nat) (state : List Bool), vocab.Nodup →
    state.length = vocab.length →
    (∀ x ∈ (decode_state vocab state).1, x ∈ vocab) ∧
    (∀ x ∈ (decode_state vocab state).2, x ∈ vocab) ∧
    (decode_state vocab state).1.Nodup ∧ (decode_state vocab state).2.Nodup ∧
    (decode_state vocab state).1.length + (decode_state vocab state).2.length =
      vocab.length := by
  intro vocab
  induction vocab with
  | nil =>
    intro state _ _
    refine ⟨?_, ?_, ?_, ?_, ?_⟩ <;> simp [decode_state]
  | cons v vs ih =>
    intro state hnd hlen
    cases state with
    | nil => simp at hlen
    | cons b bs =>
      have hlen' : bs.length = vs.length := by simpa using hlen
      obtain ⟨ih1, ih2, ih3, ih4, ih5⟩ := ih bs (List.Nodup.of_cons hnd) hlen'
      have hvnotin : v ∉ vs := (List.nodup_cons.mp hnd).1
      cases b
      · have hd1 : (decode_state (v :: vs) (false :: bs)).1 = (decode_state vs bs).1 := by
          unfold decode_state
          simp
        have hd2 : (decode_state (v :: vs) (false :: bs)).2 =
            v :: (decode_state vs bs).2 := by
          unfold decode_state
          simp
        rw [hd1, hd2]
        refine ⟨fun x hx => List.mem_cons_of_mem _ (ih1 x hx), ?_, ih3, ?_, ?_⟩
        · intro x hx
          rcases List.mem_cons.mp hx with rfl | hx
          · exact List.mem_cons_self _ _
          · exact List.mem_cons_of_mem _ (ih2 x hx)
        · rw [List.nodup_cons]
          exact ⟨fun hx => hvnotin (ih2 v hx), ih4⟩
        · simp
          omega
      · have hd1 : (decode_state (v :: vs) (true :: bs)).1 =
            v :: (decode_state vs bs).1 := by
          unfold decode_state
          simp
        have hd2 : (decode_state (v :: vs) (true :: bs)).2 = (decode_state vs bs).2 := by
          unfold decode_state
          simp
        rw [hd1, hd2]
        refine ⟨?_, fun x hx => List.mem_cons_of_mem _ (ih2 x hx), ?_, ih4, ?_⟩
        · intro x hx
          rcases List.mem_cons.mp hx with rfl | hx
          · exact List.mem_cons_self _ _
          · exact List.mem_cons_of_mem _ (ih1 x hx)
        · rw [List.nodup_cons]
          exact ⟨fun hx => hvnotin (ih1 v hx), ih3⟩
        · simp
          omega

/-- The key list seeded into S0 by `seedS0`. -/
def seedKeys (g : PG) : List SKey :=
  g.fs_pos.map (fun p => SKey.mk p true) ++ g.fs_neg.map (fun p => SKey.mk p false)

theorem seedKeys_facts (vocab : List Nat) (state : List Bool) (goal : List Nat)
    (acts0 : List PAction) (serial : Bool) (hnd : vocab.Nodup)
    (hlen : state.length = vocab.length) :
    (seedKeys (initPG acts0 vocab goal state serial)).Nodup ∧
    (∀ k ∈ seedKeys (initPG acts0 vocab goal state serial), k.symbol ∈ vocab) ∧
    (seedKeys (initPG acts0 vocab goal state serial)).length = vocab.length := by
  obtain ⟨h1, h2, h3, h4, h5⟩ := decode_facts vocab state hnd hlen
  have hfp : (initPG acts0 vocab goal state serial).fs_pos = (decode_state vocab state).1 := rfl
  have hfn : (initPG acts0 vocab goal state serial).fs_neg = (decode_state vocab state).2 := rfl
  unfold seedKeys
  rw [hfp, hfn]
  refine ⟨?_, ?_, ?_⟩
  · rw [List.nodup_append]
    refine ⟨h3.map (fun a b hab => by simpa using hab),
      h4.map (fun a b hab => by simpa using hab), ?_⟩
    intro x hx hx'
    obtain ⟨f1, _, rfl⟩ := List.mem_map.mp hx
    obtain ⟨f2, _, hcon⟩ := List.mem_map.mp hx'
    simp at hcon
  · intro k hk
    rcases List.mem_append.mp hk with hk | hk
    · obtain ⟨f, hf, rfl⟩ := List.mem_map.mp hk
      exact h1 f hf
    · obtain ⟨f, hf, rfl⟩ := List.mem_map.mp hk
      exact h2 f hf
  · rw [List.length_append, List.length_map, List.length_map]
    exact h5

theorem seedS0_keys (g : PG) (h0s : g.s_levels = []) (h0a : g.a_levels = []) :
    levelKeys (seedS0 g) ((seedS0 g).s_levels.getD 0 []) = dedupSKeys (seedKeys g) := by
  have hinv0 : SeedInv ({ g with s_levels := g.s_levels ++ [[]] } : PG) := by
    refine ⟨h0a, [], ?_, List.nodup_nil, ?_⟩
    · show g.s_levels ++ [[]] = [[]]
      rw [h0s]
      rfl
    · intro i hi
      simp at hi
  have hsd : seedS0 g =
      (seedKeys g).foldl seedLit ({ g with s_levels := g.s_levels ++ [[]] } : PG) := rfl
  rw [hsd, foldl_seedLit_keys (seedKeys g) _ hinv0]
  have hget0 : ({ g with s_levels := g.s_levels ++ [[]] } : PG).s_levels.getD 0 [] = [] := by
    show (g.s_levels ++ [[]]).getD 0 [] = []
    rw [h0s]
    rfl
  rw [hget0]
  rfl

end PlanGraph

namespace PlanGraph

/-- The invariant carried through the level-off loop for the termination and
level-count analysis. -/
def C6Inv (acts0 : List PAction) (vocab : List Nat) (level : Nat) (g : PG) : Prop :=
  LevelOK g ∧ g.s_levels.length = level + 1 ∧ g.a_levels.length = level ∧
  g.all_actions = acts0 ++ noop_actions vocab ∧
  (∀ k, memSKey (levelKeys g (g.s_levels.getD level [])) k = true → k.symbol ∈ vocab)

theorem lastKeys_nodup (g : PG) (level : Nat) (hok : LevelOK g)
    (hs : g.s_levels.length = level + 1) :
    (levelKeys g (g.s_levels.getD level [])).Nodup :=
  (hok.1 _ (getD_mem _ _ _ (by omega))).1

theorem lastKeys_bound (vocab : List Nat) (g : PG) (level : Nat)
    (hok : LevelOK g) (hs : g.s_levels.length = level + 1)
    (hsym : ∀ k, memSKey (levelKeys g (g.s_levels.getD level [])) k = true →
      k.symbol ∈ vocab) :
    (levelKeys g (g.s_levels.getD level [])).length ≤ 2 * vocab.length := by
  have h1 : (levelKeys g (g.s_levels.getD level [])).length ≤ (allKeys vocab).length := by
    apply nodup_subset_length _ _ (lastKeys_nodup g level hok hs)
    intro k hk
    exact mem_allKeys vocab k (hsym k ((memSKey_eq_true_iff _ _).mpr hk))
  rw [allKeys_length] at h1
  exact h1

theorem createGraphLoop_C6 (acts0 : List PAction) (vocab : List Nat)
    (heffs : ∀ a ∈ acts0 ++ noop_actions vocab, ∀ k ∈ effKeysOf a, k.symbol ∈ vocab)
    (hname : ∀ a ∈ acts0, a.name.isLeft = true) :
    ∀ (n level : Nat) (g : PG), C6Inv acts0 vocab level g →
      2 * vocab.length + 1 ≤ (levelKeys g (g.s_levels.getD level [])).length + n →
      ∃ g', createGraphLoop n level g = some g' ∧
        g'.s_levels.length + (levelKeys g (g.s_levels.getD level [])).length ≤
          level + 2 + 2 * vocab.length := by
  intro n
  induction n with
  | zero =>
    intro level g hinv hfuel
    obtain ⟨hok, hs, ha, hacts, hsym⟩ := hinv
    have := lastKeys_bound vocab g level hok hs hsym
    omega
  | succ m ih =>
    intro level g hinv hfuel
    obtain ⟨hok, hs, ha, hacts, hsym⟩ := hinv
    obtain ⟨hok1, hs1, ha1, hmeta1⟩ := graphStep_ok g level hs ha hok
    obtain ⟨hmono, hsym1, hframe⟩ :=
      graphStep_C6 acts0 vocab heffs hname g level hs ha hok hacts hsym
    have hinv1 : C6Inv acts0 vocab (level + 1) (graphStep g level) := by
      refine ⟨hok1, hs1, ha1, ?_, hsym1⟩
      rw [hmeta1.2.1, hacts]
    unfold createGraphLoop
    by_cases hcond : sLevelSetEq (graphStep g level)
        ((graphStep g level).s_levels.getD (level + 1) [])
        ((graphStep g level).s_levels.getD level []) = true
    · rw [if_pos hcond]
      refine ⟨graphStep g level, rfl, ?_⟩
      have := lastKeys_bound vocab g level hok hs hsym
      omega
    · rw [if_neg hcond]
      -- the comparison failed: the new level strictly grew
      have hgrow : (levelKeys g (g.s_levels.getD level [])).length + 1 ≤
          (levelKeys (graphStep g level)
            ((graphStep g level).s_levels.getD (level + 1) [])).length := by
        have hsub : ∀ k ∈ levelKeys g (g.s_levels.getD level []),
            k ∈ levelKeys (graphStep g level)
              ((graphStep g level).s_levels.getD (level + 1) []) := by
          intro k hk
          exact (memSKey_eq_true_iff _ _).mp
            (hmono k ((memSKey_eq_true_iff _ _).mpr hk))
        have hY : ((graphStep g level).s_levels.getD level []).all
            (fun i => memSKey (levelKeys (graphStep g level)
              ((graphStep g level).s_levels.getD (level + 1) []))
              (skeyOf (graphStep g level) i)) = true := by
          rw [List.all_eq_true]
          intro i hi
          apply hmono
          rw [← hframe]
          apply (memSKey_eq_true_iff _ _).mpr
          exact List.mem_map.mpr ⟨i, hi, rfl⟩
        have hX : ¬(((graphStep g level).s_levels.getD (level + 1) []).all
            (fun i => memSKey (levelKeys (graphStep g level)
              ((graphStep g level).s_levels.getD level []))
              (skeyOf (graphStep g level) i)) = true) := by
          intro hX
          apply hcond
          unfold sLevelSetEq
          rw [hX, hY]
          rfl
        rw [List.all_eq_true] at hX
        push_neg at hX
        obtain ⟨j, hj, hjmem⟩ := hX
        have hx_new : skeyOf (graphStep g level) j ∈ levelKeys (graphStep g level)
            ((graphStep g level).s_levels.getD (level + 1) []) :=
          List.mem_map.mpr ⟨j, hj, rfl⟩
        have hx_old : skeyOf (graphStep g level) j ∉
            levelKeys g (g.s_levels.getD level []) := by
          intro hmem
          apply hjmem
          rw [← hframe] at hmem
          exact (memSKey_eq_true_iff _ _).mpr hmem
        have hnd0 : (levelKeys g (g.s_levels.getD level [])).Nodup :=
          lastKeys_nodup g level hok hs
        have hcons_nd : (skeyOf (graphStep g level) j ::
            levelKeys g (g.s_levels.getD level [])).Nodup := by
          rw [List.nodup_cons]
          exact ⟨hx_old, hnd0⟩
        have hcons_sub : (skeyOf (graphStep g level) j ::
            levelKeys g (g.s_levels.getD level [])) ⊆
            levelKeys (graphStep g level)
              ((graphStep g level).s_levels.getD (level + 1) []) := by
          intro x hx
          rcases List.mem_cons.mp hx with rfl | hx
          · exact hx_new
          · exact hsub x hx
        have := nodup_subset_length _ _ hcons_nd hcons_sub
        simpa using this
      obtain ⟨g', hloop, hbnd⟩ := ih (level + 1) (graphStep g level) hinv1 (by omega)
      exact ⟨g', hloop, by omega⟩

end PlanGraph

namespace PlanGraph

theorem seed_C6Inv (acts0 : List PAction) (vocab goal : List Nat) (state : List Bool)
    (serial : Bool) (hnd : vocab.Nodup) (hlen : state.length = vocab.length) :
    C6Inv acts0 vocab 0 (seedS0 (initPG acts0 vocab goal state serial)) ∧
    (levelKeys (seedS0 (initPG acts0 vocab goal state serial))
      ((seedS0 (initPG acts0 vocab goal state serial)).s_levels.getD 0 [])).length =
      vocab.length := by
  obtain ⟨hseed, hmeta⟩ := seedS0_ok (initPG acts0 vocab goal state serial) rfl rfl
  obtain ⟨hok, hs, ha⟩ := SeedInv_LevelOK _ hseed
  obtain ⟨ksnd, kssym, kslen⟩ := seedKeys_facts vocab state goal acts0 serial hnd hlen
  have hkeys := seedS0_keys (initPG acts0 vocab goal state serial) rfl rfl
  rw [dedupSKeys_of_nodup _ ksnd] at hkeys
  refine ⟨⟨hok, hs, ha, ?_, ?_⟩, ?_⟩
  · rw [hmeta.2.1]
    rfl
  · intro k hk
    rw [hkeys] at hk
    exact kssym k ((memSKey_eq_true_iff _ _).mp hk)
  · rw [hkeys]
    exact kslen

/-- C6: for a duplicate-free vocabulary of size `V` and a decodable initial
state, the level-off loop terminates (fuel `V + 1` suffices) — but the spec's
level-count bound `2V + 1` is off by one in the degenerate case: the
construction always produces at least two literal levels, so the correct
uniform bounds are `V + 2` (hence `2V + 2`), and the spec's `2V + 1` holds
exactly when `V ≥ 1`. -/
theorem C6_level_off_termination (acts0 : List PAction) (vocab goal : List Nat)
    (state : List Bool) (serial : Bool)
    (hnd : vocab.Nodup) (hlen : state.length = vocab.length)
    (hname : ∀ a ∈ acts0, a.name.isLeft = true)
    (heff : ∀ a ∈ acts0, (∀ e ∈ a.effect_add, e ∈ vocab) ∧
      (∀ e ∈ a.effect_rem, e ∈ vocab)) :
    ∃ g, mkPlanningGraph (vocab.length + 1) acts0 vocab goal state serial = (g, none) ∧
      g.s_levels.length ≤ vocab.length + 2 ∧
      g.s_levels.length ≤ 2 * vocab.length + 2 ∧
      (1 ≤ vocab.length → g.s_levels.length ≤ 2 * vocab.length + 1) := by
  obtain ⟨hinv, hklen⟩ := seed_C6Inv acts0 vocab goal state serial hnd hlen
  have heffs := effKeysOf_symbol_vocab acts0 vocab heff
  obtain ⟨g', hloop, hbnd⟩ := createGraphLoop_C6 acts0 vocab heffs hname
    (vocab.length + 1) 0 (seedS0 (initPG acts0 vocab goal state serial)) hinv
    (by rw [hklen]; omega)
  rw [hklen] at hbnd
  refine ⟨g', ?_, by omega, by omega, by intro h; omega⟩
  unfold mkPlanningGraph create_graph
  have hguard : ((initPG acts0 vocab goal state serial).s_levels.length != 0 ||
      (initPG acts0 vocab goal state serial).a_levels.length != 0) = false := rfl
  rw [hguard]
  simp only [Bool.false_eq_true, if_false]
  rw [hloop]

/-- C6 counterexample: with the empty vocabulary (`V = 0`) the construction
terminates with two literal levels, violating the spec's `2V + 1 = 1` bound. -/
theorem C6_counterexample :
    (mkPlanningGraph 1 [] [] [] [] false).2 = none ∧
    (mkPlanningGraph 1 [] [] [] [] false).1.s_levels.length = 2 ∧
    ¬((mkPlanningGraph 1 [] [] [] [] false).1.s_levels.length ≤
      2 * ([] : List Nat).length + 1) := by
  refine ⟨rfl, rfl, ?_⟩
  decide

/-- C6 witness: the amended bound instantiated on a one-fluent problem. -/
theorem C6_witness :
    ∃ g, mkPlanningGraph (([0] : List Nat).length + 1) [] [0] [0] [false] false =
        (g, none) ∧
      g.s_levels.length ≤ ([0] : List Nat).length + 2 ∧
      g.s_levels.length ≤ 2 * ([0] : List Nat).length + 2 ∧
      (1 ≤ ([0] : List Nat).length → g.s_levels.length ≤ 2 * ([0] : List Nat).length + 1) :=
  C6_level_off_termination [] [0] [0] [false] false (by decide) (by decide)
    (fun a ha => absurd ha (List.not_mem_nil a))
    (fun a ha => absurd ha (List.not_mem_nil a))

end PlanGraph
